import Mathlib

/-!
Verification of the tado-timescale historical backfill engine and realtime
collector against its natural-language specification.

The Rust sources are shallowly embedded:
* instants (`chrono::DateTime<Utc>`) become `Nat` ticks, one tick = one second,
  with calendar days of `86400` ticks;
* `f64` sensor values become `Int` micro-units (one unit = 1e-6), so the
  source's epsilon `1e-6` is the integer `1` and every constant of the source
  (`20.0`, `0.5`, `50.0`, the `* 100.0` humidity rescale, the heat-call
  percentages) is exactly representable;
* `BTreeMap` becomes a key-sorted association list;
* fallible remote calls become `Except String`.

Each definition carries a pointer to the source location it embeds
(`src/services/backfill.rs`, `src/services/realtime.rs`,
`src/models/tado.rs`, `src/db/models.rs`).
-/

namespace TadoTS

/-- Seconds in one calendar day of the `Nat`-tick model. -/
def daySecs : Nat := 86400

/-- Calendar day of an instant (`DateTime::date_naive` in the model). -/
def dayOf (t : Nat) : Nat := t / daySecs

/-- Midnight instant opening a calendar day. -/
def dayStartOf (d : Nat) : Nat := d * daySecs

/-- backfill.rs line 17: `const BOGUS_TEMP_C: f64 = 20.0`, in micro-units. -/
def BOGUS_TEMP_C : Int := 20000000

/-- backfill.rs line 18: `const BOGUS_HUMIDITY_FRACTION: f64 = 0.5`, in
micro-units. -/
def BOGUS_HUMIDITY_FRACTION : Int := 500000

/-- backfill.rs line 19: `const BOGUS_HUMIDITY_PERCENT: f64 = 50.0`, in
micro-units. -/
def BOGUS_HUMIDITY_PERCENT : Int := 50000000

/-- backfill.rs line 20: `const FLOAT_EPSILON: f64 = 1e-6`, in micro-units. -/
def FLOAT_EPSILON : Int := 1

/-- backfill.rs lines 22-24: `fn approx_eq(lhs: f64, rhs: f64) -> bool`. -/
def approx_eq (lhs rhs : Int) : Bool := decide (|lhs - rhs| ≤ FLOAT_EPSILON)

/-- backfill.rs lines 26-31: `struct Gap`.  `end` is a Lean keyword, so the
field is named `stop` here. -/
structure Gap where
  start : Nat
  stop : Nat
  start_inclusive : Bool
deriving Repr, DecidableEq

/-- Membership of an instant in one Gap, as tested inside
`timestamp_in_any_gap` (backfill.rs lines 56-63). -/
def inGap (ts : Nat) (gap : Gap) : Bool :=
  (if gap.start_inclusive then decide (gap.start ≤ ts) else decide (gap.start < ts))
    && decide (ts < gap.stop)

/-- backfill.rs lines 55-64: `fn timestamp_in_any_gap`. -/
def timestamp_in_any_gap (ts : Nat) (gaps : List Gap) : Bool :=
  gaps.any (inGap ts)

/-- backfill.rs lines 408-426: the inner loop of `find_zone_gaps` emitting
interior gaps between consecutive stored timestamps and the trailing gap up to
the bucket end, all with exclusive starts. -/
def interiorAndTrailing (prev : Nat) (ts : List Nat) (dayEnd minGap : Nat) : List Gap :=
  match ts with
  | [] =>
      if minGap ≤ dayEnd - prev then [⟨prev, dayEnd, false⟩] else []
  | t :: rest =>
      (if minGap ≤ t - prev then [⟨prev, t, false⟩] else []) ++
        interiorAndTrailing t rest dayEnd minGap

/-- backfill.rs lines 388-427: the per-day-bucket gap computation of
`find_zone_gaps`: an empty bucket yields one full-bucket inclusive gap, a
populated bucket yields an inclusive leading gap before the first stored
timestamp followed by exclusive interior/trailing gaps, each only when its
duration reaches `min_gap`. -/
def gapsForDay (effStart dayEnd : Nat) (dayTimes : List Nat) (minGap : Nat) : List Gap :=
  match dayTimes with
  | [] =>
      if minGap ≤ dayEnd - effStart then [⟨effStart, dayEnd, true⟩] else []
  | first :: rest =>
      (if minGap ≤ first - effStart then [⟨effStart, first, true⟩] else []) ++
        interiorAndTrailing first rest dayEnd minGap

/-- backfill.rs lines 352-437: the day-bucket loop of `find_zone_gaps`.  `d` is
the cursor date, `fuel` the number of remaining days up to and including
`dayOf now`, and `times` the not-yet-consumed suffix of the sorted stored
timestamps (the source walks an index `idx` over the full sorted vector, which
is the same walk). -/
def findZoneGapsGo (startT now minGap : Nat) :
    Nat → Nat → List Nat → List (Nat × List Gap)
  | _, 0, _ => []
  | d, fuel + 1, times =>
      let dayStartT := dayStartOf d
      let effStart := if d = dayOf startT ∧ dayStartT < startT then startT else dayStartT
      let dayEnd := if d = dayOf now then now else dayStartOf (d + 1)
      if dayEnd ≤ effStart then
        findZoneGapsGo startT now minGap (d + 1) fuel times
      else
        let rest1 := times.dropWhile (fun t => decide (t < effStart))
        let dayTimes := rest1.takeWhile (fun t => decide (t < dayEnd))
        let rest2 := rest1.dropWhile (fun t => decide (t < dayEnd))
        let dayGaps := gapsForDay effStart dayEnd dayTimes minGap
        let tail := findZoneGapsGo startT now minGap (d + 1) fuel rest2
        if dayGaps.isEmpty then tail else (d, dayGaps) :: tail

/-- backfill.rs lines 320-440: `fn find_zone_gaps`.  The store read (lines
335-346) is replaced by the parameter `times`, the sorted list of the zone's
stored timestamps in `[start, now)`; `Utc::now()` is the parameter `now`. -/
def find_zone_gaps (startT now : Nat) (times : List Nat) (minGap : Nat) :
    List (Nat × List Gap) :=
  if now ≤ startT then []
  else findZoneGapsGo startT now minGap (dayOf startT) (dayOf now + 1 - dayOf startT) times

/-- All gaps of a per-day gap map, in day order. -/
def allGaps (m : List (Nat × List Gap)) : List Gap :=
  m.foldr (fun p acc => p.2 ++ acc) []

/-! ## Bogus-Day Classifier: day-report model (models/tado.rs)

Only the fields read by `backfill.rs` and `realtime.rs` are embedded; every
field is optional exactly as in the source.  Instants are `Nat` ticks and
`f64` values are micro-unit `Int`s as explained above. -/

/-- models/tado.rs lines 321-324: `struct Temperature` (the unread
`fahrenheit` field is omitted). -/
structure Temperature where
  celsius : Option Int
deriving Repr, DecidableEq

/-- models/tado.rs lines 1177-1181: `struct TemperatureDataPointInTimeSeries`. -/
structure TemperatureDataPointInTimeSeries where
  timestamp : Option Nat
  value : Option Temperature
deriving Repr, DecidableEq

/-- models/tado.rs lines 1183-1191: `struct TemperatureTimeSeries` (metadata
fields unread by the core are omitted). -/
structure TemperatureTimeSeries where
  data_points : Option (List TemperatureDataPointInTimeSeries)
deriving Repr, DecidableEq

/-- models/tado.rs lines 1107-1110: `struct PercentageDataPointInTimeSeries`. -/
structure PercentageDataPointInTimeSeries where
  timestamp : Option Nat
  value : Option Int
deriving Repr, DecidableEq

/-- models/tado.rs lines 1112-1121: `struct PercentageTimeSeries`. -/
structure PercentageTimeSeries where
  data_points : Option (List PercentageDataPointInTimeSeries)
deriving Repr, DecidableEq

/-- models/tado.rs lines 399-404: `struct DataInterval`.  `from` is a Lean
keyword, hence `lower`; `to` is unread and omitted. -/
structure DataInterval where
  lower : Option Nat
deriving Repr, DecidableEq

/-- models/tado.rs lines 559-564: `struct BooleanDataInterval`. -/
structure BooleanDataInterval where
  interval : DataInterval
  value : Option Bool
deriving Repr, DecidableEq

/-- models/tado.rs lines 566-571: `struct BooleanTimeSeries`. -/
structure BooleanTimeSeries where
  data_intervals : Option (List BooleanDataInterval)
deriving Repr, DecidableEq

/-- models/tado.rs lines 139-150: `enum CallForHeatValue`. -/
inductive CallForHeatValue where
  | none_
  | low
  | medium
  | high
deriving Repr, DecidableEq

/-- models/tado.rs lines 586-591: `struct CallForHeatDataInterval`. -/
structure CallForHeatDataInterval where
  interval : DataInterval
  value : Option CallForHeatValue
deriving Repr, DecidableEq

/-- models/tado.rs lines 593-598: `struct CallForHeatTimeSeries`. -/
structure CallForHeatTimeSeries where
  data_intervals : Option (List CallForHeatDataInterval)
deriving Repr, DecidableEq

/-- models/tado.rs lines 223-229: `enum Power`. -/
inductive Power where
  | on
  | off
deriving Repr, DecidableEq

/-- models/tado.rs lines 1126-1131: `struct PowerDataInterval`. -/
structure PowerDataInterval where
  interval : DataInterval
  value : Option Power
deriving Repr, DecidableEq

/-- models/tado.rs lines 1133-1139: `struct PowerTimeSeries`. -/
structure PowerTimeSeries where
  data_intervals : Option (List PowerDataInterval)
deriving Repr, DecidableEq

/-- models/tado.rs lines 116-124: `enum AirConditioningMode`. -/
inductive AirConditioningMode where
  | auto
  | cool
  | heat
  | dry
  | fan
deriving Repr, DecidableEq

/-- utils.rs lines 70-72 applied to `AirConditioningMode`: `serde_enum_name`
serializes a unit enum variant to its SCREAMING_SNAKE_CASE name and never
fails on these enums, so the model returns the name directly. -/
def acModeName : AirConditioningMode → String
  | .auto => "AUTO"
  | .cool => "COOL"
  | .heat => "HEAT"
  | .dry => "DRY"
  | .fan => "FAN"

/-- models/tado.rs lines 274-291: `enum WeatherState` (three representative
variants suffice for the embedded logic, which only serializes the name or
tests presence). -/
inductive WeatherState where
  | sun
  | cloudy
  | rain
deriving Repr, DecidableEq

/-- utils.rs lines 70-72 applied to `WeatherState`. -/
def weatherStateName : WeatherState → String
  | .sun => "SUN"
  | .cloudy => "CLOUDY"
  | .rain => "RAIN"

/-- models/tado.rs lines 1452-1462: `struct ZoneSetting` (unread fields
omitted). -/
structure ZoneSetting where
  power : Option Power
  temperature : Option Temperature
  mode : Option AirConditioningMode
deriving Repr, DecidableEq

/-- models/tado.rs lines 1464-1470: `struct ZoneSettingDataInterval`. -/
structure ZoneSettingDataInterval where
  interval : DataInterval
  value : Option ZoneSetting
deriving Repr, DecidableEq

/-- models/tado.rs lines 1472-1478: `struct ZoneSettingTimeSeries`. -/
structure ZoneSettingTimeSeries where
  data_intervals : Option (List ZoneSettingDataInterval)
deriving Repr, DecidableEq

/-- models/tado.rs lines 1236-1241: `struct WeatherConditionValue`. -/
structure WeatherConditionValue where
  state : Option WeatherState
  temperature : Option Temperature
deriving Repr, DecidableEq

/-- models/tado.rs lines 1243-1249: `struct WeatherConditionDataInterval`. -/
structure WeatherConditionDataInterval where
  interval : DataInterval
  value : Option WeatherConditionValue
deriving Repr, DecidableEq

/-- models/tado.rs lines 1251-1257: `struct WeatherConditionTimeSeries`. -/
structure WeatherConditionTimeSeries where
  data_intervals : Option (List WeatherConditionDataInterval)
deriving Repr, DecidableEq

/-- models/tado.rs lines 1259-1264: `struct WeatherSlot`. -/
structure WeatherSlot where
  state : Option WeatherState
  temperature : Option Temperature
deriving Repr, DecidableEq

/-- models/tado.rs lines 1266-1271: `struct WeatherSlotTimeSeries`.  The
source declares `slots: Option<BTreeMap<String, WeatherSlot>>`, but
backfill.rs line 136 iterates the map's values and calls `.is_some()` on each,
i.e. it treats each value as optional; the model keeps the values (the keys
are never read) with that optionality. -/
structure WeatherSlotTimeSeries where
  slots : Option (List (Option WeatherSlot))
deriving Repr, DecidableEq

/-- models/tado.rs lines 617-623: `struct DayReportMeasuredData`. -/
structure DayReportMeasuredData where
  measuring_device_connected : Option BooleanTimeSeries
  inside_temperature : Option TemperatureTimeSeries
  humidity : Option PercentageTimeSeries
deriving Repr, DecidableEq

/-- models/tado.rs lines 625-631: `struct DayReportWeather` (`sunny` is never
read and omitted). -/
structure DayReportWeather where
  condition : Option WeatherConditionTimeSeries
  slots : Option WeatherSlotTimeSeries
deriving Repr, DecidableEq

/-- models/tado.rs lines 633-646: `struct DayReport` (fields never read by the
core are omitted). -/
structure DayReport where
  measured_data : Option DayReportMeasuredData
  settings : Option ZoneSettingTimeSeries
  call_for_heat : Option CallForHeatTimeSeries
  ac_activity : Option PowerTimeSeries
  weather : Option DayReportWeather
deriving Repr, DecidableEq

/-- backfill.rs lines 76-84: the inside-temperature loop of
`is_day_report_bogus`.  Returns the pair (indoor_had_data,
indoor_has_real_signal) with the source's break-on-deviation behaviour;
`had` accumulates `indoor_had_data` so far. -/
def scanTempPoints : List TemperatureDataPointInTimeSeries → Bool → Bool × Bool
  | [], had => (had, false)
  | p :: rest, had =>
      match p.value.bind Temperature.celsius with
      | some v => if approx_eq v BOGUS_TEMP_C then scanTempPoints rest true else (true, true)
      | none => scanTempPoints rest had

/-- backfill.rs lines 90-98: the humidity loop of `is_day_report_bogus`. -/
def scanHumidityPoints : List PercentageDataPointInTimeSeries → Bool → Bool × Bool
  | [], had => (had, false)
  | p :: rest, had =>
      match p.value with
      | some v =>
          if approx_eq v BOGUS_HUMIDITY_FRACTION then scanHumidityPoints rest true
          else (true, true)
      | none => scanHumidityPoints rest had

/-- backfill.rs lines 115-129: the weather-condition loop of
`is_day_report_bogus`: an interval with a value counts as outdoor data, and is
a real signal when the value carries a celsius temperature or a state; an
interval without a value still counts as outdoor data. -/
def scanConditionIntervals : List WeatherConditionDataInterval → Bool → Bool × Bool
  | [], had => (had, false)
  | di :: rest, _had =>
      match di.value with
      | some v =>
          if (v.temperature.bind Temperature.celsius).isSome || v.state.isSome then (true, true)
          else scanConditionIntervals rest true
      | none => scanConditionIntervals rest true

/-- backfill.rs lines 134-140: the weather-slots loop of
`is_day_report_bogus`: every slot counts as outdoor data, a present slot value
is a real signal. -/
def scanSlots : List (Option WeatherSlot) → Bool → Bool × Bool
  | [], had => (had, false)
  | s :: rest, _had =>
      if s.isSome then (true, true) else scanSlots rest true

/-- backfill.rs lines 67-100: the indoor half of `is_day_report_bogus`: the
pair (indoor_had_data, indoor_has_real_signal) after the temperature loop and
the (conditional) humidity loop. -/
def indoorScanOf (report : DayReport) : Bool × Bool :=
  let tempScan :=
    match report.measured_data.bind
        (fun md => md.inside_temperature.bind TemperatureTimeSeries.data_points) with
    | some points => scanTempPoints points false
    | none => (false, false)
  if tempScan.2 then tempScan
  else
    match report.measured_data.bind
        (fun md => md.humidity.bind PercentageTimeSeries.data_points) with
    | some points => scanHumidityPoints points tempScan.1
    | none => tempScan

/-- backfill.rs lines 106-142: the outdoor half of `is_day_report_bogus`: the
pair (outdoor_had_data, outdoor_has_real_signal) after the condition loop and
the (conditional) slots loop. -/
def outdoorScanOf (report : DayReport) : Bool × Bool :=
  let condScan :=
    match report.weather.bind
        (fun w => w.condition.bind WeatherConditionTimeSeries.data_intervals) with
    | some dis => scanConditionIntervals dis false
    | none => (false, false)
  if condScan.2 then condScan
  else
    match report.weather.bind (fun w => w.slots.bind WeatherSlotTimeSeries.slots) with
    | some ss => scanSlots ss condScan.1
    | none => condScan

/-- backfill.rs lines 66-148: `fn is_day_report_bogus`: non-bogus on a real
indoor signal (lines 102-104), otherwise `indoor_bogus && outdoor_bogus`
(lines 144-147). -/
def is_day_report_bogus (report : DayReport) : Bool :=
  let indoorScan := indoorScanOf report
  if indoorScan.2 then false
  else
    let outdoorScan := outdoorScanOf report
    (indoorScan.1 && !indoorScan.2) && (outdoorScan.1 && !outdoorScan.2)

/-! ## Bogus-Day Classifier: binary search (backfill.rs lines 459-512) -/

/-- backfill.rs lines 482-501: the binary-search loop of
`find_first_non_bogus_day`.  `isBogus` stands for one remote probe
(`fetch_day_report_with_limit` + `is_day_report_bogus`); `dstart` is the first
candidate day, `low`/`high` the current offset range, `candidate` the best day
found so far.  The source breaks out of the loop when a non-bogus probe lands
on offset 0. -/
def searchGo (isBogus : Nat → Bool) (dstart : Nat) :
    Nat → Nat → Nat → Option Nat → Option Nat
  | 0, _, _, candidate => candidate
  | fuel + 1, low, high, candidate =>
      if low ≤ high then
        let mid := low + (high - low) / 2
        let day := dstart + mid
        if isBogus day then
          searchGo isBogus dstart fuel (mid + 1) high candidate
        else if mid = 0 then some day
        else searchGo isBogus dstart fuel low (mid - 1) (some day)
      else candidate

/-- backfill.rs lines 459-512: `fn find_first_non_bogus_day` over candidate
days `[dstart, dend]`, with the remote probe abstracted as `isBogus`.  The
loop shrinks the measure `high + 1 - low` on every iteration, so the fuel
`(dend - dstart) + 1` is never exhausted. -/
def find_first_non_bogus_day (isBogus : Nat → Bool) (dstart dend : Nat) : Option Nat :=
  if dend < dstart then none
  else searchGo isBogus dstart (dend - dstart + 1) 0 (dend - dstart) none

/-! ## Measurement rows (db/models.rs) -/

/-- db/models.rs lines 222-239: `struct NewClimateMeasurement`. -/
structure NewClimateMeasurement where
  time : Nat
  home_id : Int
  zone_id : Option Int
  device_id : Option Int
  source : String
  inside_temp_c : Option Int
  humidity_pct : Option Int
  setpoint_temp_c : Option Int
  heating_power_pct : Option Int
  ac_power_on : Option Bool
  ac_mode : Option String
  window_open : Option Bool
  battery_low : Option Bool
  connection_up : Option Bool
deriving Repr, DecidableEq

/-- Modelled from the spec: the constructor `NewClimateMeasurement::new(time,
home_id, zone_id, device_id, source)` is called throughout backfill.rs and
realtime.rs but its body is not among the provided sources.  Per §3 and §4.3
of the spec ("Attributes are all optional/sparse", each row "populated only
with the fields observed at that instant") and the in-repo test
`removes_leading_bogus_rows_only` (backfill.rs lines 819-836, which only
passes if a fresh row has every measurement field unset), it initializes every
measurement field to `none`. -/
def NewClimateMeasurement.new (time : Nat) (home_id : Int) (zone_id device_id : Option Int)
    (source : String) : NewClimateMeasurement :=
  ⟨time, home_id, zone_id, device_id, source,
    none, none, none, none, none, none, none, none, none⟩

/-- Whether a climate row has at least one measurement field populated. -/
def NewClimateMeasurement.populated (row : NewClimateMeasurement) : Bool :=
  row.inside_temp_c.isSome || row.humidity_pct.isSome || row.setpoint_temp_c.isSome ||
    row.heating_power_pct.isSome || row.ac_power_on.isSome || row.ac_mode.isSome ||
    row.window_open.isSome || row.battery_low.isSome || row.connection_up.isSome

/-- db/models.rs lines 256-265: `struct NewWeatherMeasurement`. -/
structure NewWeatherMeasurement where
  time : Nat
  home_id : Int
  source : String
  outside_temp_c : Option Int
  solar_intensity_pct : Option Int
  weather_state : Option String
deriving Repr, DecidableEq

/-- Modelled from the spec: `NewWeatherMeasurement::new(time, home_id,
source)` is likewise not among the provided sources; per the same sparsity
design it initializes the three measurement fields to `none`. -/
def NewWeatherMeasurement.new (time : Nat) (home_id : Int) (source : String) :
    NewWeatherMeasurement :=
  ⟨time, home_id, source, none, none, none⟩

/-! ## Ordered timestamp-keyed map (the reconciler's `BTreeMap`) -/

/-- Lookup in a key-sorted association list (`BTreeMap::get`). -/
def mapFind (k : Nat) : List (Nat × α) → Option α
  | [] => none
  | (k', v) :: rest => if k = k' then some v else mapFind k rest

/-- `by_ts.entry(ts).or_insert_with(dflt)` followed by a field mutation `f` on
the entry, as one operation on a key-sorted association list. -/
def updateEntry (k : Nat) (dflt : α) (f : α → α) : List (Nat × α) → List (Nat × α)
  | [] => [(k, f dflt)]
  | (k', v) :: rest =>
      if k < k' then (k, f dflt) :: (k', v) :: rest
      else if k = k' then (k', f v) :: rest
      else (k', v) :: updateEntry k dflt f rest

/-! ## Series Reconciler (backfill.rs lines 595-733) -/

/-- backfill.rs lines 150-164: `fn measurement_is_leading_bogus`. -/
def measurement_is_leading_bogus (row : NewClimateMeasurement) : Bool :=
  match row.inside_temp_c, row.humidity_pct with
  | some temp, some humidity =>
      if approx_eq temp BOGUS_TEMP_C && approx_eq humidity BOGUS_HUMIDITY_PERCENT then
        row.setpoint_temp_c.isNone && row.heating_power_pct.isNone &&
          row.ac_power_on.isNone && row.ac_mode.isNone && row.window_open.isNone &&
          row.battery_low.isNone && row.connection_up.isNone
      else false
  | _, _ => false

/-- backfill.rs lines 166-179: `fn remove_leading_bogus_rows`: collect the
keys of the leading run of bogus rows, stop at the first non-bogus row, then
remove the collected keys. -/
def remove_leading_bogus_rows (rows : List (Nat × NewClimateMeasurement)) :
    List (Nat × NewClimateMeasurement) :=
  let toRemove :=
    (rows.takeWhile (fun p => measurement_is_leading_bogus p.2)).map Prod.fst
  rows.filter (fun p => !toRemove.contains p.1)

/-- backfill.rs line 609 (and its copies at every series): the fresh
historical climate row for a timestamp. -/
def freshClimateRow (ts : Nat) (dbHomeId dbZoneId : Int) : NewClimateMeasurement :=
  NewClimateMeasurement.new ts dbHomeId (some dbZoneId) none "historical"

/-- backfill.rs lines 599-614: merging the inside-temperature data points of a
day report into the timestamp-keyed row map, restricted to the day's gaps. -/
def applyTempPoints (dbHomeId dbZoneId : Int) (gaps : List Gap)
    (pts : List TemperatureDataPointInTimeSeries)
    (m : List (Nat × NewClimateMeasurement)) : List (Nat × NewClimateMeasurement) :=
  pts.foldl
    (fun acc dp =>
      match dp.timestamp, dp.value.bind Temperature.celsius with
      | some ts, some val =>
          if timestamp_in_any_gap ts gaps then
            updateEntry ts (freshClimateRow ts dbHomeId dbZoneId)
              (fun e => { e with inside_temp_c := some val }) acc
          else acc
      | _, _ => acc)
    m

/-- backfill.rs lines 615-627: merging the humidity data points (scaled from
unit interval to percentage by `* 100.0`). -/
def applyHumidityPoints (dbHomeId dbZoneId : Int) (gaps : List Gap)
    (pts : List PercentageDataPointInTimeSeries)
    (m : List (Nat × NewClimateMeasurement)) : List (Nat × NewClimateMeasurement) :=
  pts.foldl
    (fun acc dp =>
      match dp.timestamp, dp.value with
      | some ts, some val =>
          if timestamp_in_any_gap ts gaps then
            updateEntry ts (freshClimateRow ts dbHomeId dbZoneId)
              (fun e => { e with humidity_pct := some (val * 100) }) acc
          else acc
      | _, _ => acc)
    m

/-- backfill.rs lines 628-644: merging the device-connectivity intervals
(keyed by each interval's `from` instant). -/
def applyConnectivityIntervals (dbHomeId dbZoneId : Int) (gaps : List Gap)
    (dis : List BooleanDataInterval)
    (m : List (Nat × NewClimateMeasurement)) : List (Nat × NewClimateMeasurement) :=
  dis.foldl
    (fun acc di =>
      match di.interval.lower, di.value with
      | some ts, some val =>
          if timestamp_in_any_gap ts gaps then
            updateEntry ts (freshClimateRow ts dbHomeId dbZoneId)
              (fun e => { e with connection_up := some val }) acc
          else acc
      | _, _ => acc)
    m

/-- backfill.rs lines 653-658: the heat-call level to percentage mapping. -/
def callForHeatPct : CallForHeatValue → Int
  | .none_ => 0
  | .low => 33000000
  | .medium => 66000000
  | .high => 100000000

/-- backfill.rs lines 647-665: merging the call-for-heat intervals. -/
def applyCallForHeatIntervals (dbHomeId dbZoneId : Int) (gaps : List Gap)
    (dis : List CallForHeatDataInterval)
    (m : List (Nat × NewClimateMeasurement)) : List (Nat × NewClimateMeasurement) :=
  dis.foldl
    (fun acc di =>
      match di.interval.lower, di.value with
      | some ts, some val =>
          if timestamp_in_any_gap ts gaps then
            updateEntry ts (freshClimateRow ts dbHomeId dbZoneId)
              (fun e => { e with heating_power_pct := some (callForHeatPct val) }) acc
          else acc
      | _, _ => acc)
    m

/-- backfill.rs lines 667-680: merging the AC-activity intervals. -/
def applyAcActivityIntervals (dbHomeId dbZoneId : Int) (gaps : List Gap)
    (dis : List PowerDataInterval)
    (m : List (Nat × NewClimateMeasurement)) : List (Nat × NewClimateMeasurement) :=
  dis.foldl
    (fun acc di =>
      match di.interval.lower, di.value with
      | some ts, some val =>
          if timestamp_in_any_gap ts gaps then
            updateEntry ts (freshClimateRow ts dbHomeId dbZoneId)
              (fun e => { e with ac_power_on := some (val == Power.on) }) acc
          else acc
      | _, _ => acc)
    m

/-- backfill.rs lines 695-703: the per-field updates a settings interval
applies to its row. -/
def applySettingFields (val : ZoneSetting) (e : NewClimateMeasurement) :
    NewClimateMeasurement :=
  let e :=
    match val.temperature.bind Temperature.celsius with
    | some sp => { e with setpoint_temp_c := some sp }
    | none => e
  let e :=
    match val.mode.map acModeName with
    | some m => { e with ac_mode := some m }
    | none => e
  match val.power.map (fun p => p == Power.on) with
  | some b => { e with ac_power_on := some b }
  | none => e

/-- backfill.rs lines 682-707: merging the zone-settings intervals.  Note the
source creates the row whenever the interval has a `from` instant inside a gap
and a present value, even when none of setpoint/mode/power is present. -/
def applySettingsIntervals (dbHomeId dbZoneId : Int) (gaps : List Gap)
    (dis : List ZoneSettingDataInterval)
    (m : List (Nat × NewClimateMeasurement)) : List (Nat × NewClimateMeasurement) :=
  dis.foldl
    (fun acc di =>
      match di.interval.lower with
      | some ts =>
          if timestamp_in_any_gap ts gaps then
            match di.value with
            | some val =>
                updateEntry ts (freshClimateRow ts dbHomeId dbZoneId)
                  (applySettingFields val) acc
            | none => acc
          else acc
      | none => acc)
    m

/-- backfill.rs lines 721-729: the per-field updates a weather-condition
interval applies to its weather row. -/
def applyWeatherFields (v : Option WeatherConditionValue) (e : NewWeatherMeasurement) :
    NewWeatherMeasurement :=
  match v with
  | some v =>
      let e :=
        match v.temperature.bind Temperature.celsius with
        | some temp => { e with outside_temp_c := some temp }
        | none => e
      match v.state.map weatherStateName with
      | some st => { e with weather_state := some st }
      | none => e
  | none => e

/-- backfill.rs lines 709-731: merging the outdoor weather-condition intervals
into the weather row map, restricted to the home-level weather window and the
day's gaps.  Note the source creates the weather row before checking whether
the interval carries a value. -/
def applyWeatherIntervals (dbHomeId : Int) (window : Option (Nat × Nat)) (gaps : List Gap)
    (dis : List WeatherConditionDataInterval)
    (m : List (Nat × NewWeatherMeasurement)) : List (Nat × NewWeatherMeasurement) :=
  match window with
  | none => m
  | some (wFrom, wTo) =>
      dis.foldl
        (fun acc di =>
          match di.interval.lower with
          | some ts =>
              if ts < wFrom || wTo ≤ ts || !timestamp_in_any_gap ts gaps then acc
              else
                updateEntry ts (NewWeatherMeasurement.new ts dbHomeId "historical")
                  (applyWeatherFields di.value) acc
          | none => acc)
        m

/-- backfill.rs lines 595-707: the merge pass of `backfill_zone_range` for one
day: every series of the day report folded into the timestamp-keyed climate
row map `by_ts`, restricted to the day's gaps, in the source's series order. -/
def mergeDayRows (dbHomeId dbZoneId : Int) (report : DayReport) (gaps : List Gap) :
    List (Nat × NewClimateMeasurement) :=
  let m : List (Nat × NewClimateMeasurement) := []
  let m :=
    match report.measured_data.bind
        (fun md => md.inside_temperature.bind TemperatureTimeSeries.data_points) with
    | some pts => applyTempPoints dbHomeId dbZoneId gaps pts m
    | none => m
  let m :=
    match report.measured_data.bind
        (fun md => md.humidity.bind PercentageTimeSeries.data_points) with
    | some pts => applyHumidityPoints dbHomeId dbZoneId gaps pts m
    | none => m
  let m :=
    match report.measured_data.bind
        (fun md => md.measuring_device_connected.bind BooleanTimeSeries.data_intervals) with
    | some dis => applyConnectivityIntervals dbHomeId dbZoneId gaps dis m
    | none => m
  let m :=
    match report.call_for_heat.bind CallForHeatTimeSeries.data_intervals with
    | some dis => applyCallForHeatIntervals dbHomeId dbZoneId gaps dis m
    | none => m
  let m :=
    match report.ac_activity.bind PowerTimeSeries.data_intervals with
    | some dis => applyAcActivityIntervals dbHomeId dbZoneId gaps dis m
    | none => m
  match report.settings.bind ZoneSettingTimeSeries.data_intervals with
  | some dis => applySettingsIntervals dbHomeId dbZoneId gaps dis m
  | none => m

/-- backfill.rs lines 709-731: the weather merge pass of
`backfill_zone_range` for one day. -/
def mergeDayWeatherRows (dbHomeId : Int) (report : DayReport) (gaps : List Gap)
    (window : Option (Nat × Nat)) : List (Nat × NewWeatherMeasurement) :=
  match report.weather.bind
      (fun dw => dw.condition.bind WeatherConditionTimeSeries.data_intervals) with
  | some dis => applyWeatherIntervals dbHomeId window gaps dis []
  | none => []

/-- backfill.rs lines 595-733: the pure per-day core of `backfill_zone_range`:
merge every series of one day report into timestamp-keyed climate and weather
row maps restricted to the day's gaps, then strip the leading bogus run from
the climate rows.  Returns (climate rows, weather rows) in timestamp order. -/
def reconcile_day (dbHomeId dbZoneId : Int) (report : DayReport) (gaps : List Gap)
    (window : Option (Nat × Nat)) :
    List (Nat × NewClimateMeasurement) × List (Nat × NewWeatherMeasurement) :=
  (remove_leading_bogus_rows (mergeDayRows dbHomeId dbZoneId report gaps),
    mergeDayWeatherRows dbHomeId report gaps window)

/-! ## Backfill Scheduler per-zone run (backfill.rs lines 181-318 and 529-763)

The store collaborator is modelled as the zone's sorted list of stored
historical timestamps (the conflict key `(time, home_id, source, zone_id,
device_id)` is constant except for `time` within one zone's historical rows,
so insert-or-skip is keyed by `time` alone), plus the home's sorted weather
timestamps.  The remote collaborator is a fixed function from day to
`DayReport`, and `Utc::now()` is a fixed parameter — the claim's "unchanged
remote data source and unchanged store" idealization.  The single zone is its
home's reference zone, so the weather window starts from the same `start`. -/

/-- Insert-or-skip of one timestamp into a sorted store (the unique-key
`do_nothing` conflict semantics of backfill.rs lines 737-742). -/
def insertTime (t : Nat) : List Nat → List Nat
  | [] => [t]
  | s :: rest =>
      if t < s then t :: s :: rest
      else if t = s then s :: rest
      else s :: insertTime t rest

/-- Bulk insert-or-skip of a list of row timestamps. -/
def insertTimes (store : List Nat) (rows : List Nat) : List Nat :=
  rows.foldl (fun st t => insertTime t st) store

/-- backfill.rs lines 442-457: `fn compute_weather_backfill_window`: from the
instant after the last stored weather row (or the home start when none),
clamped below by the home start, up to now. -/
def compute_weather_backfill_window (wstore : List Nat) (startT now : Nat) : Nat × Nat :=
  let lastAny := wstore.foldl (fun acc t => some (max (acc.getD t) t)) none
  let baseFrom := match lastAny with | some t => t + 1 | none => startT
  (max baseFrom startT, now)

/-- backfill.rs lines 580-584: the day-sampling decimation skip.  The source
tests `day.ordinal() % rate != 0` (day-of-year); the model numbers days
absolutely, which plays the same structural role. -/
def skipDecimatedDay (rate : Option Nat) (firstValid day : Nat) : Bool :=
  match rate with
  | some r => decide (day ≠ firstValid) && decide (day % r ≠ 0)
  | none => false

/-- Static configuration of one per-zone backfill run. -/
structure BackfillConfig where
  startT : Nat
  now : Nat
  minGap : Nat
  sampleRate : Option Nat
  dbHomeId : Int
  dbZoneId : Int
deriving Repr

/-- backfill.rs lines 529-763 (driven by lines 259-315): one run of
`backfill_zone_range` for one zone: detect the gaps from the store, find the
first non-bogus day over the gap day span, then walk the gap days in order,
skipping days before it and decimated days, reconciling each fetched day
report against that day's gaps and bulk-inserting the resulting row
timestamps with conflict-skip. -/
def run_zone_backfill (cfg : BackfillConfig) (reports : Nat → DayReport)
    (store wstore : List Nat) : List Nat × List Nat :=
  let gapsByDay := find_zone_gaps cfg.startT cfg.now store cfg.minGap
  match gapsByDay with
  | [] => (store, wstore)
  | (firstGapDay, g0) :: restDays =>
      let lastGapDay := (((firstGapDay, g0) :: restDays).getLastD (firstGapDay, g0)).1
      match find_first_non_bogus_day (fun d => is_day_report_bogus (reports d))
          firstGapDay lastGapDay with
      | none => (store, wstore)
      | some firstValid =>
          let window := compute_weather_backfill_window wstore cfg.startT cfg.now
          gapsByDay.foldl
            (fun acc dayGaps =>
              if dayGaps.1 < firstValid then acc
              else if dayGaps.2.isEmpty then acc
              else if skipDecimatedDay cfg.sampleRate firstValid dayGaps.1 then acc
              else
                let dayRows := reconcile_day cfg.dbHomeId cfg.dbZoneId
                  (reports dayGaps.1) dayGaps.2 (some window)
                (insertTimes acc.1 (dayRows.1.map Prod.fst),
                  insertTimes acc.2 (dayRows.2.map Prod.fst)))
            (store, wstore)

/-! ## Realtime Poller (realtime.rs)

Realtime snapshot shapes from models/tado.rs, again restricted to the fields
the poller reads. -/

/-- models/tado.rs lines 332-343: `struct TemperatureDataPoint`. -/
structure TemperatureDataPoint where
  celsius : Option Int
  timestamp : Option Nat
deriving Repr, DecidableEq

/-- models/tado.rs lines 345-353: `struct PercentageDataPoint`. -/
structure PercentageDataPoint where
  percentage : Option Int
  timestamp : Option Nat
deriving Repr, DecidableEq

/-- models/tado.rs lines 355-361: `struct PowerDataPoint`. -/
structure PowerDataPoint where
  value : Option Power
  timestamp : Option Nat
deriving Repr, DecidableEq

/-- models/tado.rs lines 377-384: `struct WeatherStateDataPoint`. -/
structure WeatherStateDataPoint where
  value : Option WeatherState
  timestamp : Option Nat
deriving Repr, DecidableEq

/-- models/tado.rs lines 363-368: `struct SensorDataPoints`. -/
structure SensorDataPoints where
  inside_temperature : Option TemperatureDataPoint
  humidity : Option PercentageDataPoint
deriving Repr, DecidableEq

/-- models/tado.rs lines 370-375: `struct ActivityDataPoints`. -/
structure ActivityDataPoints where
  heating_power : Option PercentageDataPoint
  ac_power : Option PowerDataPoint
deriving Repr, DecidableEq

/-- models/tado.rs: `struct ZoneOpenWindow` — the poller only tests its
presence (realtime.rs line 196), so its fields are irrelevant here. -/
structure ZoneOpenWindow where
  detected : Option Nat
deriving Repr, DecidableEq

/-- models/tado.rs lines 1509-1526: `struct ZoneState` (unread fields
omitted). -/
structure ZoneState where
  setting : Option ZoneSetting
  open_window : Option ZoneOpenWindow
  activity_data_points : Option ActivityDataPoints
  sensor_data_points : Option SensorDataPoints
deriving Repr, DecidableEq

/-- models/tado.rs lines 1228-1234: `struct Weather`. -/
structure Weather where
  solar_intensity : Option PercentageDataPoint
  outside_temperature : Option TemperatureDataPoint
  weather_state : Option WeatherStateDataPoint
deriving Repr, DecidableEq

/-- models/tado.rs lines 133-137: `enum BatteryState`. -/
inductive BatteryState where
  | low
  | normal
deriving Repr, DecidableEq

/-- models/tado.rs lines 673-678: `struct DeviceConnectionState`. -/
structure DeviceConnectionState where
  value : Option Bool
  timestamp : Option Nat
deriving Repr, DecidableEq

/-- models/tado.rs lines 699-717: `struct Device` (unread fields omitted;
`serial_no` is the `DeviceId` string newtype). -/
structure Device where
  serial_no : Option String
  connection_state : Option DeviceConnectionState
  battery_state : Option BatteryState
deriving Repr, DecidableEq

/-- realtime.rs lines 93-110: the weather row built by `collect_home` from a
successful weather fetch (timestamp: outside-temperature's, else solar
intensity's, else wall-clock now). -/
def build_weather_row (weather : Weather) (dbHomeId : Int) (now : Nat) :
    NewWeatherMeasurement :=
  let ts :=
    ((weather.outside_temperature.bind TemperatureDataPoint.timestamp).or
      (weather.solar_intensity.bind PercentageDataPoint.timestamp)).getD now
  let base := NewWeatherMeasurement.new ts dbHomeId "realtime"
  { base with
    outside_temp_c := weather.outside_temperature.bind TemperatureDataPoint.celsius
    solar_intensity_pct := weather.solar_intensity.bind PercentageDataPoint.percentage
    weather_state := (weather.weather_state.bind WeatherStateDataPoint.value).map
      weatherStateName }

/-- realtime.rs lines 136-196: the climate row built by `collect_home` from a
successful zone-state fetch: most precise available timestamp (inside
temperature, humidity, heating power, AC power, wall-clock now), sparse
sensor/activity/setting fields, and `window_open` set to `true` exactly when
an open-window object is present. -/
def build_zone_row (state : ZoneState) (dbHomeId dbZoneId : Int) (now : Nat) :
    NewClimateMeasurement :=
  let ts :=
    ((((state.sensor_data_points.bind
          (fun s => s.inside_temperature.bind TemperatureDataPoint.timestamp)).or
        (state.sensor_data_points.bind
          (fun s => s.humidity.bind PercentageDataPoint.timestamp))).or
      (state.activity_data_points.bind
        (fun a => a.heating_power.bind PercentageDataPoint.timestamp))).or
      (state.activity_data_points.bind
        (fun a => a.ac_power.bind PowerDataPoint.timestamp))).getD now
  let base := NewClimateMeasurement.new ts dbHomeId (some dbZoneId) none "realtime"
  { base with
    inside_temp_c := state.sensor_data_points.bind
      (fun s => s.inside_temperature.bind TemperatureDataPoint.celsius)
    humidity_pct := state.sensor_data_points.bind
      (fun s => s.humidity.bind PercentageDataPoint.percentage)
    setpoint_temp_c := state.setting.bind
      (fun set => set.temperature.bind Temperature.celsius)
    heating_power_pct := state.activity_data_points.bind
      (fun a => a.heating_power.bind PercentageDataPoint.percentage)
    ac_power_on := state.activity_data_points.bind
      (fun a => a.ac_power.bind (fun p => p.value.map (fun v => v == Power.on)))
    ac_mode := state.setting.bind (fun set => set.mode.map acModeName)
    window_open := state.open_window.map (fun _ => true) }

/-- realtime.rs lines 227-237: the device climate row built by `collect_home`
from a device listing entry. -/
def build_device_row (d : Device) (dbHomeId dbDeviceId : Int) (now : Nat) :
    NewClimateMeasurement :=
  let ts := (d.connection_state.bind DeviceConnectionState.timestamp).getD now
  let base := NewClimateMeasurement.new ts dbHomeId none (some dbDeviceId) "realtime"
  { base with
    battery_low := d.battery_state.map (fun b => b == BatteryState.low)
    connection_up := d.connection_state.bind DeviceConnectionState.value }

/-- One zone's realtime inputs for a tick: the zone listing entry's id, the
cached DB mapping (`zone_id_map`), and the result of the `get_zone_state`
fetch for it. -/
structure RtZone where
  zone_id : Option Int
  db_zone_id : Option Int
  state : Except String ZoneState
deriving Repr

/-- One device's realtime inputs for a tick: its serial, the DB row-id lookup
result, and the fetched device entry. -/
structure RtDevice where
  db_device_id : Option Int
  device : Device
deriving Repr

/-- One home's remote-fetch results for one tick. -/
structure RtHome where
  db_home_id : Int
  zones : Except String (List RtZone)
  weather : Except String Weather
  devices : Except String (List RtDevice)
deriving Repr

/-- realtime.rs lines 80-253: `fn collect_home` for one home, given that
home's fetch results: a failed weather fetch is skipped, each zone without an
id or DB mapping is skipped, a failed zone-state fetch is skipped, a failed
device listing is skipped, a device without a serial or DB row is skipped.
Returns the rows written (insert-or-skip write failures are logged and do not
alter control flow, so the model returns the attempted rows). -/
def collect_home (home : RtHome) (now : Nat) :
    List NewWeatherMeasurement × List NewClimateMeasurement :=
  let wrows :=
    match home.weather with
    | .ok w => [build_weather_row w home.db_home_id now]
    | .error _ => []
  let zrows :=
    match home.zones with
    | .ok zs =>
        zs.foldr
          (fun z acc =>
            match z.zone_id, z.db_zone_id, z.state with
            | some _, some dbZone, .ok st =>
                build_zone_row st home.db_home_id dbZone now :: acc
            | _, _, _ => acc)
          []
    | .error _ => []
  let drows :=
    match home.devices with
    | .ok ds =>
        ds.foldr
          (fun d acc =>
            match d.device.serial_no, d.db_device_id with
            | some _, some dbDev => build_device_row d.device home.db_home_id dbDev now :: acc
            | _, _ => acc)
          []
    | .error _ => []
  (wrows, zrows ++ drows)

/-- realtime.rs lines 53-69: the body of one tick of `run_loop`: visit every
home in order; a failed `get_zones` listing is propagated with `?` (aborting
the tick, and hence the loop, with `Err`), while everything inside
`collect_home` is skipped per signal.  Returns the rows written by the whole
tick, or the first zone-listing error. -/
def run_tick (homes : List RtHome) (now : Nat) :
    Except String (List NewWeatherMeasurement × List NewClimateMeasurement) :=
  match homes with
  | [] => .ok ([], [])
  | home :: rest =>
      match home.zones with
      | .error e => .error e
      | .ok _ =>
          let rows := collect_home home now
          match run_tick rest now with
          | .error e => .error e
          | .ok restRows => .ok (rows.1 ++ restRows.1, rows.2 ++ restRows.2)

/-- realtime.rs lines 71-77: the cadence computation at the end of a tick:
sleep the remainder of the interval if the tick finished early, otherwise do
not sleep at all. -/
def realtime_sleep (elapsed interval : Nat) : Nat :=
  if elapsed < interval then interval - elapsed else 0

/-- The instant the next tick starts: the tick's own start plus its elapsed
collection time plus the computed sleep. -/
def next_tick_start (tickStart elapsed interval : Nat) : Nat :=
  tickStart + elapsed + realtime_sleep elapsed interval

/-! ## Auxiliary notions used by the theorems -/

/-- The effective start of day bucket `d` for a window starting at `startT`
(backfill.rs lines 353-357). -/
def effOf (startT d : Nat) : Nat :=
  if d = dayOf startT ∧ dayStartOf d < startT then startT else dayStartOf d

/-- The end of day bucket `d` for a window ending at `now` (backfill.rs lines
359-367). -/
def dayEndOf (now d : Nat) : Nat :=
  if d = dayOf now then now else dayStartOf (d + 1)

/-- The stored timestamps that fall into day bucket `d`. -/
def daySlice (startT now : Nat) (times : List Nat) (d : Nat) : List Nat :=
  times.filter (fun t => decide (effOf startT d ≤ t) && decide (t < dayEndOf now d))

/-- The lower edge of the hole around an uncovered instant `q`: the largest
stored timestamp not exceeding `q`, or the bucket's effective start when there
is none. -/
def holeLo (eff : Nat) (ts : List Nat) (q : Nat) : Nat :=
  (ts.filter (fun t => decide (t ≤ q))).foldl max eff

/-- The upper edge of the hole around an uncovered instant `q`: the smallest
stored timestamp beyond `q`, or the bucket end when there is none. -/
def holeHi (dEnd : Nat) (ts : List Nat) (q : Nat) : Nat :=
  (ts.filter (fun t => decide (q < t))).foldr min dEnd

/-- Pairwise disjointness of a list of gaps: no instant lies in two of them. -/
def GapsDisjoint (gs : List Gap) : Prop :=
  List.Pairwise (fun g g' => ∀ t : Nat, inGap t g = true → inGap t g' = true → False) gs

/-- The claim's exact-coverage property for a window, a stored-timestamp set
and a gap list: the gaps and the stored timestamps together are exactly the
window. -/
def coversExactly (startT now : Nat) (times : List Nat) (gs : List Gap) : Prop :=
  ∀ t : Nat, (startT ≤ t ∧ t < now) ↔ (t ∈ times ∨ timestamp_in_any_gap t gs = true)

/-- The spec scenario of C8: stored timestamps every 15 minutes from 00:00 to
10:00, resuming at 18:00 for the rest of the day. -/
def scenarioTimes : List Nat :=
  (List.range 41).map (fun i => i * 900) ++ (List.range 24).map (fun i => 64800 + i * 900)

/-- All celsius values among the inside-temperature data points of a report. -/
def indoorTempValues (r : DayReport) : List Int :=
  ((r.measured_data.bind
      (fun md => md.inside_temperature.bind TemperatureTimeSeries.data_points)).getD []).filterMap
    (fun p => p.value.bind Temperature.celsius)

/-- All values among the humidity data points of a report. -/
def indoorHumidityValues (r : DayReport) : List Int :=
  ((r.measured_data.bind
      (fun md => md.humidity.bind PercentageTimeSeries.data_points)).getD []).filterMap
    PercentageDataPointInTimeSeries.value

/-- The value slots of the weather-condition intervals of a report (one entry
per interval, present or not). -/
def conditionEntries (r : DayReport) : List (Option WeatherConditionValue) :=
  ((r.weather.bind
      (fun w => w.condition.bind WeatherConditionTimeSeries.data_intervals)).getD []).map
    WeatherConditionDataInterval.value

/-- The value slots of the weather time-slot series of a report. -/
def slotEntries (r : DayReport) : List (Option WeatherSlot) :=
  (r.weather.bind (fun w => w.slots.bind WeatherSlotTimeSeries.slots)).getD []

/-- Whether a report carries any indoor data point with a present value. -/
def indoorPresent (r : DayReport) : Bool :=
  !(indoorTempValues r).isEmpty || !(indoorHumidityValues r).isEmpty

/-- Whether a report carries a genuine indoor deviation: some present indoor
value that differs from its sentinel beyond the epsilon. -/
def indoorDeviation (r : DayReport) : Bool :=
  (indoorTempValues r).any (fun v => !approx_eq v BOGUS_TEMP_C) ||
    (indoorHumidityValues r).any (fun v => !approx_eq v BOGUS_HUMIDITY_FRACTION)

/-- Whether a report carries any outdoor evidence (a condition interval or a
weather slot, with or without a value). -/
def outdoorPresent (r : DayReport) : Bool :=
  !(conditionEntries r).isEmpty || !(slotEntries r).isEmpty

/-- Whether a condition-interval value is distinguishable: it carries a
celsius temperature or a state. -/
def conditionDistinct (v : Option WeatherConditionValue) : Bool :=
  match v with
  | some v => (v.temperature.bind Temperature.celsius).isSome || v.state.isSome
  | none => false

/-- Whether a report carries a distinguishable outdoor signal. -/
def outdoorDeviation (r : DayReport) : Bool :=
  (conditionEntries r).any conditionDistinct || (slotEntries r).any Option.isSome

/-- The claim's indoor condition: the indoor evidence is absent or uniformly
sentinel, i.e. no present indoor value deviates from its sentinel. -/
def indoorAbsentOrSentinel (r : DayReport) : Bool :=
  !indoorDeviation r

/-- The claim's outdoor condition: the outdoor evidence is absent or carries
no distinguishable state or temperature. -/
def outdoorAbsentOrSentinel (r : DayReport) : Bool :=
  !outdoorDeviation r

/-- The fully-empty day report: no indoor and no outdoor evidence at all. -/
def emptyDayReport : DayReport := ⟨none, none, none, none, none⟩

/-- A day report whose only content is one zone-settings interval carrying a
value with no setpoint temperature, no mode and no power. -/
def settingsOnlyReport : DayReport :=
  { measured_data := none
    settings := some ⟨some [⟨⟨some 100⟩, some ⟨none, none, none⟩⟩]⟩
    call_for_heat := none
    ac_activity := none
    weather := none }

/-- Whether the report has a settings interval at instant `p` whose value sets
none of setpoint temperature, mode and power. -/
def emptySettingsAt (report : DayReport) (p : Nat) : Prop :=
  ∃ di ∈ (report.settings.bind ZoneSettingTimeSeries.data_intervals).getD [],
    di.interval.lower = some p ∧
      ∃ val, di.value = some val ∧ val.temperature.bind Temperature.celsius = none ∧
        val.mode = none ∧ val.power = none

/-- The rows a whole tick writes when every home is visited: the per-home
`collect_home` outputs concatenated in home order. -/
def tickRows (homes : List RtHome) (now : Nat) :
    List NewWeatherMeasurement × List NewClimateMeasurement :=
  homes.foldr
    (fun home acc =>
      ((collect_home home now).1 ++ acc.1, (collect_home home now).2 ++ acc.2))
    ([], [])

/-- A tick input whose first home answers its zone listing but whose second
home's zone listing fails, while every other fetch (weather, zone state,
devices) of both homes also fails and must be skipped. -/
def cexTickHomes : List RtHome :=
  [{ db_home_id := 1
     zones := .ok [{ zone_id := some 11, db_zone_id := some 21, state := .error "state down" }]
     weather := .error "weather down"
     devices := .error "devices down" },
   { db_home_id := 2
     zones := .error "zones down"
     weather := .error "weather down"
     devices := .error "devices down" }]

/-- A day report with seven genuine (non-sentinel) inside-temperature points
spread through day `d` at 14000-second spacing, so that a backfilled day
leaves no hole of four hours or more. -/
def denseGenuineReport (d : Nat) : DayReport :=
  { measured_data := some
      { measuring_device_connected := none
        inside_temperature := some ⟨some ((List.range 7).map (fun k =>
            ⟨some (dayStartOf d + k * 14000), some ⟨some 21000000⟩⟩))⟩
        humidity := none }
    settings := none
    call_for_heat := none
    ac_activity := none
    weather := none }

/-- The backfill configuration of the idempotence counterexample: a three-day
window, a four-hour minimum gap, and a day-sampling decimation factor of 2. -/
def cexBackfillConfig : BackfillConfig :=
  ⟨0, 3 * daySecs, 14400, some 2, 7, 9⟩

/-- A pure sentinel reconciled row (20.0 degrees, 50.0 percent, nothing
else), mirroring the in-repo test fixture. -/
def sentinelRowExample : NewClimateMeasurement :=
  { NewClimateMeasurement.new 0 1 (some 1) none "historical" with
    inside_temp_c := some BOGUS_TEMP_C
    humidity_pct := some BOGUS_HUMIDITY_PERCENT }

/-- A genuine reconciled row fifteen minutes later (20.8 degrees, 55.0
percent). -/
def genuineRowExample : NewClimateMeasurement :=
  { NewClimateMeasurement.new 900 1 (some 1) none "historical" with
    inside_temp_c := some 20800000
    humidity_pct := some 55000000 }

/-- A reconciled day: one leading sentinel row followed by one genuine row. -/
def stripExampleRows : List (Nat × NewClimateMeasurement) :=
  [(0, sentinelRowExample), (900, genuineRowExample)]

/-- The claim's description of a pure sentinel row: inside temperature at the
sentinel, humidity at the sentinel percentage (both within the epsilon), and
every other measurement field unset. -/
def sentinelOnlyRow (row : NewClimateMeasurement) : Prop :=
  (∃ t, row.inside_temp_c = some t ∧ approx_eq t BOGUS_TEMP_C = true) ∧
    (∃ h, row.humidity_pct = some h ∧ approx_eq h BOGUS_HUMIDITY_PERCENT = true) ∧
    row.setpoint_temp_c = none ∧ row.heating_power_pct = none ∧
    row.ac_power_on = none ∧ row.ac_mode = none ∧ row.window_open = none ∧
    row.battery_low = none ∧ row.connection_up = none

/-! # Theorems -/

/-- C9: for every realtime tick, the poller sleeps exactly the remainder of
the configured interval when the tick finished early and not at all when it
overran, so the next tick starts at `tick start + max(elapsed, interval)` —
an overrunning tick is followed immediately, with no backlog. -/
theorem realtime_tick_pacing (tickStart elapsed interval : Nat) :
    next_tick_start tickStart elapsed interval = tickStart + max elapsed interval ∧
      (elapsed < interval → realtime_sleep elapsed interval = interval - elapsed) ∧
      (interval ≤ elapsed → realtime_sleep elapsed interval = 0) := by
  refine ⟨?_, ?_, ?_⟩
  · unfold next_tick_start realtime_sleep
    by_cases h : elapsed < interval <;> simp [h] <;> omega
  · intro h
    simp [realtime_sleep, h]
  · intro h
    simp [realtime_sleep, Nat.not_lt.mpr h]

/-- Witness for C9 at a concrete early tick and a concrete overrunning one. -/
theorem realtime_tick_pacing_witness :
    realtime_sleep 2 5 = 3 ∧ next_tick_start 0 7 5 = 7 :=
  ⟨(realtime_tick_pacing 0 2 5).2.1 (by decide), (realtime_tick_pacing 0 7 5).1⟩

/-- C10: the realtime poller's zone row records the window-open flag as
`some true` exactly when the zone state carries an open-window object and
leaves it unset otherwise, so it is never `some false`. -/
theorem window_open_never_false (s : ZoneState) (hid zid : Int) (now : Nat) :
    (build_zone_row s hid zid now).window_open =
      (if s.open_window.isSome then some true else none) := by
  cases h : s.open_window <;> simp [build_zone_row, h]

/-- C4 counterexample: a tick input whose second home's zone listing fails
makes `run_tick` abort with that error instead of skipping it, so the claim
that any single remote fetch failure (including the zone listing) never aborts
the tick is false on the code. -/
theorem run_tick_aborts_on_listing_failure :
    run_tick cexTickHomes 0 = .error "zones down" := by
  rfl

/-- C4 as amended: a failed weather, zone-state or device fetch is skipped
and never aborts the tick — whenever every home's zone listing succeeds the
tick completes and visits every home, whatever the other fetches return; only
a zone-listing failure propagates. -/
theorem run_tick_skips_inner_failures (homes : List RtHome) (now : Nat)
    (h : ∀ home ∈ homes, ∃ zs, home.zones = Except.ok zs) :
    run_tick homes now = .ok (tickRows homes now) := by
  induction homes with
  | nil => rfl
  | cons home rest ih =>
      obtain ⟨zs, hzs⟩ := h home (List.mem_cons_self home rest)
      have hrest := ih (fun x hx => h x (List.mem_cons_of_mem home hx))
      simp only [run_tick, tickRows, List.foldr, hzs, hrest]

/-- Witness for C4's amended theorem: the first home of the counterexample
input alone (zone listing answers, everything else fails) completes. -/
theorem run_tick_skips_inner_failures_witness :
    run_tick (cexTickHomes.take 1) 0 = .ok (tickRows (cexTickHomes.take 1) 0) :=
  run_tick_skips_inner_failures (cexTickHomes.take 1) 0 (by
    intro home hx
    rw [show cexTickHomes.take 1 = [cexTickHomes[0]] from rfl] at hx
    rw [List.mem_singleton.mp hx]
    exact ⟨_, rfl⟩)

/-! ### C2: Bogus-Day Classifier per-day test -/

theorem scanTempPoints_eq (pts : List TemperatureDataPointInTimeSeries) (had : Bool) :
    scanTempPoints pts had =
      (had || !(pts.filterMap (fun p => p.value.bind Temperature.celsius)).isEmpty,
        (pts.filterMap (fun p => p.value.bind Temperature.celsius)).any
          (fun v => !approx_eq v BOGUS_TEMP_C)) := by
  induction pts generalizing had with
  | nil => simp [scanTempPoints]
  | cons p rest ih =>
      cases hv : p.value.bind Temperature.celsius with
      | none => simp [scanTempPoints, hv, ih, List.filterMap_cons]
      | some v =>
          cases ha : approx_eq v BOGUS_TEMP_C <;>
            simp [scanTempPoints, hv, ha, ih, List.filterMap_cons]

theorem scanHumidityPoints_eq (pts : List PercentageDataPointInTimeSeries) (had : Bool) :
    scanHumidityPoints pts had =
      (had || !(pts.filterMap PercentageDataPointInTimeSeries.value).isEmpty,
        (pts.filterMap PercentageDataPointInTimeSeries.value).any
          (fun v => !approx_eq v BOGUS_HUMIDITY_FRACTION)) := by
  induction pts generalizing had with
  | nil => simp [scanHumidityPoints]
  | cons p rest ih =>
      cases hv : p.value with
      | none => simp [scanHumidityPoints, hv, ih, List.filterMap_cons]
      | some v =>
          cases ha : approx_eq v BOGUS_HUMIDITY_FRACTION <;>
            simp [scanHumidityPoints, hv, ha, ih, List.filterMap_cons]

theorem scanConditionIntervals_eq (dis : List WeatherConditionDataInterval) (had : Bool) :
    scanConditionIntervals dis had =
      (had || !dis.isEmpty,
        (dis.map WeatherConditionDataInterval.value).any conditionDistinct) := by
  induction dis generalizing had with
  | nil => simp [scanConditionIntervals]
  | cons di rest ih =>
      cases hv : di.value with
      | none => simp [scanConditionIntervals, hv, ih, conditionDistinct]
      | some v =>
          cases hd : (v.temperature.bind Temperature.celsius).isSome || v.state.isSome <;>
            simp [scanConditionIntervals, hv, hd, ih, conditionDistinct]

theorem scanSlots_eq (ss : List (Option WeatherSlot)) (had : Bool) :
    scanSlots ss had = (had || !ss.isEmpty, ss.any Option.isSome) := by
  induction ss generalizing had with
  | nil => simp [scanSlots]
  | cons s rest ih =>
      cases hs : s.isSome <;> simp [scanSlots, hs, ih]

theorem indoorScanOf_eq (r : DayReport) :
    indoorScanOf r = (indoorPresent r, indoorDeviation r) := by
  unfold indoorScanOf indoorPresent indoorDeviation indoorTempValues indoorHumidityValues
  cases hti : r.measured_data.bind
      (fun md => md.inside_temperature.bind TemperatureTimeSeries.data_points) with
  | none =>
      cases hhu : r.measured_data.bind
          (fun md => md.humidity.bind PercentageTimeSeries.data_points) with
      | none => simp
      | some hpts => simp [scanHumidityPoints_eq]
  | some tpts =>
      simp only [scanTempPoints_eq]
      cases hdev : (tpts.filterMap (fun p => p.value.bind Temperature.celsius)).any
          (fun v => !approx_eq v BOGUS_TEMP_C) with
      | true =>
          have hne : (tpts.filterMap (fun p => p.value.bind Temperature.celsius)).isEmpty
              = false := by
            rcases List.any_eq_true.mp hdev with ⟨x, hx, _⟩
            cases hmem : tpts.filterMap (fun p => p.value.bind Temperature.celsius) with
            | nil => rw [hmem] at hx; cases hx
            | cons a l => rfl
          simp [hdev, hne]
      | false =>
          cases hhu : r.measured_data.bind
              (fun md => md.humidity.bind PercentageTimeSeries.data_points) with
          | none => simp [hdev]
          | some hpts => simp [hdev, scanHumidityPoints_eq]

theorem outdoorScanOf_eq (r : DayReport) :
    outdoorScanOf r = (outdoorPresent r, outdoorDeviation r) := by
  unfold outdoorScanOf outdoorPresent outdoorDeviation conditionEntries slotEntries
  cases hc : r.weather.bind
      (fun w => w.condition.bind WeatherConditionTimeSeries.data_intervals) with
  | none =>
      cases hs : r.weather.bind (fun w => w.slots.bind WeatherSlotTimeSeries.slots) with
      | none => simp
      | some ss => simp [scanSlots_eq]
  | some dis =>
      simp only [scanConditionIntervals_eq]
      cases hdev : (dis.map WeatherConditionDataInterval.value).any conditionDistinct with
      | true =>
          have hne : dis.isEmpty = false := by
            cases dis with
            | nil => simp at hdev
            | cons a l => rfl
          simp [hdev, hne]
          left
          intro h
          subst h
          simp at hne
      | false =>
          cases hs : r.weather.bind (fun w => w.slots.bind WeatherSlotTimeSeries.slots) with
          | none =>
              simp [hdev]
              cases dis <;> simp
          | some ss =>
              simp [hdev, scanSlots_eq]
              cases dis <;> simp

theorem is_day_report_bogus_eq (r : DayReport) :
    is_day_report_bogus r =
      (indoorPresent r && !indoorDeviation r && (outdoorPresent r && !outdoorDeviation r)) := by
  unfold is_day_report_bogus
  rw [indoorScanOf_eq, outdoorScanOf_eq]
  cases hdev : indoorDeviation r <;> simp [hdev]

/-- C2 counterexample: the fully-empty day report (indoor and outdoor evidence
both absent, hence both "absent or uniformly sentinel") is classified
non-bogus by `is_day_report_bogus`, so the claimed "if and only if" fails:
absence is not sufficient for a bogus classification. -/
theorem bogus_iff_claim_fails_on_empty_report :
    ¬(is_day_report_bogus emptyDayReport = true ↔
        (indoorAbsentOrSentinel emptyDayReport = true ∧
          outdoorAbsentOrSentinel emptyDayReport = true)) := by
  decide

/-- C2 as amended: a day report is classified bogus if and only if the indoor
evidence is present and uniformly sentinel AND the outdoor evidence is present
and carries no distinguishable state or temperature (absent evidence on either
side yields non-bogus); and any genuine indoor deviation alone forces the
non-bogus classification without regard to the outdoor evidence. -/
theorem bogus_iff_present_and_sentinel (r : DayReport) :
    (is_day_report_bogus r =
      (indoorPresent r && indoorAbsentOrSentinel r &&
        (outdoorPresent r && outdoorAbsentOrSentinel r))) ∧
      (indoorDeviation r = true → is_day_report_bogus r = false) := by
  constructor
  · rw [is_day_report_bogus_eq]
    rfl
  · intro hdev
    rw [is_day_report_bogus_eq, hdev]
    simp

/-- Witness for C2's amended theorem: a report with a genuine indoor
temperature deviation is classified non-bogus. -/
theorem bogus_iff_present_and_sentinel_witness :
    is_day_report_bogus (denseGenuineReport 0) = false :=
  (bogus_iff_present_and_sentinel (denseGenuineReport 0)).2 (by decide)

/-! ### C5: Classifier binary search -/

theorem searchGo_all_bogus (isBogus : Nat → Bool) (dstart : Nat) :
    ∀ fuel low high cand, (∀ m, low ≤ m → m ≤ high → isBogus (dstart + m) = true) →
      searchGo isBogus dstart fuel low high cand = cand := by
  intro fuel
  induction fuel with
  | zero => intro low high cand _; rfl
  | succ fuel ih =>
      intro low high cand h
      unfold searchGo
      by_cases hle : low ≤ high
      · have hmid1 : low ≤ low + (high - low) / 2 := Nat.le_add_right _ _
        have hmid2 : low + (high - low) / 2 ≤ high := by omega
        simp only [hle, if_true]
        rw [h _ hmid1 hmid2]
        simp only []
        exact ih (low + (high - low) / 2 + 1) high cand
          (fun m h1 h2 => h m (by omega) h2)
      · simp [hle]

theorem searchGo_monotone (isBogus : Nat → Bool) (dstart koff : Nat) :
    ∀ fuel low high cand, high + 1 - low ≤ fuel →
      (∀ m, low ≤ m → m ≤ high → isBogus (dstart + m) = decide (m < koff)) →
      searchGo isBogus dstart fuel low high cand =
        (if max low koff ≤ high then some (dstart + max low koff) else cand) := by
  intro fuel
  induction fuel with
  | zero =>
      intro low high cand hfuel h
      rw [if_neg (by omega)]
      rfl
  | succ fuel ih =>
      intro low high cand hfuel h
      unfold searchGo
      by_cases hle : low ≤ high
      · have hmid1 : low ≤ low + (high - low) / 2 := Nat.le_add_right _ _
        have hmid2 : low + (high - low) / 2 ≤ high := by omega
        simp only [hle, if_true]
        rw [h _ hmid1 hmid2]
        simp only [decide_eq_true_eq]
        by_cases hb : low + (high - low) / 2 < koff
        · rw [if_pos hb]
          rw [ih (low + (high - low) / 2 + 1) high cand (by omega)
            (fun m h1 h2 => h m (by omega) h2)]
          have hmax1 : max (low + (high - low) / 2 + 1) koff = koff := by omega
          have hmax2 : max low koff = koff := by omega
          rw [hmax1, hmax2]
        · rw [if_neg hb]
          have hkmid : koff ≤ low + (high - low) / 2 := by omega
          have hmaxle : max low koff ≤ high := by omega
          rw [if_pos hmaxle]
          by_cases hz : low + (high - low) / 2 = 0
          · simp only [hz, if_true]
            have : max low koff = 0 := by omega
            rw [this]
          · simp only [hz, if_false]
            rw [ih low (low + (high - low) / 2 - 1)
              (some (dstart + (low + (high - low) / 2))) (by omega)
              (fun m h1 h2 => h m h1 (by omega))]
            by_cases hk2 : max low koff ≤ low + (high - low) / 2 - 1
            · rw [if_pos hk2]
            · rw [if_neg hk2]
              have : max low koff = low + (high - low) / 2 := by omega
              rw [this]
      · simp only [hle, if_false]
        rw [if_neg (by omega)]

/-- C5: over a span of candidate days `[d0, d1]` whose reports are bogus
before a cut-over day `k` in the span and genuine from `k` on, the binary
search returns exactly day `k`; when every day of the span is bogus it
returns none; and when `d0 > d1` it returns none. -/
theorem find_first_non_bogus_day_correct (isBogus : Nat → Bool) (d0 d1 k : Nat) :
    (d0 ≤ k → k ≤ d1 → (∀ d, d0 ≤ d → d ≤ d1 → isBogus d = decide (d < k)) →
      find_first_non_bogus_day isBogus d0 d1 = some k) ∧
      ((∀ d, d0 ≤ d → d ≤ d1 → isBogus d = true) →
        find_first_non_bogus_day isBogus d0 d1 = none) ∧
      (d1 < d0 → find_first_non_bogus_day isBogus d0 d1 = none) := by
  refine ⟨?_, ?_, ?_⟩
  · intro hk0 hk1 h
    unfold find_first_non_bogus_day
    rw [if_neg (by omega)]
    have hmono : ∀ m, 0 ≤ m → m ≤ d1 - d0 → isBogus (d0 + m) = decide (m < k - d0) := by
      intro m _ hm
      rw [h (d0 + m) (by omega) (by omega)]
      rw [decide_eq_decide]
      omega
    rw [searchGo_monotone isBogus d0 (k - d0) (d1 - d0 + 1) 0 (d1 - d0) none
      (by omega) hmono]
    rw [if_pos (by omega)]
    congr 1
    omega
  · intro h
    unfold find_first_non_bogus_day
    by_cases hle : d1 < d0
    · rw [if_pos hle]
    · rw [if_neg hle]
      exact searchGo_all_bogus isBogus d0 _ 0 (d1 - d0) none
        (fun m h1 h2 => h (d0 + m) (by omega) (by omega))
  · intro h
    unfold find_first_non_bogus_day
    rw [if_pos h]

/-- Witness for C5: a synthetic span `[0, 10]` with cut-over day 5 returns
exactly day 5. -/
theorem find_first_non_bogus_day_correct_witness :
    find_first_non_bogus_day (fun d => decide (d < 5)) 0 10 = some 5 :=
  (find_first_non_bogus_day_correct (fun d => decide (d < 5)) 0 10 5).1
    (by decide) (by decide) (fun d _ _ => rfl)

/-! ### C7: leading-bogus stripping -/

theorem filter_keyNotIn_cons {β : Type} (l : List (Nat × β)) (a : Nat) (T : List Nat)
    (h : ∀ q ∈ l, q.1 ≠ a) :
    l.filter (fun p => !((a :: T).contains p.1)) = l.filter (fun p => !(T.contains p.1)) := by
  induction l with
  | nil => rfl
  | cons q rest ih =>
      have hq := h q (List.mem_cons_self q rest)
      have hrest := ih (fun x hx => h x (List.mem_cons_of_mem q hx))
      have hcon : (a :: T).contains q.1 = T.contains q.1 := by
        simp [List.contains_cons, hq]
      simp only [List.filter_cons, hcon, hrest]

theorem dropWhile_eq_nil_of_all {α : Type} (l : List α) (f : α → Bool)
    (h : ∀ x ∈ l, f x = true) : l.dropWhile f = [] := by
  induction l with
  | nil => rfl
  | cons x rest ih =>
      rw [List.dropWhile_cons, h x (List.mem_cons_self x rest)]
      simp only [if_true]
      exact ih (fun y hy => h y (List.mem_cons_of_mem x hy))

theorem remove_leading_bogus_eq_dropWhile (rows : List (Nat × NewClimateMeasurement))
    (hkeys : List.Pairwise (fun p q => p.1 ≠ q.1) rows) :
    remove_leading_bogus_rows rows =
      rows.dropWhile (fun p => measurement_is_leading_bogus p.2) := by
  induction rows with
  | nil => rfl
  | cons r rest ih =>
      rcases List.pairwise_cons.mp hkeys with ⟨hhead, htail⟩
      cases hb : measurement_is_leading_bogus r.2 with
      | false =>
          unfold remove_leading_bogus_rows
          rw [List.dropWhile_cons, hb]
          simp only [List.takeWhile_cons, hb, Bool.false_eq_true, if_false, List.map_nil]
          have : ∀ p ∈ r :: rest, (!(([] : List Nat).contains p.1)) = true := by
            intro p _
            rfl
          rw [List.filter_eq_self.mpr this]
      | true =>
          unfold remove_leading_bogus_rows
          rw [List.dropWhile_cons, hb]
          simp only [List.takeWhile_cons, hb, if_true, List.map_cons, List.filter_cons]
          have hcontains : ((r.1 :: (rest.takeWhile
              (fun p => measurement_is_leading_bogus p.2)).map Prod.fst).contains r.1) = true := by
            simp [List.contains_cons]
          rw [hcontains]
          simp only [Bool.not_true, Bool.false_eq_true, if_false]
          rw [filter_keyNotIn_cons rest r.1 _
            (fun q hq => (hhead q hq).symm)]
          exact ih htail

/-- C7: on a reconciled day keyed by distinct timestamps, the post-pass
removes exactly the maximal leading run of pure sentinel rows (20.0 degrees
and 50.0 percent within tolerance, every other field unset), keeping
everything from the first non-sentinel row on; an entirely sentinel day
strips to zero rows; and the row predicate it uses holds precisely of such
sentinel rows. -/
theorem remove_leading_bogus_rows_spec (rows : List (Nat × NewClimateMeasurement))
    (hkeys : List.Pairwise (fun p q => p.1 ≠ q.1) rows) :
    remove_leading_bogus_rows rows =
        rows.dropWhile (fun p => measurement_is_leading_bogus p.2) ∧
      ((∀ p ∈ rows, measurement_is_leading_bogus p.2 = true) →
        remove_leading_bogus_rows rows = []) ∧
      (∀ row, measurement_is_leading_bogus row = true ↔ sentinelOnlyRow row) := by
  refine ⟨remove_leading_bogus_eq_dropWhile rows hkeys, ?_, ?_⟩
  · intro hall
    rw [remove_leading_bogus_eq_dropWhile rows hkeys]
    exact dropWhile_eq_nil_of_all _ _ hall
  · intro row
    cases hi : row.inside_temp_c with
    | none => simp [measurement_is_leading_bogus, sentinelOnlyRow, hi]
    | some t =>
        cases hh : row.humidity_pct with
        | none => simp [measurement_is_leading_bogus, sentinelOnlyRow, hi, hh]
        | some hv =>
            cases ha : approx_eq t BOGUS_TEMP_C && approx_eq hv BOGUS_HUMIDITY_PERCENT with
            | false =>
                have hsplit : approx_eq t BOGUS_TEMP_C = false ∨
                    approx_eq hv BOGUS_HUMIDITY_PERCENT = false := by
                  cases h1 : approx_eq t BOGUS_TEMP_C
                  · exact Or.inl rfl
                  · cases h2 : approx_eq hv BOGUS_HUMIDITY_PERCENT
                    · exact Or.inr rfl
                    · rw [h1, h2] at ha; cases ha
                rcases hsplit with hat | hat <;>
                  simp [measurement_is_leading_bogus, sentinelOnlyRow, hi, hh, ha, hat]
            | true =>
                simp only [Bool.and_eq_true] at ha
                obtain ⟨hat, hah⟩ := ha
                simp [measurement_is_leading_bogus, sentinelOnlyRow, hi, hh, hat, hah,
                  Option.isNone_iff_eq_none, and_assoc]

/-- Witness for C7: one sentinel row followed by one genuine row keeps
exactly the genuine row. -/
theorem remove_leading_bogus_rows_spec_witness :
    remove_leading_bogus_rows stripExampleRows = [(900, genuineRowExample)] := by
  rw [(remove_leading_bogus_rows_spec stripExampleRows (by decide)).1]
  decide

/-! ### Gap Detector infrastructure (C1, C8, C6)

Helper lemmas about sorted lists, `foldl max` / `foldr min`, and the
dropWhile/takeWhile walk the day loop performs over the sorted store. -/

theorem foldl_max_init_le (l : List Nat) (a : Nat) : a ≤ l.foldl max a := by
  induction l generalizing a with
  | nil => exact Nat.le_refl a
  | cons x rest ih => exact le_trans (Nat.le_max_left a x) (ih (max a x))

theorem foldl_max_mem_le (l : List Nat) (a : Nat) : ∀ x ∈ l, x ≤ l.foldl max a := by
  induction l generalizing a with
  | nil => intro x hx; cases hx
  | cons y rest ih =>
      intro x hx
      rcases List.mem_cons.mp hx with rfl | hx
      · exact le_trans (Nat.le_max_right a x) (foldl_max_init_le rest (max a x))
      · exact ih (max a y) x hx

theorem foldl_max_cases (l : List Nat) (a : Nat) : l.foldl max a = a ∨ l.foldl max a ∈ l := by
  induction l generalizing a with
  | nil => exact Or.inl rfl
  | cons x rest ih =>
      rcases ih (max a x) with h | h
      · rcases Nat.le_total a x with hax | hax
        · right
          rw [List.foldl_cons, h, Nat.max_eq_right hax]
          exact List.mem_cons_self x rest
        · left
          rw [List.foldl_cons, h, Nat.max_eq_left hax]
      · exact Or.inr (List.mem_cons_of_mem x h)

theorem foldr_min_le_init (l : List Nat) (a : Nat) : l.foldr min a ≤ a := by
  induction l with
  | nil => exact Nat.le_refl a
  | cons x rest ih => exact le_trans (Nat.min_le_right x _) ih

theorem foldr_min_le_mem (l : List Nat) (a : Nat) : ∀ x ∈ l, l.foldr min a ≤ x := by
  induction l with
  | nil => intro x hx; cases hx
  | cons y rest ih =>
      intro x hx
      rcases List.mem_cons.mp hx with rfl | hx
      · exact Nat.min_le_left x _
      · exact le_trans (Nat.min_le_right y _) (ih x hx)

theorem foldr_min_cases (l : List Nat) (a : Nat) : l.foldr min a = a ∨ l.foldr min a ∈ l := by
  induction l with
  | nil => exact Or.inl rfl
  | cons x rest ih =>
      rcases ih with h | h
      · rcases Nat.le_total x (rest.foldr min a) with hx | hx
        · right
          rw [List.foldr_cons, Nat.min_eq_left hx]
          exact List.mem_cons_self x rest
        · left
          rw [List.foldr_cons, Nat.min_eq_right hx, h]
      · rcases Nat.le_total x (rest.foldr min a) with hx | hx
        · right
          rw [List.foldr_cons, Nat.min_eq_left hx]
          exact List.mem_cons_self x rest
        · right
          rw [List.foldr_cons, Nat.min_eq_right hx]
          exact List.mem_cons_of_mem x h

theorem foldr_min_ge (l : List Nat) (a b : Nat) (hl : ∀ x ∈ l, b ≤ x) (ha : b ≤ a) :
    b ≤ l.foldr min a := by
  rcases foldr_min_cases l a with h | h
  · rw [h]; exact ha
  · exact hl _ h

/-- `holeLo` never drops below the effective start. -/
theorem holeLo_ge_eff (eff : Nat) (ts : List Nat) (q : Nat) : eff ≤ holeLo eff ts q :=
  foldl_max_init_le _ _

/-- `holeLo` never exceeds `q` when the effective start does not. -/
theorem holeLo_le_q (eff : Nat) (ts : List Nat) (q : Nat) (h : eff ≤ q) :
    holeLo eff ts q ≤ q := by
  rcases foldl_max_cases (ts.filter (fun t => decide (t ≤ q))) eff with hc | hc
  · rw [holeLo, hc]; exact h
  · have := List.of_mem_filter hc
    simpa using this

/-- Any stored time at most `q` bounds `holeLo` from below. -/
theorem holeLo_ge_mem (eff : Nat) (ts : List Nat) (q t : Nat) (ht : t ∈ ts) (hle : t ≤ q) :
    t ≤ holeLo eff ts q :=
  foldl_max_mem_le _ _ t (List.mem_filter.mpr ⟨ht, by simpa using hle⟩)

/-- `holeLo` is the effective start or a stored time at most `q`. -/
theorem holeLo_cases (eff : Nat) (ts : List Nat) (q : Nat) :
    holeLo eff ts q = eff ∨ (holeLo eff ts q ∈ ts ∧ holeLo eff ts q ≤ q) := by
  rcases foldl_max_cases (ts.filter (fun t => decide (t ≤ q))) eff with hc | hc
  · exact Or.inl hc
  · right
    rcases List.mem_filter.mp hc with ⟨hmem, hdec⟩
    exact ⟨hmem, by simpa using hdec⟩

/-- `holeHi` never exceeds the bucket end. -/
theorem holeHi_le_dEnd (dEnd : Nat) (ts : List Nat) (q : Nat) : holeHi dEnd ts q ≤ dEnd :=
  foldr_min_le_init _ _

/-- `holeHi` stays beyond `q` when the bucket end does. -/
theorem holeHi_gt_q (dEnd : Nat) (ts : List Nat) (q : Nat) (h : q < dEnd) :
    q < holeHi dEnd ts q := by
  rcases foldr_min_cases (ts.filter (fun t => decide (q < t))) dEnd with hc | hc
  · rw [holeHi, hc]; exact h
  · have := List.of_mem_filter hc
    simpa using this

/-- Any stored time beyond `q` bounds `holeHi` from above. -/
theorem holeHi_le_mem (dEnd : Nat) (ts : List Nat) (q t : Nat) (ht : t ∈ ts) (hgt : q < t) :
    holeHi dEnd ts q ≤ t :=
  foldr_min_le_mem _ _ t (List.mem_filter.mpr ⟨ht, by simpa using hgt⟩)

/-- `holeHi` is the bucket end or a stored time beyond `q`. -/
theorem holeHi_cases (dEnd : Nat) (ts : List Nat) (q : Nat) :
    holeHi dEnd ts q = dEnd ∨ (holeHi dEnd ts q ∈ ts ∧ q < holeHi dEnd ts q) := by
  rcases foldr_min_cases (ts.filter (fun t => decide (q < t))) dEnd with hc | hc
  · exact Or.inl hc
  · right
    rcases List.mem_filter.mp hc with ⟨hmem, hdec⟩
    exact ⟨hmem, by simpa using hdec⟩

/-- Growing the stored set can only raise the hole's lower edge. -/
theorem holeLo_mono (eff : Nat) (ts ts' : List Nat) (q : Nat)
    (hsub : ∀ x ∈ ts, x ∈ ts') : holeLo eff ts q ≤ holeLo eff ts' q := by
  rcases holeLo_cases eff ts q with hc | ⟨hmem, hle⟩
  · rw [hc]; exact holeLo_ge_eff eff ts' q
  · exact holeLo_ge_mem eff ts' q _ (hsub _ hmem) hle

/-- Growing the stored set can only lower the hole's upper edge. -/
theorem holeHi_mono (dEnd : Nat) (ts ts' : List Nat) (q : Nat)
    (hsub : ∀ x ∈ ts, x ∈ ts') : holeHi dEnd ts' q ≤ holeHi dEnd ts q := by
  rcases holeHi_cases dEnd ts q with hc | ⟨hmem, hgt⟩
  · rw [hc]; exact holeHi_le_dEnd dEnd ts' q
  · exact holeHi_le_mem dEnd ts' q _ (hsub _ hmem) hgt

/-- On a sorted list, `takeWhile (· < b)` is `filter (· < b)`. -/
theorem takeWhile_lt_eq_filter (l : List Nat) (b : Nat)
    (hp : List.Pairwise (· ≤ ·) l) :
    l.takeWhile (fun t => decide (t < b)) = l.filter (fun t => decide (t < b)) := by
  induction l with
  | nil => rfl
  | cons r rest ih =>
      rcases List.pairwise_cons.mp hp with ⟨hhead, htail⟩
      by_cases hr : r < b
      · simp [List.takeWhile_cons, List.filter_cons, hr, ih htail]
      · simp [List.takeWhile_cons, List.filter_cons, hr]
        intro a ha
        have : r ≤ a := hhead a ha
        omega

/-- The day loop's dropWhile-then-takeWhile slice of a sorted store is the
filter to the bucket `[a, b)`. -/
theorem dropWhile_takeWhile_slice (l : List Nat) (a b : Nat)
    (hp : List.Pairwise (· ≤ ·) l) :
    (l.dropWhile (fun t => decide (t < a))).takeWhile (fun t => decide (t < b)) =
      l.filter (fun t => decide (a ≤ t) && decide (t < b)) := by
  induction l with
  | nil => rfl
  | cons r rest ih =>
      rcases List.pairwise_cons.mp hp with ⟨hhead, htail⟩
      by_cases hr : r < a
      · have hna : ¬ a ≤ r := by omega
        simp [List.dropWhile_cons, List.filter_cons, hr, hna, ih htail]
      · have ha : a ≤ r := by omega
        by_cases hrb : r < b
        · simp [List.dropWhile_cons, List.filter_cons, List.takeWhile_cons, hr, ha, hrb]
          rw [takeWhile_lt_eq_filter rest b htail]
          apply List.filter_congr
          intro x hx
          have : r ≤ x := hhead x hx
          rw [decide_eq_true (by omega : a ≤ x)]
          simp
        · simp [List.dropWhile_cons, List.filter_cons, List.takeWhile_cons, hr, ha, hrb]
          intro x hx _
          have : r ≤ x := hhead x hx
          omega

/-- Composing the day loop's two dropWhiles on a sorted store drops up to the
later bound. -/
theorem dropWhile_dropWhile (l : List Nat) (a b : Nat) (hab : a ≤ b)
    (hp : List.Pairwise (· ≤ ·) l) :
    (l.dropWhile (fun t => decide (t < a))).dropWhile (fun t => decide (t < b)) =
      l.dropWhile (fun t => decide (t < b)) := by
  induction l with
  | nil => rfl
  | cons r rest ih =>
      rcases List.pairwise_cons.mp hp with ⟨_, htail⟩
      by_cases hr : r < a
      · have hrb : r < b := by omega
        simp [List.dropWhile_cons, hr, hrb, ih htail]
      · simp [List.dropWhile_cons, hr]

/-- Elements surviving `dropWhile (· < a)` on a sorted list are at least `a`. -/
theorem mem_dropWhile_lt_ge (l : List Nat) (a : Nat) (hp : List.Pairwise (· ≤ ·) l) :
    ∀ t ∈ l.dropWhile (fun t => decide (t < a)), a ≤ t := by
  induction l with
  | nil => intro t ht; cases ht
  | cons r rest ih =>
      rcases List.pairwise_cons.mp hp with ⟨hhead, htail⟩
      intro t ht
      by_cases hr : r < a
      · rw [List.dropWhile_cons] at ht
        rw [decide_eq_true hr] at ht
        simp only [if_true] at ht
        exact ih htail t ht
      · rw [List.dropWhile_cons] at ht
        rw [decide_eq_false hr] at ht
        simp only [Bool.false_eq_true, if_false] at ht
        rcases List.mem_cons.mp ht with rfl | ht
        · omega
        · have := hhead t ht
          omega

theorem inAny_append (q : Nat) (g1 g2 : List Gap) :
    timestamp_in_any_gap q (g1 ++ g2) =
      (timestamp_in_any_gap q g1 || timestamp_in_any_gap q g2) := by
  simp [timestamp_in_any_gap, List.any_append]

theorem inGap_exclusive (q a b : Nat) :
    inGap q ⟨a, b, false⟩ = true ↔ (a < q ∧ q < b) := by
  simp [inGap]

theorem inGap_inclusive (q a b : Nat) :
    inGap q ⟨a, b, true⟩ = true ↔ (a ≤ q ∧ q < b) := by
  simp [inGap]

/-- Membership characterization for the interior/trailing gaps of one bucket:
an instant is covered exactly when it lies strictly between the running
predecessor and the bucket end, is not itself stored, and its surrounding hole
reaches `min_gap`. -/
theorem iat_mem_iff (dEnd mg : Nat) :
    ∀ (rest : List Nat) (prev : Nat), List.Pairwise (· ≤ ·) (prev :: rest) →
      (∀ t ∈ prev :: rest, t < dEnd) →
      ∀ q, timestamp_in_any_gap q (interiorAndTrailing prev rest dEnd mg) = true ↔
        (prev < q ∧ q < dEnd ∧ q ∉ rest ∧
          mg ≤ holeHi dEnd rest q - holeLo prev rest q) := by
  intro rest
  induction rest with
  | nil =>
      intro prev _ hub q
      have hd : prev < dEnd := hub prev (List.mem_cons_self _ _)
      have hlo : holeLo prev [] q = prev := rfl
      have hhi : holeHi dEnd [] q = dEnd := rfl
      rw [hlo, hhi]
      by_cases hmg : mg ≤ dEnd - prev
      · rw [interiorAndTrailing, if_pos hmg]
        rw [show timestamp_in_any_gap q [(⟨prev, dEnd, false⟩ : Gap)] =
          inGap q ⟨prev, dEnd, false⟩ from by simp [timestamp_in_any_gap]]
        rw [inGap_exclusive]
        simp only [List.not_mem_nil, not_false_iff]
        constructor
        · rintro ⟨h1, h2⟩; exact ⟨h1, h2, trivial, hmg⟩
        · rintro ⟨h1, h2, _, _⟩; exact ⟨h1, h2⟩
      · rw [interiorAndTrailing, if_neg hmg]
        simp only [timestamp_in_any_gap, List.any_nil, Bool.false_eq_true, false_iff]
        rintro ⟨_, _, _, h⟩
        exact hmg h
  | cons r rest' ih =>
      intro prev hp hub q
      rcases List.pairwise_cons.mp hp with ⟨hhead, htail⟩
      have hpr : prev ≤ r := hhead r (List.mem_cons_self _ _)
      have hrd : r < dEnd := hub r (List.mem_cons_of_mem _ (List.mem_cons_self _ _))
      have htailhead : ∀ x ∈ rest', r ≤ x := (List.pairwise_cons.mp htail).1
      have hubtail : ∀ t ∈ r :: rest', t < dEnd :=
        fun t ht => hub t (List.mem_cons_of_mem _ ht)
      have IH := ih r htail hubtail
      rw [interiorAndTrailing, inAny_append]
      rcases Nat.lt_trichotomy q r with hqr | hqr | hqr
      · -- q strictly before the next stored time
        have hiat : timestamp_in_any_gap q (interiorAndTrailing r rest' dEnd mg) = false := by
          cases hx : timestamp_in_any_gap q (interiorAndTrailing r rest' dEnd mg) with
          | false => rfl
          | true => exact absurd ((IH q).mp hx).1 (by omega)
        have hfe : (r :: rest').filter (fun t => decide (t ≤ q)) = [] := by
          rw [List.filter_eq_nil_iff]
          intro x hx
          rcases List.mem_cons.mp hx with rfl | hx
          · simp only [decide_eq_true_eq]; omega
          · have := htailhead x hx
            simp only [decide_eq_true_eq]; omega
        have hlo : holeLo prev (r :: rest') q = prev := by
          rw [holeLo, hfe]
          rfl
        have hfs : (r :: rest').filter (fun t => decide (q < t)) = r :: rest' := by
          rw [List.filter_eq_self]
          intro x hx
          rcases List.mem_cons.mp hx with rfl | hx
          · simp only [decide_eq_true_eq]; omega
          · have := htailhead x hx
            simp only [decide_eq_true_eq]; omega
        have hhi : holeHi dEnd (r :: rest') q = r := by
          rw [holeHi, hfs, List.foldr_cons]
          exact Nat.min_eq_left (foldr_min_ge rest' dEnd r htailhead (by omega))
        have hnotin : q ∉ r :: rest' := by
          intro h
          rcases List.mem_cons.mp h with rfl | h
          · omega
          · have := htailhead q h
            omega
        rw [hlo, hhi, hiat, Bool.or_false]
        by_cases hmg0 : mg ≤ r - prev
        · rw [if_pos hmg0]
          rw [show timestamp_in_any_gap q [(⟨prev, r, false⟩ : Gap)] =
            inGap q ⟨prev, r, false⟩ from by simp [timestamp_in_any_gap]]
          rw [inGap_exclusive]
          constructor
          · rintro ⟨h1, h2⟩; exact ⟨h1, by omega, hnotin, hmg0⟩
          · rintro ⟨h1, _, _, _⟩; exact ⟨h1, hqr⟩
        · rw [if_neg hmg0]
          simp only [timestamp_in_any_gap, List.any_nil, Bool.false_eq_true, false_iff]
          rintro ⟨_, _, _, h⟩
          exact hmg0 h
      · -- q is the next stored time itself
        subst hqr
        have hiat : timestamp_in_any_gap q (interiorAndTrailing q rest' dEnd mg) = false := by
          cases hx : timestamp_in_any_gap q (interiorAndTrailing q rest' dEnd mg) with
          | false => rfl
          | true => exact absurd ((IH q).mp hx).1 (by omega)
        have hhead0 : timestamp_in_any_gap q
            (if mg ≤ q - prev then [(⟨prev, q, false⟩ : Gap)] else []) = false := by
          by_cases hmg0 : mg ≤ q - prev
          · rw [if_pos hmg0]
            simp [timestamp_in_any_gap, inGap]
          · rw [if_neg hmg0]
            rfl
        rw [hiat, hhead0]
        simp only [Bool.or_false, Bool.false_eq_true, false_iff]
        rintro ⟨_, _, hnot, _⟩
        exact hnot (List.mem_cons_self _ _)
      · -- q beyond the next stored time
        have hhead0 : timestamp_in_any_gap q
            (if mg ≤ r - prev then [(⟨prev, r, false⟩ : Gap)] else []) = false := by
          by_cases hmg0 : mg ≤ r - prev
          · rw [if_pos hmg0]
            simp only [timestamp_in_any_gap, List.any_cons, List.any_nil, Bool.or_false]
            cases hx : inGap q ⟨prev, r, false⟩ with
            | false => rfl
            | true => exact absurd ((inGap_exclusive q prev r).mp hx).2 (by omega)
          · rw [if_neg hmg0]
            rfl
        have hlo : holeLo prev (r :: rest') q = holeLo r rest' q := by
          rw [holeLo, holeLo, List.filter_cons]
          rw [decide_eq_true (by omega : r ≤ q)]
          simp only [if_true, List.foldl_cons]
          rw [Nat.max_eq_right hpr]
        have hhi : holeHi dEnd (r :: rest') q = holeHi dEnd rest' q := by
          rw [holeHi, holeHi, List.filter_cons]
          rw [decide_eq_false (by omega : ¬ q < r)]
          simp
        rw [hhead0, Bool.false_or, hlo, hhi, IH q]
        constructor
        · rintro ⟨h1, h2, h3, h4⟩
          refine ⟨by omega, h2, ?_, h4⟩
          intro h
          rcases List.mem_cons.mp h with rfl | h
          · omega
          · exact h3 h
        · rintro ⟨h1, h2, h3, h4⟩
          exact ⟨hqr, h2, fun h => h3 (List.mem_cons_of_mem _ h), h4⟩

/-- Membership characterization for one day bucket's gaps: an instant is
covered exactly when it lies in the bucket, is not stored, and its hole
reaches `min_gap`. -/
theorem gapsForDay_mem_iff (eff dEnd mg : Nat) (ts : List Nat)
    (hp : List.Pairwise (· ≤ ·) ts) (hlb : ∀ t ∈ ts, eff ≤ t)
    (hub : ∀ t ∈ ts, t < dEnd) :
    ∀ q, timestamp_in_any_gap q (gapsForDay eff dEnd ts mg) = true ↔
      (eff ≤ q ∧ q < dEnd ∧ q ∉ ts ∧
        mg ≤ holeHi dEnd ts q - holeLo eff ts q) := by
  intro q
  cases ts with
  | nil =>
      have hlo : holeLo eff [] q = eff := rfl
      have hhi : holeHi dEnd [] q = dEnd := rfl
      rw [hlo, hhi]
      by_cases hmg : mg ≤ dEnd - eff
      · rw [gapsForDay, if_pos hmg]
        rw [show timestamp_in_any_gap q [(⟨eff, dEnd, true⟩ : Gap)] =
          inGap q ⟨eff, dEnd, true⟩ from by simp [timestamp_in_any_gap]]
        rw [inGap_inclusive]
        simp only [List.not_mem_nil, not_false_iff]
        constructor
        · rintro ⟨h1, h2⟩; exact ⟨h1, h2, trivial, hmg⟩
        · rintro ⟨h1, h2, _, _⟩; exact ⟨h1, h2⟩
      · rw [gapsForDay, if_neg hmg]
        simp only [timestamp_in_any_gap, List.any_nil, Bool.false_eq_true, false_iff]
        rintro ⟨_, _, _, h⟩
        exact hmg h
  | cons first rest =>
      rcases List.pairwise_cons.mp hp with ⟨hhead, htail⟩
      have hef : eff ≤ first := hlb first (List.mem_cons_self _ _)
      have hfd : first < dEnd := hub first (List.mem_cons_self _ _)
      have IH := iat_mem_iff dEnd mg rest first hp hub
      rw [gapsForDay, inAny_append]
      rcases Nat.lt_trichotomy q first with hqf | hqf | hqf
      · have hiat : timestamp_in_any_gap q (interiorAndTrailing first rest dEnd mg)
            = false := by
          cases hx : timestamp_in_any_gap q (interiorAndTrailing first rest dEnd mg) with
          | false => rfl
          | true => exact absurd ((IH q).mp hx).1 (by omega)
        have hfe : (first :: rest).filter (fun t => decide (t ≤ q)) = [] := by
          rw [List.filter_eq_nil_iff]
          intro x hx
          rcases List.mem_cons.mp hx with rfl | hx
          · simp only [decide_eq_true_eq]; omega
          · have := hhead x hx
            simp only [decide_eq_true_eq]; omega
        have hlo : holeLo eff (first :: rest) q = eff := by
          rw [holeLo, hfe]
          rfl
        have hfs : (first :: rest).filter (fun t => decide (q < t)) = first :: rest := by
          rw [List.filter_eq_self]
          intro x hx
          rcases List.mem_cons.mp hx with rfl | hx
          · simp only [decide_eq_true_eq]; omega
          · have := hhead x hx
            simp only [decide_eq_true_eq]; omega
        have hhi : holeHi dEnd (first :: rest) q = first := by
          rw [holeHi, hfs, List.foldr_cons]
          exact Nat.min_eq_left (foldr_min_ge rest dEnd first hhead (by omega))
        have hnotin : q ∉ first :: rest := by
          intro h
          rcases List.mem_cons.mp h with rfl | h
          · omega
          · have := hhead q h
            omega
        rw [hlo, hhi, hiat, Bool.or_false]
        by_cases hmg0 : mg ≤ first - eff
        · rw [if_pos hmg0]
          rw [show timestamp_in_any_gap q [(⟨eff, first, true⟩ : Gap)] =
            inGap q ⟨eff, first, true⟩ from by simp [timestamp_in_any_gap]]
          rw [inGap_inclusive]
          constructor
          · rintro ⟨h1, h2⟩; exact ⟨h1, by omega, hnotin, hmg0⟩
          · rintro ⟨h1, _, _, _⟩; exact ⟨h1, hqf⟩
        · rw [if_neg hmg0]
          simp only [timestamp_in_any_gap, List.any_nil, Bool.false_eq_true, false_iff]
          rintro ⟨_, _, _, h⟩
          exact hmg0 h
      · subst hqf
        have hiat : timestamp_in_any_gap q (interiorAndTrailing q rest dEnd mg)
            = false := by
          cases hx : timestamp_in_any_gap q (interiorAndTrailing q rest dEnd mg) with
          | false => rfl
          | true => exact absurd ((IH q).mp hx).1 (by omega)
        have hhead0 : timestamp_in_any_gap q
            (if mg ≤ q - eff then [(⟨eff, q, true⟩ : Gap)] else []) = false := by
          by_cases hmg0 : mg ≤ q - eff
          · rw [if_pos hmg0]
            simp [timestamp_in_any_gap, inGap]
          · rw [if_neg hmg0]
            rfl
        rw [hiat, hhead0]
        simp only [Bool.or_false, Bool.false_eq_true, false_iff]
        rintro ⟨_, _, hnot, _⟩
        exact hnot (List.mem_cons_self _ _)
      · have hhead0 : timestamp_in_any_gap q
            (if mg ≤ first - eff then [(⟨eff, first, true⟩ : Gap)] else []) = false := by
          by_cases hmg0 : mg ≤ first - eff
          · rw [if_pos hmg0]
            simp only [timestamp_in_any_gap, List.any_cons, List.any_nil, Bool.or_false]
            cases hx : inGap q ⟨eff, first, true⟩ with
            | false => rfl
            | true => exact absurd ((inGap_inclusive q eff first).mp hx).2 (by omega)
          · rw [if_neg hmg0]
            rfl
        have hlo : holeLo eff (first :: rest) q = holeLo first rest q := by
          rw [holeLo, holeLo, List.filter_cons]
          rw [decide_eq_true (by omega : first ≤ q)]
          simp only [if_true, List.foldl_cons]
          rw [Nat.max_eq_right hef]
        have hhi : holeHi dEnd (first :: rest) q = holeHi dEnd rest q := by
          rw [holeHi, holeHi, List.filter_cons]
          rw [decide_eq_false (by omega : ¬ q < first)]
          simp
        rw [hhead0, Bool.false_or, hlo, hhi, IH q]
        constructor
        · rintro ⟨h1, h2, h3, h4⟩
          refine ⟨by omega, h2, ?_, h4⟩
          intro h
          rcases List.mem_cons.mp h with rfl | h
          · omega
          · exact h3 h
        · rintro ⟨h1, h2, h3, h4⟩
          exact ⟨hqf, h2, fun h => h3 (List.mem_cons_of_mem _ h), h4⟩

/-- Structural facts about one bucket's interior/trailing gaps: exclusive
start at a stored time, confinement, and minimum duration. -/
theorem iat_forall (dEnd mg : Nat) :
    ∀ (rest : List Nat) (prev : Nat), List.Pairwise (· ≤ ·) (prev :: rest) →
      (∀ t ∈ prev :: rest, t ≤ dEnd) →
      ∀ g ∈ interiorAndTrailing prev rest dEnd mg,
        g.start_inclusive = false ∧ g.start ∈ prev :: rest ∧ prev ≤ g.start ∧
          g.stop ≤ dEnd ∧ mg ≤ g.stop - g.start := by
  intro rest
  induction rest with
  | nil =>
      intro prev _ hub g hg
      by_cases hmg : mg ≤ dEnd - prev
      · rw [interiorAndTrailing, if_pos hmg] at hg
        rcases List.mem_singleton.mp hg with rfl
        exact ⟨rfl, List.mem_cons_self _ _, Nat.le_refl _, Nat.le_refl _, hmg⟩
      · rw [interiorAndTrailing, if_neg hmg] at hg
        cases hg
  | cons r rest' ih =>
      intro prev hp hub g hg
      rcases List.pairwise_cons.mp hp with ⟨hhead, htail⟩
      have hpr : prev ≤ r := hhead r (List.mem_cons_self _ _)
      have hrd : r ≤ dEnd := hub r (List.mem_cons_of_mem _ (List.mem_cons_self _ _))
      rw [interiorAndTrailing] at hg
      rcases List.mem_append.mp hg with hg | hg
      · by_cases hmg : mg ≤ r - prev
        · rw [if_pos hmg] at hg
          rcases List.mem_singleton.mp hg with rfl
          exact ⟨rfl, List.mem_cons_self _ _, Nat.le_refl _, hrd, hmg⟩
        · rw [if_neg hmg] at hg
          cases hg
      · have := ih r htail (fun t ht => hub t (List.mem_cons_of_mem _ ht)) g hg
        exact ⟨this.1, List.mem_cons_of_mem _ this.2.1, le_trans hpr this.2.2.1,
          this.2.2.2.1, this.2.2.2.2⟩

/-- Structural facts about one bucket's full gap list: inclusivity marks the
leading gap from the effective start, exclusive gaps start at stored times,
and every gap is confined to the bucket with duration at least `min_gap`. -/
theorem gapsForDay_forall (eff dEnd mg : Nat) (ts : List Nat)
    (hp : List.Pairwise (· ≤ ·) ts) (hlb : ∀ t ∈ ts, eff ≤ t)
    (hub : ∀ t ∈ ts, t ≤ dEnd) :
    ∀ g ∈ gapsForDay eff dEnd ts mg,
      (g.start_inclusive = true → g.start = eff) ∧
        (g.start_inclusive = false → g.start ∈ ts) ∧
        eff ≤ g.start ∧ g.stop ≤ dEnd ∧ mg ≤ g.stop - g.start := by
  intro g hg
  cases ts with
  | nil =>
      by_cases hmg : mg ≤ dEnd - eff
      · rw [gapsForDay, if_pos hmg] at hg
        rcases List.mem_singleton.mp hg with rfl
        refine ⟨fun _ => rfl, ?_, Nat.le_refl _, Nat.le_refl _, hmg⟩
        intro h
        exact Bool.noConfusion h
      · rw [gapsForDay, if_neg hmg] at hg
        cases hg
  | cons first rest =>
      have hef : eff ≤ first := hlb first (List.mem_cons_self _ _)
      rw [gapsForDay] at hg
      rcases List.mem_append.mp hg with hg | hg
      · by_cases hmg : mg ≤ first - eff
        · rw [if_pos hmg] at hg
          rcases List.mem_singleton.mp hg with rfl
          refine ⟨fun _ => rfl, ?_, Nat.le_refl _,
            hub first (List.mem_cons_self _ _), hmg⟩
          intro h
          exact Bool.noConfusion h
        · rw [if_neg hmg] at hg
          cases hg
      · have hfacts := iat_forall dEnd mg rest first hp hub g hg
        refine ⟨?_, fun _ => hfacts.2.1, le_trans hef hfacts.2.2.1,
          hfacts.2.2.2.1, hfacts.2.2.2.2⟩
        intro h
        rw [hfacts.1] at h
        exact Bool.noConfusion h

/-- One bucket's interior/trailing gaps are listed in interval order. -/
theorem iat_ordered (dEnd mg : Nat) :
    ∀ (rest : List Nat) (prev : Nat), List.Pairwise (· ≤ ·) (prev :: rest) →
      (∀ t ∈ prev :: rest, t ≤ dEnd) →
      List.Pairwise (fun g g' : Gap => g.stop ≤ g'.start)
        (interiorAndTrailing prev rest dEnd mg) := by
  intro rest
  induction rest with
  | nil =>
      intro prev _ _
      by_cases hmg : mg ≤ dEnd - prev
      · rw [interiorAndTrailing, if_pos hmg]
        exact List.pairwise_singleton _ _
      · rw [interiorAndTrailing, if_neg hmg]
        exact List.Pairwise.nil
  | cons r rest' ih =>
      intro prev hp hub
      rcases List.pairwise_cons.mp hp with ⟨hhead, htail⟩
      have htailub : ∀ t ∈ r :: rest', t ≤ dEnd :=
        fun t ht => hub t (List.mem_cons_of_mem _ ht)
      rw [interiorAndTrailing]
      rw [List.pairwise_append]
      refine ⟨?_, ih r htail htailub, ?_⟩
      · by_cases hmg : mg ≤ r - prev
        · rw [if_pos hmg]; exact List.pairwise_singleton _ _
        · rw [if_neg hmg]; exact List.Pairwise.nil
      · intro g hg g' hg'
        have hfacts := iat_forall dEnd mg rest' r htail htailub g' hg'
        by_cases hmg : mg ≤ r - prev
        · rw [if_pos hmg] at hg
          rcases List.mem_singleton.mp hg with rfl
          exact hfacts.2.2.1
        · rw [if_neg hmg] at hg
          cases hg

/-- One bucket's full gap list is in interval order. -/
theorem gapsForDay_ordered (eff dEnd mg : Nat) (ts : List Nat)
    (hp : List.Pairwise (· ≤ ·) ts) (hub : ∀ t ∈ ts, t ≤ dEnd) :
    List.Pairwise (fun g g' : Gap => g.stop ≤ g'.start) (gapsForDay eff dEnd ts mg) := by
  cases ts with
  | nil =>
      by_cases hmg : mg ≤ dEnd - eff
      · rw [gapsForDay, if_pos hmg]
        exact List.pairwise_singleton _ _
      · rw [gapsForDay, if_neg hmg]
        exact List.Pairwise.nil
  | cons first rest =>
      rw [gapsForDay]
      rw [List.pairwise_append]
      refine ⟨?_, iat_ordered dEnd mg rest first hp hub, ?_⟩
      · by_cases hmg : mg ≤ first - eff
        · rw [if_pos hmg]; exact List.pairwise_singleton _ _
        · rw [if_neg hmg]; exact List.Pairwise.nil
      · intro g hg g' hg'
        have hfacts := iat_forall dEnd mg rest first hp hub g' hg'
        by_cases hmg : mg ≤ first - eff
        · rw [if_pos hmg] at hg
          rcases List.mem_singleton.mp hg with rfl
          exact hfacts.2.2.1
        · rw [if_neg hmg] at hg
          cases hg

theorem dayStartOf_le_self (t : Nat) : dayStartOf (dayOf t) ≤ t := by
  unfold dayStartOf dayOf daySecs
  omega

theorem lt_dayStartOf_succ (t : Nat) : t < dayStartOf (dayOf t + 1) := by
  unfold dayStartOf dayOf daySecs
  omega

theorem dayOf_eq_iff (t d : Nat) :
    dayOf t = d ↔ (dayStartOf d ≤ t ∧ t < dayStartOf (d + 1)) := by
  unfold dayStartOf dayOf daySecs
  omega

theorem dayOf_mono {a b : Nat} (h : a ≤ b) : dayOf a ≤ dayOf b := by
  unfold dayOf daySecs
  omega

theorem dayStartOf_mono {a b : Nat} (h : a ≤ b) : dayStartOf a ≤ dayStartOf b := by
  unfold dayStartOf daySecs
  omega

theorem effOf_eq_max (startT d : Nat) (hd : dayOf startT ≤ d) :
    effOf startT d = max startT (dayStartOf d) := by
  unfold effOf
  by_cases h : d = dayOf startT ∧ dayStartOf d < startT
  · rw [if_pos h]
    omega
  · rw [if_neg h]
    rcases Nat.lt_or_ge d (dayOf startT) with hlt | hge
    · omega
    · rcases Nat.eq_or_lt_of_le hge with heq | hlt
      · have hds : dayStartOf d ≤ startT := by
          rw [← heq]
          exact dayStartOf_le_self startT
        omega
      · have : startT < dayStartOf d :=
          lt_of_lt_of_le (lt_dayStartOf_succ startT) (dayStartOf_mono hlt)
        omega

theorem effOf_ge_dayStart (startT d : Nat) : dayStartOf d ≤ effOf startT d := by
  unfold effOf
  by_cases h : d = dayOf startT ∧ dayStartOf d < startT
  · rw [if_pos h]
    omega
  · rw [if_neg h]

theorem dayEndOf_le_dayStart_succ (now d : Nat) : dayEndOf now d ≤ dayStartOf (d + 1) := by
  unfold dayEndOf
  by_cases h : d = dayOf now
  · rw [if_pos h, h]
    exact Nat.le_of_lt (lt_dayStartOf_succ now)
  · rw [if_neg h]

theorem dayEndOf_le_now (now d : Nat) (hd : d ≤ dayOf now) : dayEndOf now d ≤ now := by
  unfold dayEndOf
  by_cases h : d = dayOf now
  · rw [if_pos h]
  · rw [if_neg h]
    have hlt : d + 1 ≤ dayOf now := by omega
    exact le_trans (dayStartOf_mono hlt) (dayStartOf_le_self now)

/-- The bucket of an instant contains it. -/
theorem bucket_contains_self (startT now q : Nat) (h1 : startT ≤ q) (h2 : q < now) :
    effOf startT (dayOf q) ≤ q ∧ q < dayEndOf now (dayOf q) := by
  constructor
  · rw [effOf_eq_max startT (dayOf q) (dayOf_mono h1)]
    have := dayStartOf_le_self q
    omega
  · unfold dayEndOf
    by_cases h : dayOf q = dayOf now
    · rw [if_pos h]; exact h2
    · rw [if_neg h]; exact lt_dayStartOf_succ q

/-- Conversely, bucket membership puts an instant inside the window. -/
theorem bucket_in_window (startT now q : Nat) (hd0 : dayOf startT ≤ dayOf q)
    (hd1 : dayOf q ≤ dayOf now) (h1 : effOf startT (dayOf q) ≤ q)
    (h2 : q < dayEndOf now (dayOf q)) : startT ≤ q ∧ q < now := by
  constructor
  · rw [effOf_eq_max startT (dayOf q) hd0] at h1
    omega
  · exact lt_of_lt_of_le h2 (dayEndOf_le_now now (dayOf q) hd1)

theorem allGaps_cons (d : Nat) (gs : List Gap) (m : List (Nat × List Gap)) :
    allGaps ((d, gs) :: m) = gs ++ allGaps m := rfl

/-- Lifting of the membership characterization through the day loop. -/
theorem findZoneGapsGo_mem_iff (startT now mg : Nat) :
    ∀ fuel d rem, d + fuel = dayOf now + 1 → dayOf startT ≤ d →
      List.Pairwise (· ≤ ·) rem → (∀ t ∈ rem, t < now) →
      ∀ q, timestamp_in_any_gap q (allGaps (findZoneGapsGo startT now mg d fuel rem))
          = true ↔
        (d ≤ dayOf q ∧ dayOf q ≤ dayOf now ∧ effOf startT (dayOf q) ≤ q ∧
          q < dayEndOf now (dayOf q) ∧ q ∉ rem ∧
          mg ≤ holeHi (dayEndOf now (dayOf q))
              (rem.filter (fun t => decide (effOf startT (dayOf q) ≤ t) &&
                decide (t < dayEndOf now (dayOf q)))) q
            - holeLo (effOf startT (dayOf q))
              (rem.filter (fun t => decide (effOf startT (dayOf q) ≤ t) &&
                decide (t < dayEndOf now (dayOf q)))) q) := by
  intro fuel
  induction fuel with
  | zero =>
      intro d rem hfuel _ _ _ q
      rw [show findZoneGapsGo startT now mg d 0 rem = [] from rfl]
      simp only [allGaps, List.foldr_nil, timestamp_in_any_gap, List.any_nil,
        Bool.false_eq_true, false_iff]
      rintro ⟨h1, h2, _⟩
      omega
  | succ fuel ih =>
      intro d rem hfuel hd hpair hub q
      have hstep : findZoneGapsGo startT now mg d (fuel + 1) rem =
          (if dayEndOf now d ≤ effOf startT d then
            findZoneGapsGo startT now mg (d + 1) fuel rem
          else if (gapsForDay (effOf startT d) (dayEndOf now d)
              (List.takeWhile (fun t => decide (t < dayEndOf now d))
                (List.dropWhile (fun t => decide (t < effOf startT d)) rem)) mg).isEmpty then
            findZoneGapsGo startT now mg (d + 1) fuel
              (List.dropWhile (fun t => decide (t < dayEndOf now d))
                (List.dropWhile (fun t => decide (t < effOf startT d)) rem))
          else
            ((d, gapsForDay (effOf startT d) (dayEndOf now d)
                (List.takeWhile (fun t => decide (t < dayEndOf now d))
                  (List.dropWhile (fun t => decide (t < effOf startT d)) rem)) mg) ::
              findZoneGapsGo startT now mg (d + 1) fuel
                (List.dropWhile (fun t => decide (t < dayEndOf now d))
                  (List.dropWhile (fun t => decide (t < effOf startT d)) rem)))) := rfl
      rw [hstep]
      by_cases hskip : dayEndOf now d ≤ effOf startT d
      · -- the source's skip branch: only reachable on the final day with an
        -- empty remainder of the window
        rw [if_pos hskip]
        have hdnow : d = dayOf now := by
          by_contra hne
          have hlt : d < dayOf now := by
            rcases Nat.lt_or_ge d (dayOf now) with h | h
            · exact h
            · omega
          have h1 : dayEndOf now d = dayStartOf (d + 1) := by
            unfold dayEndOf
            rw [if_neg hne]
          have h2 : effOf startT d = max startT (dayStartOf d) := effOf_eq_max startT d hd
          have h3 : startT < dayStartOf (d + 1) :=
            lt_of_lt_of_le (lt_dayStartOf_succ startT)
              (dayStartOf_mono (by omega : dayOf startT + 1 ≤ d + 1))
          have h4 : dayStartOf d < dayStartOf (d + 1) := by
            unfold dayStartOf daySecs
            omega
          omega
        rw [ih (d + 1) rem (by omega) (by omega) hpair hub]
        constructor
        · rintro ⟨h1, h2, _⟩
          exfalso
          omega
        · rintro ⟨h1, h2, h3, h4, _⟩
          exfalso
          have hq : dayOf q = d := by omega
          rw [hq] at h3 h4
          have : dayEndOf now d ≤ q := le_trans hskip h3
          omega
      · rw [if_neg hskip]
        set Ed := effOf startT d with hEd
        set Dd := dayEndOf now d with hDd
        set dayTimes := (rem.dropWhile (fun t => decide (t < Ed))).takeWhile
          (fun t => decide (t < Dd)) with hdayTimes
        set rem2 := (rem.dropWhile (fun t => decide (t < Ed))).dropWhile
          (fun t => decide (t < Dd)) with hrem2
        have hEdDd : Ed < Dd := by omega
        have hEdge : Ed ≤ Dd := by omega
        have hslice : dayTimes = rem.filter
            (fun t => decide (Ed ≤ t) && decide (t < Dd)) := by
          rw [hdayTimes]
          exact dropWhile_takeWhile_slice rem Ed Dd hpair
        have hrem2eq : rem2 = rem.dropWhile (fun t => decide (t < Dd)) := by
          rw [hrem2]
          exact dropWhile_dropWhile rem Ed Dd hEdge hpair
        have hsplitRem : rem.takeWhile (fun t => decide (t < Dd)) ++ rem2 = rem := by
          rw [hrem2eq]
          exact List.takeWhile_append_dropWhile (fun t => decide (t < Dd)) rem
        have hpair2 : List.Pairwise (· ≤ ·) rem2 := by
          rw [hrem2eq]
          exact hpair.sublist (List.dropWhile_sublist _)
        have hub2 : ∀ t ∈ rem2, t < now := by
          intro t ht
          rw [hrem2eq] at ht
          exact hub t ((List.dropWhile_sublist _).subset ht)
        have hpairTimes : List.Pairwise (· ≤ ·) dayTimes := by
          rw [hslice]
          exact hpair.sublist (List.filter_sublist _)
        have hlbTimes : ∀ t ∈ dayTimes, Ed ≤ t := by
          intro t ht
          rw [hslice] at ht
          rcases List.mem_filter.mp ht with ⟨_, hdec⟩
          rcases Bool.and_eq_true_iff.mp hdec with ⟨h1, _⟩
          simpa using h1
        have hubTimes : ∀ t ∈ dayTimes, t < Dd := by
          intro t ht
          rw [hslice] at ht
          rcases List.mem_filter.mp ht with ⟨_, hdec⟩
          rcases Bool.and_eq_true_iff.mp hdec with ⟨_, h2⟩
          simpa using h2
        have hbucket := gapsForDay_mem_iff Ed Dd mg dayTimes hpairTimes hlbTimes hubTimes q
        have hIH := ih (d + 1) rem2 (by omega) (by omega) hpair2 hub2 q
        have hDdStart : Dd ≤ dayStartOf (d + 1) := dayEndOf_le_dayStart_succ now d
        have hLHS : timestamp_in_any_gap q (allGaps
            (if (gapsForDay Ed Dd dayTimes mg).isEmpty then
              findZoneGapsGo startT now mg (d + 1) fuel rem2
            else (d, gapsForDay Ed Dd dayTimes mg) ::
              findZoneGapsGo startT now mg (d + 1) fuel rem2)) =
            (timestamp_in_any_gap q (gapsForDay Ed Dd dayTimes mg) ||
              timestamp_in_any_gap q
                (allGaps (findZoneGapsGo startT now mg (d + 1) fuel rem2))) := by
          by_cases hemp : (gapsForDay Ed Dd dayTimes mg).isEmpty
          · rw [if_pos hemp]
            rw [List.isEmpty_iff.mp hemp]
            simp [timestamp_in_any_gap]
          · rw [if_neg hemp, allGaps_cons, inAny_append]
        rw [hLHS]
        by_cases hdq : dayOf q = d
        · -- the instant belongs to the current bucket
          have htail : timestamp_in_any_gap q
              (allGaps (findZoneGapsGo startT now mg (d + 1) fuel rem2)) = false := by
            cases hx : timestamp_in_any_gap q
              (allGaps (findZoneGapsGo startT now mg (d + 1) fuel rem2)) with
            | false => rfl
            | true =>
                have := (hIH.mp hx).1
                omega
          rw [htail, Bool.or_false, hbucket, hdq, ← hslice]
          have hdnow : d ≤ dayOf now := by omega
          constructor
          · rintro ⟨h1, h2, h3, h4⟩
            refine ⟨Nat.le_refl d, hdnow, h1, h2, ?_, h4⟩
            intro hq
            apply h3
            rw [hslice]
            refine List.mem_filter.mpr ⟨hq, ?_⟩
            rw [decide_eq_true h1, decide_eq_true h2]
            rfl
          · rintro ⟨_, _, h3, h4, h5, h6⟩
            refine ⟨h3, h4, ?_, h6⟩
            intro hq
            apply h5
            rw [hslice] at hq
            exact (List.mem_filter.mp hq).1
        · -- the instant belongs to a later bucket
          have hbucket0 : timestamp_in_any_gap q (gapsForDay Ed Dd dayTimes mg)
              = false := by
            cases hx : timestamp_in_any_gap q (gapsForDay Ed Dd dayTimes mg) with
            | false => rfl
            | true =>
                exfalso
                rcases hbucket.mp hx with ⟨h1, h2, _⟩
                have hds : dayStartOf d ≤ q := le_trans (effOf_ge_dayStart startT d) h1
                have hde : q < dayStartOf (d + 1) := lt_of_lt_of_le h2 hDdStart
                exact hdq ((dayOf_eq_iff q d).mpr ⟨hds, hde⟩)
          rw [hbucket0, Bool.false_or, hIH]
          have hsliceLater : ∀ dq, d + 1 ≤ dq →
              rem2.filter (fun t => decide (effOf startT dq ≤ t) &&
                decide (t < dayEndOf now dq)) =
              rem.filter (fun t => decide (effOf startT dq ≤ t) &&
                decide (t < dayEndOf now dq)) := by
            intro dq hdq1
            have hnilf : (rem.takeWhile (fun t => decide (t < Dd))).filter
                (fun t => decide (effOf startT dq ≤ t) &&
                  decide (t < dayEndOf now dq)) = [] := by
              rw [List.filter_eq_nil_iff]
              intro x hx
              have hxlt : x < Dd := by
                have := List.mem_takeWhile_imp hx
                simpa using this
              have hxe : x < effOf startT dq := by
                have h1 : Dd ≤ dayStartOf (d + 1) := hDdStart
                have h2 : dayStartOf (d + 1) ≤ dayStartOf dq := dayStartOf_mono hdq1
                have h3 : dayStartOf dq ≤ effOf startT dq := effOf_ge_dayStart startT dq
                omega
              rw [decide_eq_false (by omega : ¬ effOf startT dq ≤ x)]
              simp
            conv_rhs => rw [← hsplitRem]
            rw [List.filter_append, hnilf, List.nil_append]
          have hmemLater : ∀ hdq1 : d + 1 ≤ dayOf q, effOf startT (dayOf q) ≤ q →
              (q ∉ rem2 ↔ q ∉ rem) := by
            intro hdq1 hEq
            constructor
            · intro h2 hq
              apply h2
              rw [← hsplitRem] at hq
              rcases List.mem_append.mp hq with hq | hq
              · exfalso
                have hxlt : q < Dd := by
                  have := List.mem_takeWhile_imp hq
                  simpa using this
                have h1 : Dd ≤ dayStartOf (d + 1) := hDdStart
                have h2' : dayStartOf (d + 1) ≤ dayStartOf (dayOf q) :=
                  dayStartOf_mono hdq1
                have h3 : dayStartOf (dayOf q) ≤ effOf startT (dayOf q) :=
                  effOf_ge_dayStart startT (dayOf q)
                omega
              · exact hq
            · intro h2 hq
              apply h2
              rw [← hsplitRem]
              exact List.mem_append.mpr (Or.inr hq)
          constructor
          · rintro ⟨h1, h2, h3, h4, h5, h6⟩
            rw [hsliceLater (dayOf q) h1] at h6
            exact ⟨by omega, h2, h3, h4, (hmemLater h1 h3).mp h5, h6⟩
          · rintro ⟨h1, h2, h3, h4, h5, h6⟩
            have hdq1 : d + 1 ≤ dayOf q := by omega
            rw [← hsliceLater (dayOf q) hdq1] at h6
            exact ⟨hdq1, h2, h3, h4, (hmemLater hdq1 h3).mpr h5, h6⟩

/-- The full membership characterization of `find_zone_gaps`: an instant is
inside some reported gap exactly when it lies in the window, is not itself a
stored timestamp, and the hole around it within its day bucket spans at least
`min_gap`. -/
theorem find_zone_gaps_mem_iff (startT now mg : Nat) (times : List Nat)
    (hp : List.Pairwise (· ≤ ·) times) (_hlb : ∀ t ∈ times, startT ≤ t)
    (hub : ∀ t ∈ times, t < now) :
    ∀ q, timestamp_in_any_gap q (allGaps (find_zone_gaps startT now times mg)) = true ↔
      (startT ≤ q ∧ q < now ∧ q ∉ times ∧
        mg ≤ holeHi (dayEndOf now (dayOf q)) (daySlice startT now times (dayOf q)) q
          - holeLo (effOf startT (dayOf q)) (daySlice startT now times (dayOf q)) q) := by
  intro q
  unfold find_zone_gaps
  by_cases hnow : now ≤ startT
  · rw [if_pos hnow]
    simp only [allGaps, List.foldr_nil, timestamp_in_any_gap, List.any_nil,
      Bool.false_eq_true, false_iff]
    rintro ⟨h1, h2, _⟩
    omega
  · rw [if_neg hnow]
    have hdd : dayOf startT ≤ dayOf now := dayOf_mono (by omega)
    rw [findZoneGapsGo_mem_iff startT now mg (dayOf now + 1 - dayOf startT)
      (dayOf startT) times (by omega) (Nat.le_refl _) hp hub q]
    unfold daySlice
    constructor
    · rintro ⟨h1, h2, h3, h4, h5, h6⟩
      rcases bucket_in_window startT now q h1 h2 h3 h4 with ⟨hw1, hw2⟩
      exact ⟨hw1, hw2, h5, h6⟩
    · rintro ⟨h1, h2, h3, h4⟩
      rcases bucket_contains_self startT now q h1 h2 with ⟨hb1, hb2⟩
      exact ⟨dayOf_mono h1, dayOf_mono (by omega), hb1, hb2, h3, h4⟩

/-- Structural description of the day-loop output: entries carry strictly
increasing days within the window, and each entry is exactly the non-empty
per-bucket gap computation over that bucket's slice of the store. -/
theorem findZoneGapsGo_entries (startT now mg : Nat) :
    ∀ fuel d rem, d + fuel = dayOf now + 1 → dayOf startT ≤ d →
      List.Pairwise (· ≤ ·) rem → (∀ t ∈ rem, t < now) →
      List.Pairwise (fun a b : Nat × List Gap => a.1 < b.1)
          (findZoneGapsGo startT now mg d fuel rem) ∧
        ∀ e ∈ findZoneGapsGo startT now mg d fuel rem,
          d ≤ e.1 ∧ e.1 ≤ dayOf now ∧ e.2 ≠ [] ∧
            e.2 = gapsForDay (effOf startT e.1) (dayEndOf now e.1)
              (rem.filter (fun t => decide (effOf startT e.1 ≤ t) &&
                decide (t < dayEndOf now e.1))) mg := by
  intro fuel
  induction fuel with
  | zero =>
      intro d rem _ _ _ _
      rw [show findZoneGapsGo startT now mg d 0 rem = [] from rfl]
      exact ⟨List.Pairwise.nil, fun e he => absurd he (List.not_mem_nil e)⟩
  | succ fuel ih =>
      intro d rem hfuel hd hpair hub
      have hstep : findZoneGapsGo startT now mg d (fuel + 1) rem =
          (if dayEndOf now d ≤ effOf startT d then
            findZoneGapsGo startT now mg (d + 1) fuel rem
          else if (gapsForDay (effOf startT d) (dayEndOf now d)
              (List.takeWhile (fun t => decide (t < dayEndOf now d))
                (List.dropWhile (fun t => decide (t < effOf startT d)) rem)) mg).isEmpty then
            findZoneGapsGo startT now mg (d + 1) fuel
              (List.dropWhile (fun t => decide (t < dayEndOf now d))
                (List.dropWhile (fun t => decide (t < effOf startT d)) rem))
          else
            ((d, gapsForDay (effOf startT d) (dayEndOf now d)
                (List.takeWhile (fun t => decide (t < dayEndOf now d))
                  (List.dropWhile (fun t => decide (t < effOf startT d)) rem)) mg) ::
              findZoneGapsGo startT now mg (d + 1) fuel
                (List.dropWhile (fun t => decide (t < dayEndOf now d))
                  (List.dropWhile (fun t => decide (t < effOf startT d)) rem)))) := rfl
      rw [hstep]
      by_cases hskip : dayEndOf now d ≤ effOf startT d
      · rw [if_pos hskip]
        have := ih (d + 1) rem (by omega) (by omega) hpair hub
        refine ⟨this.1, fun e he => ?_⟩
        have hfacts := this.2 e he
        exact ⟨by omega, hfacts.2.1, hfacts.2.2.1, hfacts.2.2.2⟩
      · rw [if_neg hskip]
        set Ed := effOf startT d with hEd
        set Dd := dayEndOf now d with hDd
        set dayTimes := (rem.dropWhile (fun t => decide (t < Ed))).takeWhile
          (fun t => decide (t < Dd)) with hdayTimes
        set rem2 := (rem.dropWhile (fun t => decide (t < Ed))).dropWhile
          (fun t => decide (t < Dd)) with hrem2
        have hEdge : Ed ≤ Dd := by omega
        have hslice : dayTimes = rem.filter
            (fun t => decide (Ed ≤ t) && decide (t < Dd)) := by
          rw [hdayTimes]
          exact dropWhile_takeWhile_slice rem Ed Dd hpair
        have hrem2eq : rem2 = rem.dropWhile (fun t => decide (t < Dd)) := by
          rw [hrem2]
          exact dropWhile_dropWhile rem Ed Dd hEdge hpair
        have hsplitRem : rem.takeWhile (fun t => decide (t < Dd)) ++ rem2 = rem := by
          rw [hrem2eq]
          exact List.takeWhile_append_dropWhile (fun t => decide (t < Dd)) rem
        have hpair2 : List.Pairwise (· ≤ ·) rem2 := by
          rw [hrem2eq]
          exact hpair.sublist (List.dropWhile_sublist _)
        have hub2 : ∀ t ∈ rem2, t < now := by
          intro t ht
          rw [hrem2eq] at ht
          exact hub t ((List.dropWhile_sublist _).subset ht)
        have hDdStart : Dd ≤ dayStartOf (d + 1) := dayEndOf_le_dayStart_succ now d
        have hIH := ih (d + 1) rem2 (by omega) (by omega) hpair2 hub2
        have hsliceLater : ∀ dq, d + 1 ≤ dq →
            rem2.filter (fun t => decide (effOf startT dq ≤ t) &&
              decide (t < dayEndOf now dq)) =
            rem.filter (fun t => decide (effOf startT dq ≤ t) &&
              decide (t < dayEndOf now dq)) := by
          intro dq hdq1
          have hnilf : (rem.takeWhile (fun t => decide (t < Dd))).filter
              (fun t => decide (effOf startT dq ≤ t) &&
                decide (t < dayEndOf now dq)) = [] := by
            rw [List.filter_eq_nil_iff]
            intro x hx
            have hxlt : x < Dd := by
              have := List.mem_takeWhile_imp hx
              simpa using this
            have hxe : x < effOf startT dq := by
              have h1 : dayStartOf (d + 1) ≤ dayStartOf dq := dayStartOf_mono hdq1
              have h2 : dayStartOf dq ≤ effOf startT dq := effOf_ge_dayStart startT dq
              omega
            rw [decide_eq_false (by omega : ¬ effOf startT dq ≤ x)]
            simp
          conv_rhs => rw [← hsplitRem]
          rw [List.filter_append, hnilf, List.nil_append]
        have htailEntries : ∀ e ∈ findZoneGapsGo startT now mg (d + 1) fuel rem2,
            d ≤ e.1 ∧ e.1 ≤ dayOf now ∧ e.2 ≠ [] ∧
              e.2 = gapsForDay (effOf startT e.1) (dayEndOf now e.1)
                (rem.filter (fun t => decide (effOf startT e.1 ≤ t) &&
                  decide (t < dayEndOf now e.1))) mg := by
          intro e he
          have hfacts := hIH.2 e he
          refine ⟨by omega, hfacts.2.1, hfacts.2.2.1, ?_⟩
          rw [hfacts.2.2.2, hsliceLater e.1 hfacts.1]
        by_cases hemp : (gapsForDay Ed Dd dayTimes mg).isEmpty
        · rw [if_pos hemp]
          exact ⟨hIH.1, htailEntries⟩
        · rw [if_neg hemp]
          constructor
          · rw [List.pairwise_cons]
            refine ⟨fun e he => ?_, hIH.1⟩
            have := hIH.2 e he
            omega
          · intro e he
            rcases List.mem_cons.mp he with rfl | he
            · refine ⟨Nat.le_refl _, by omega, ?_, ?_⟩
              · show gapsForDay Ed Dd dayTimes mg ≠ []
                intro hnil
                rw [hnil] at hemp
                exact hemp rfl
              · show gapsForDay Ed Dd dayTimes mg = gapsForDay Ed Dd
                  (rem.filter (fun t => decide (Ed ≤ t) && decide (t < Dd))) mg
                rw [← hslice]
            · exact htailEntries e he

theorem allGaps_eq_join (m : List (Nat × List Gap)) :
    allGaps m = (m.map Prod.snd).join := by
  induction m with
  | nil => rfl
  | cons e rest ih =>
      cases e with
      | mk d gs =>
          rw [allGaps_cons, ih]
          rfl

theorem inGap_bounds (t : Nat) (g : Gap) (h : inGap t g = true) :
    g.start ≤ t ∧ t < g.stop := by
  cases hin : g.start_inclusive with
  | true =>
      rw [inGap, hin] at h
      simp only [if_true, Bool.and_eq_true, decide_eq_true_eq] at h
      exact h
  | false =>
      rw [inGap, hin] at h
      simp only [Bool.false_eq_true, if_false, Bool.and_eq_true, decide_eq_true_eq] at h
      obtain ⟨h1, h2⟩ := h
      exact ⟨Nat.le_of_lt h1, h2⟩

/-- `find_zone_gaps` output entries: strictly increasing days of the window,
each carrying the non-empty per-bucket gap computation over its day slice. -/
theorem find_zone_gaps_entries (startT now mg : Nat) (times : List Nat)
    (hp : List.Pairwise (· ≤ ·) times) (hub : ∀ t ∈ times, t < now) :
    List.Pairwise (fun a b : Nat × List Gap => a.1 < b.1)
        (find_zone_gaps startT now times mg) ∧
      ∀ e ∈ find_zone_gaps startT now times mg,
        dayOf startT ≤ e.1 ∧ e.1 ≤ dayOf now ∧ e.2 ≠ [] ∧
          e.2 = gapsForDay (effOf startT e.1) (dayEndOf now e.1)
            (daySlice startT now times e.1) mg := by
  unfold find_zone_gaps
  by_cases hnow : now ≤ startT
  · rw [if_pos hnow]
    exact ⟨List.Pairwise.nil, fun e he => absurd he (List.not_mem_nil e)⟩
  · rw [if_neg hnow]
    have hdd : dayOf startT ≤ dayOf now := dayOf_mono (by omega)
    have := findZoneGapsGo_entries startT now mg (dayOf now + 1 - dayOf startT)
      (dayOf startT) times (by omega) (Nat.le_refl _) hp hub
    exact this

/-- The day-slice hypotheses needed to apply the per-bucket lemmas. -/
theorem daySlice_hyps (startT now : Nat) (times : List Nat)
    (hp : List.Pairwise (· ≤ ·) times) (d : Nat) :
    List.Pairwise (· ≤ ·) (daySlice startT now times d) ∧
      (∀ t ∈ daySlice startT now times d, effOf startT d ≤ t) ∧
      (∀ t ∈ daySlice startT now times d, t < dayEndOf now d) := by
  refine ⟨hp.sublist (List.filter_sublist _), ?_, ?_⟩
  · intro t ht
    rcases List.mem_filter.mp ht with ⟨_, hdec⟩
    rcases Bool.and_eq_true_iff.mp hdec with ⟨h1, _⟩
    simpa using h1
  · intro t ht
    rcases List.mem_filter.mp ht with ⟨_, hdec⟩
    rcases Bool.and_eq_true_iff.mp hdec with ⟨_, h2⟩
    simpa using h2

/-- C1 counterexample: window of one day, a single stored timestamp at
01:00, `min_gap` four hours.  The leading one-hour hole `[00:00, 01:00)` is
below `min_gap` and goes unreported, so the union of the reported Gaps and
the stored timestamps does not cover the window: the instant 0 is covered by
neither. -/
theorem gap_coverage_claim_fails :
    ¬ coversExactly 0 86400 [3600]
      (allGaps (find_zone_gaps 0 86400 [3600] 14400)) := by
  intro h
  have h0 := (h 0).mp ⟨Nat.le_refl 0, by decide⟩
  rcases h0 with h0 | h0
  · simp at h0
  · rw [show find_zone_gaps 0 86400 [3600] 14400 =
      [(0, [⟨3600, 86400, false⟩])] from by decide] at h0
    simp [allGaps, timestamp_in_any_gap, inGap] at h0

/-- C1 as amended: the reported Gaps are pairwise disjoint, each lies inside
the window `[s, now)` with duration at least `min_gap` and contains no stored
timestamp; exact coverage of the window by the Gaps together with the stored
timestamps holds in the degenerate case `min_gap = 0` (for positive `min_gap`
the sub-threshold holes are deliberately left uncovered). -/
theorem find_zone_gaps_coverage (startT now mg : Nat) (times : List Nat)
    (hp : List.Pairwise (· ≤ ·) times) (hlb : ∀ t ∈ times, startT ≤ t)
    (hub : ∀ t ∈ times, t < now) :
    GapsDisjoint (allGaps (find_zone_gaps startT now times mg)) ∧
      (∀ g ∈ allGaps (find_zone_gaps startT now times mg),
        startT ≤ g.start ∧ g.stop ≤ now ∧ mg ≤ g.stop - g.start ∧
          ∀ t ∈ times, inGap t g = false) ∧
      (mg = 0 →
        coversExactly startT now times (allGaps (find_zone_gaps startT now times mg))) := by
  rcases find_zone_gaps_entries startT now mg times hp hub with ⟨hkeys, hentries⟩
  have hsliceH := daySlice_hyps startT now times hp
  have hmem := find_zone_gaps_mem_iff startT now mg times hp hlb hub
  have hginfo : ∀ g ∈ allGaps (find_zone_gaps startT now times mg),
      ∃ e ∈ find_zone_gaps startT now times mg, g ∈ e.2 := by
    intro g hg
    rw [allGaps_eq_join] at hg
    rcases List.mem_join.mp hg with ⟨l, hl, hgl⟩
    rcases List.mem_map.mp hl with ⟨e, he, rfl⟩
    exact ⟨e, he, hgl⟩
  refine ⟨?_, ?_, ?_⟩
  · -- pairwise disjointness
    rw [GapsDisjoint, allGaps_eq_join]
    have hpw : List.Pairwise (fun g g' : Gap => g.stop ≤ g'.start)
        ((find_zone_gaps startT now times mg).map Prod.snd).join := by
      rw [List.pairwise_join]
      refine ⟨?_, ?_⟩
      · intro l hl
        rcases List.mem_map.mp hl with ⟨e, he, rfl⟩
        rcases hentries e he with ⟨_, _, _, hgs⟩
        rw [hgs]
        exact gapsForDay_ordered _ _ mg _ (hsliceH e.1).1
          (fun t ht => Nat.le_of_lt ((hsliceH e.1).2.2 t ht))
      · have : List.Pairwise (fun a b : Nat × List Gap =>
            ∀ g ∈ a.2, ∀ g' ∈ b.2, g.stop ≤ g'.start)
            (find_zone_gaps startT now times mg) := by
          refine hkeys.imp_of_mem ?_
          intro a b ha hb hab g hg g' hg'
          rcases hentries a ha with ⟨_, _, _, hga⟩
          rcases hentries b hb with ⟨hb1, _, _, hgb⟩
          rw [hga] at hg
          rw [hgb] at hg'
          have hfa := gapsForDay_forall _ _ mg _ (hsliceH a.1).1 (hsliceH a.1).2.1
            (fun t ht => Nat.le_of_lt ((hsliceH a.1).2.2 t ht)) g hg
          have hfb := gapsForDay_forall _ _ mg _ (hsliceH b.1).1 (hsliceH b.1).2.1
            (fun t ht => Nat.le_of_lt ((hsliceH b.1).2.2 t ht)) g' hg'
          have h1 : g.stop ≤ dayEndOf now a.1 := hfa.2.2.2.1
          have h2 : dayEndOf now a.1 ≤ dayStartOf (a.1 + 1) :=
            dayEndOf_le_dayStart_succ now a.1
          have h3 : dayStartOf (a.1 + 1) ≤ dayStartOf b.1 := dayStartOf_mono (by omega)
          have h4 : dayStartOf b.1 ≤ effOf startT b.1 := effOf_ge_dayStart startT b.1
          have h5 : effOf startT b.1 ≤ g'.start := hfb.2.2.1
          omega
        exact (List.pairwise_map.mpr this).imp (fun h => h)
    refine hpw.imp ?_
    intro g g' hle t hg hg'
    have h1 := inGap_bounds t g hg
    have h2 := inGap_bounds t g' hg'
    omega
  · -- confinement, duration, stored-timestamp avoidance
    intro g hg
    rcases hginfo g hg with ⟨e, he, hge⟩
    rcases hentries e he with ⟨he1, he2, _, hgs⟩
    rw [hgs] at hge
    have hf := gapsForDay_forall _ _ mg _ (hsliceH e.1).1 (hsliceH e.1).2.1
      (fun t ht => Nat.le_of_lt ((hsliceH e.1).2.2 t ht)) g hge
    have heff : startT ≤ effOf startT e.1 := by
      rw [effOf_eq_max startT e.1 he1]
      omega
    refine ⟨le_trans heff hf.2.2.1,
      le_trans hf.2.2.2.1 (dayEndOf_le_now now e.1 he2), hf.2.2.2.2, ?_⟩
    intro t ht
    have hnone : timestamp_in_any_gap t (allGaps (find_zone_gaps startT now times mg))
        = false := by
      cases hx : timestamp_in_any_gap t (allGaps (find_zone_gaps startT now times mg)) with
      | false => rfl
      | true => exact absurd ((hmem t).mp hx).2.2.1 (fun hn => hn ht)
    rw [timestamp_in_any_gap] at hnone
    have := List.any_eq_false.mp hnone g hg
    exact Bool.eq_false_iff.mpr this
  · -- exact coverage when the threshold is disabled
    intro hmg0 t
    constructor
    · rintro ⟨h1, h2⟩
      by_cases ht : t ∈ times
      · exact Or.inl ht
      · right
        rw [hmem t]
        rw [hmg0]
        exact ⟨h1, h2, ht, Nat.zero_le _⟩
    · rintro (ht | ht)
      · exact ⟨hlb t ht, hub t ht⟩
      · have := (hmem t).mp ht
        exact ⟨this.1, this.2.1⟩

/-- Witness for C1's amended theorem at the counterexample's input. -/
theorem find_zone_gaps_coverage_witness :
    GapsDisjoint (allGaps (find_zone_gaps 0 86400 [3600] 14400)) :=
  (find_zone_gaps_coverage 0 86400 14400 [3600] (by decide)
    (by decide) (by decide)).1

/-- C8: within each day bucket the Gap Detector marks the leading gap (from
the bucket's effective start) with an inclusive start and every other gap
with an exclusive start anchored at a stored timestamp; an empty bucket
yields its single full-bucket gap whenever the bucket spans at least
`min_gap`; and the spec scenario (15-minute samples 00:00-10:00 resuming at
18:00, `min_gap` four hours) yields exactly the one exclusive-start gap
`(10:00, 18:00)`. -/
theorem gap_marking_spec (startT now mg : Nat) (times : List Nat)
    (hp : List.Pairwise (· ≤ ·) times) (hub : ∀ t ∈ times, t < now) :
    (∀ eff dEnd, mg ≤ dEnd - eff →
      gapsForDay eff dEnd [] mg = [⟨eff, dEnd, true⟩]) ∧
      (∀ e ∈ find_zone_gaps startT now times mg, ∀ g ∈ e.2,
        (g.start_inclusive = true → g.start = effOf startT e.1) ∧
          (g.start_inclusive = false → g.start ∈ times)) ∧
      find_zone_gaps 0 86400 scenarioTimes 14400 = [(0, [⟨36000, 64800, false⟩])] := by
  refine ⟨?_, ?_, by decide⟩
  · intro eff dEnd hmg
    rw [gapsForDay, if_pos hmg]
  · rcases find_zone_gaps_entries startT now mg times hp hub with ⟨_, hentries⟩
    intro e he g hg
    rcases hentries e he with ⟨_, _, _, hgs⟩
    rw [hgs] at hg
    have hsliceH := daySlice_hyps startT now times hp e.1
    have hf := gapsForDay_forall _ _ mg _ hsliceH.1 hsliceH.2.1
      (fun t ht => Nat.le_of_lt (hsliceH.2.2 t ht)) g hg
    refine ⟨hf.1, ?_⟩
    intro hx
    have := hf.2.1 hx
    exact (List.mem_filter.mp this).1

/-- Witness for C8 at the spec scenario. -/
theorem gap_marking_spec_witness :
    find_zone_gaps 0 86400 scenarioTimes 14400 = [(0, [⟨36000, 64800, false⟩])] :=
  (gap_marking_spec 0 86400 14400 [] (by decide) (by decide)).2.2

/-! ### C3: Series Reconciler row invariants -/

theorem mapFind_eq_none {α : Type} (m : List (Nat × α)) (k : Nat)
    (h : ∀ q ∈ m, k ≠ q.1) : mapFind k m = none := by
  induction m with
  | nil => rfl
  | cons e rest ih =>
      rw [mapFind, if_neg (h e (List.mem_cons_self e rest))]
      exact ih (fun q hq => h q (List.mem_cons_of_mem e hq))

theorem mapFind_updateEntry_self {α : Type} (k : Nat) (dflt : α) (f : α → α)
    (m : List (Nat × α)) (hp : List.Pairwise (fun a b : Nat × α => a.1 < b.1) m) :
    mapFind k (updateEntry k dflt f m) = some (f ((mapFind k m).getD dflt)) := by
  induction m with
  | nil => simp [updateEntry, mapFind]
  | cons e rest ih =>
      cases e with
      | mk k' v =>
          rcases List.pairwise_cons.mp hp with ⟨hhead, htail⟩
          by_cases h1 : k < k'
          · have hnone : mapFind k ((k', v) :: rest) = none := by
              apply mapFind_eq_none
              intro q hq
              rcases List.mem_cons.mp hq with rfl | hq
              · omega
              · have := hhead q hq
                simp only at this
                omega
            rw [updateEntry, if_pos h1, mapFind, if_pos rfl, hnone]
            rfl
          · by_cases h2 : k = k'
            · subst h2
              rw [updateEntry, if_neg h1, if_pos rfl, mapFind, if_pos rfl, mapFind,
                if_pos rfl]
              rfl
            · rw [updateEntry, if_neg h1, if_neg h2, mapFind, if_neg h2, mapFind,
                if_neg h2, ih htail]

theorem mapFind_updateEntry_ne {α : Type} (k p : Nat) (dflt : α) (f : α → α)
    (m : List (Nat × α)) (hne : p ≠ k) :
    mapFind p (updateEntry k dflt f m) = mapFind p m := by
  induction m with
  | nil => simp [updateEntry, mapFind, hne]
  | cons e rest ih =>
      cases e with
      | mk k' v =>
          by_cases h1 : k < k'
          · rw [updateEntry, if_pos h1, mapFind, if_neg hne]
          · by_cases h2 : k = k'
            · subst h2
              rw [updateEntry, if_neg h1, if_pos rfl, mapFind, if_neg hne, mapFind,
                if_neg hne]
            · rw [updateEntry, if_neg h1, if_neg h2]
              by_cases h3 : p = k'
              · rw [mapFind, if_pos h3, mapFind, if_pos h3]
              · rw [mapFind, if_neg h3, mapFind, if_neg h3, ih]

theorem mapFind_isSome_updateEntry {α : Type} (k p : Nat) (dflt : α) (f : α → α)
    (m : List (Nat × α)) (h : (mapFind p (updateEntry k dflt f m)).isSome = true) :
    p = k ∨ (mapFind p m).isSome = true := by
  by_cases hpk : p = k
  · exact Or.inl hpk
  · right
    rw [mapFind_updateEntry_ne k p dflt f m hpk] at h
    exact h

theorem updateEntry_keys {α : Type} (k : Nat) (dflt : α) (f : α → α)
    (m : List (Nat × α)) :
    ∀ q ∈ updateEntry k dflt f m, q.1 = k ∨ q.1 ∈ m.map Prod.fst := by
  induction m with
  | nil =>
      intro q hq
      rcases List.mem_singleton.mp hq with rfl
      exact Or.inl rfl
  | cons e rest ih =>
      cases e with
      | mk k' v =>
          intro q hq
          by_cases h1 : k < k'
          · rw [updateEntry, if_pos h1] at hq
            rcases List.mem_cons.mp hq with rfl | hq
            · exact Or.inl rfl
            · exact Or.inr (List.mem_map.mpr ⟨q, hq, rfl⟩)
          · by_cases h2 : k = k'
            · subst h2
              rw [updateEntry, if_neg h1, if_pos rfl] at hq
              rcases List.mem_cons.mp hq with rfl | hq
              · exact Or.inl rfl
              · exact Or.inr (List.mem_map.mpr ⟨q, List.mem_cons_of_mem _ hq, rfl⟩)
            · rw [updateEntry, if_neg h1, if_neg h2] at hq
              rcases List.mem_cons.mp hq with rfl | hq
              · exact Or.inr (List.mem_map.mpr ⟨(k', v), List.mem_cons_self _ _, rfl⟩)
              · rcases ih q hq with h | h
                · exact Or.inl h
                · rcases List.mem_map.mp h with ⟨x, hx, hxq⟩
                  exact Or.inr (List.mem_map.mpr ⟨x, List.mem_cons_of_mem _ hx, hxq⟩)

theorem updateEntry_sorted {α : Type} (k : Nat) (dflt : α) (f : α → α)
    (m : List (Nat × α)) (hp : List.Pairwise (fun a b : Nat × α => a.1 < b.1) m) :
    List.Pairwise (fun a b : Nat × α => a.1 < b.1) (updateEntry k dflt f m) := by
  induction m with
  | nil => exact List.pairwise_singleton _ _
  | cons e rest ih =>
      cases e with
      | mk k' v =>
          rcases List.pairwise_cons.mp hp with ⟨hhead, htail⟩
          by_cases h1 : k < k'
          · rw [updateEntry, if_pos h1]
            rw [List.pairwise_cons]
            refine ⟨?_, hp⟩
            intro q hq
            rcases List.mem_cons.mp hq with rfl | hq
            · exact h1
            · have := hhead q hq
              omega
          · by_cases h2 : k = k'
            · subst h2
              rw [updateEntry, if_neg h1, if_pos rfl]
              rw [List.pairwise_cons]
              exact ⟨hhead, htail⟩
            · rw [updateEntry, if_neg h1, if_neg h2]
              rw [List.pairwise_cons]
              refine ⟨?_, ih htail⟩
              intro q hq
              rcases updateEntry_keys k dflt f rest q hq with hqk | hqm
              · omega
              · rcases List.mem_map.mp hqm with ⟨x, hx, hxq⟩
                have := hhead x hx
                omega

theorem mapFind_of_mem {α : Type} (m : List (Nat × α)) (p : Nat) (row : α)
    (hp : List.Pairwise (fun a b : Nat × α => a.1 < b.1) m) (h : (p, row) ∈ m) :
    mapFind p m = some row := by
  induction m with
  | nil => cases h
  | cons e rest ih =>
      cases e with
      | mk k' v =>
          rcases List.pairwise_cons.mp hp with ⟨hhead, htail⟩
          rcases List.mem_cons.mp h with heq | h
          · cases heq
            rw [mapFind, if_pos rfl]
          · have hne : p ≠ k' := by
              have := hhead (p, row) h
              simp only at this
              omega
            rw [mapFind, if_neg hne]
            exact ih htail h

/-- The value of a `mapFind` predicate on one key, `false` when absent. -/
def findField {α : Type} (φ : α → Bool) (p : Nat) (m : List (Nat × α)) : Bool :=
  match mapFind p m with
  | some r => φ r
  | none => false

theorem findField_updateEntry_preserve {α : Type} (φ : α → Bool) (k p : Nat)
    (dflt : α) (f : α → α) (m : List (Nat × α))
    (hp : List.Pairwise (fun a b : Nat × α => a.1 < b.1) m)
    (hf : ∀ e, φ e = true → φ (f e) = true)
    (h : findField φ p m = true) : findField φ p (updateEntry k dflt f m) = true := by
  by_cases hpk : p = k
  · subst hpk
    rw [findField, mapFind_updateEntry_self p dflt f m hp]
    rw [findField] at h
    cases hm : mapFind p m with
    | none =>
        rw [hm] at h
        exact Bool.noConfusion h
    | some r =>
        rw [hm] at h
        exact hf r h
  · rw [findField, mapFind_updateEntry_ne k p dflt f m hpk]
    exact h

theorem findField_updateEntry_self {α : Type} (φ : α → Bool) (k : Nat)
    (dflt : α) (f : α → α) (m : List (Nat × α))
    (hp : List.Pairwise (fun a b : Nat × α => a.1 < b.1) m)
    (hf : ∀ e, φ (f e) = true) : findField φ k (updateEntry k dflt f m) = true := by
  rw [findField, mapFind_updateEntry_self k dflt f m hp]
  exact hf _

theorem foldl_invariant {β M : Type} (P : M → Prop) (step : M → β → M) (pts : List β)
    (hstep : ∀ acc x, x ∈ pts → P acc → P (step acc x)) :
    ∀ m, P m → P (pts.foldl step m) := by
  induction pts with
  | nil => intro m hm; exact hm
  | cons x rest ih =>
      intro m hm
      exact ih (fun acc y hy hacc => hstep acc y (List.mem_cons_of_mem x hy) hacc)
        (step m x) (hstep m x (List.mem_cons_self x rest) hm)

theorem foldl_invariant2 {β M N : Type} (P : M → N → Prop) (step1 : M → β → M)
    (step2 : N → β → N) (pts : List β)
    (hstep : ∀ a1 a2 x, x ∈ pts → P a1 a2 → P (step1 a1 x) (step2 a2 x)) :
    ∀ m1 m2, P m1 m2 → P (pts.foldl step1 m1) (pts.foldl step2 m2) := by
  induction pts with
  | nil => intro m1 m2 hm; exact hm
  | cons x rest ih =>
      intro m1 m2 hm
      exact ih (fun a1 a2 y hy hacc => hstep a1 a2 y (List.mem_cons_of_mem x hy) hacc)
        (step1 m1 x) (step2 m2 x) (hstep m1 m2 x (List.mem_cons_self x rest) hm)

/-- Shorthand for key-sortedness of a row map. -/
def MapSorted {α : Type} (m : List (Nat × α)) : Prop :=
  List.Pairwise (fun a b : Nat × α => a.1 < b.1) m

/-- The combined invariant each climate merge stage maintains: sortedness,
keys confined to the day's gaps, and every row populated or excused by an
empty-valued settings interval of the report. -/
def ClimateMapInv (report : DayReport) (gaps : List Gap)
    (m : List (Nat × NewClimateMeasurement)) : Prop :=
  MapSorted m ∧
    (∀ p, (mapFind p m).isSome = true → timestamp_in_any_gap p gaps = true) ∧
    (∀ p row, mapFind p m = some row →
      row.populated = true ∨ emptySettingsAt report p)

theorem climateMapInv_update (report : DayReport) (gaps : List Gap)
    (m : List (Nat × NewClimateMeasurement)) (ts : Nat)
    (dflt : NewClimateMeasurement) (f : NewClimateMeasurement → NewClimateMeasurement)
    (hgap : timestamp_in_any_gap ts gaps = true)
    (hpop : ∀ e, (f e).populated = true ∨ emptySettingsAt report ts)
    (hm : ClimateMapInv report gaps m) :
    ClimateMapInv report gaps (updateEntry ts dflt f m) := by
  obtain ⟨hs, hkeys, hrows⟩ := hm
  refine ⟨updateEntry_sorted ts dflt f m hs, ?_, ?_⟩
  · intro p hp
    rcases mapFind_isSome_updateEntry ts p dflt f m hp with rfl | hp
    · exact hgap
    · exact hkeys p hp
  · intro p row hrow
    by_cases hpk : p = ts
    · subst hpk
      rw [mapFind_updateEntry_self p dflt f m hs] at hrow
      cases hrow
      exact hpop _
    · rw [mapFind_updateEntry_ne ts p dflt f m hpk] at hrow
      exact hrows p row hrow

/-- A row with its inside temperature set is populated. -/
theorem populated_of_temp (e : NewClimateMeasurement) (v : Int) :
    ({ e with inside_temp_c := some v } : NewClimateMeasurement).populated = true := by
  simp [NewClimateMeasurement.populated]

theorem populated_of_humidity (e : NewClimateMeasurement) (v : Int) :
    ({ e with humidity_pct := some v } : NewClimateMeasurement).populated = true := by
  simp [NewClimateMeasurement.populated]

theorem populated_of_connection (e : NewClimateMeasurement) (v : Bool) :
    ({ e with connection_up := some v } : NewClimateMeasurement).populated = true := by
  simp [NewClimateMeasurement.populated]

theorem populated_of_heating (e : NewClimateMeasurement) (v : Int) :
    ({ e with heating_power_pct := some v } : NewClimateMeasurement).populated = true := by
  simp [NewClimateMeasurement.populated]

theorem populated_of_ac (e : NewClimateMeasurement) (v : Bool) :
    ({ e with ac_power_on := some v } : NewClimateMeasurement).populated = true := by
  simp [NewClimateMeasurement.populated]

/-- A settings update either populates the row or is the identity coming from
an interval value with no setpoint, mode or power. -/
theorem applySettingFields_cases (val : ZoneSetting) (e : NewClimateMeasurement) :
    (applySettingFields val e).populated = true ∨
      (applySettingFields val e = e ∧ val.temperature.bind Temperature.celsius = none ∧
        val.mode = none ∧ val.power = none) := by
  unfold applySettingFields
  cases ht : val.temperature.bind Temperature.celsius with
  | some sp =>
      left
      cases hm : val.mode.map acModeName <;> cases hp : val.power.map (fun p => p == Power.on) <;>
        simp [NewClimateMeasurement.populated]
  | none =>
      cases hm : val.mode.map acModeName with
      | some md =>
          left
          cases hp : val.power.map (fun p => p == Power.on) <;>
            simp [NewClimateMeasurement.populated]
      | none =>
          cases hp : val.power.map (fun p => p == Power.on) with
          | some b =>
              left
              simp [NewClimateMeasurement.populated]
          | none =>
              right
              refine ⟨rfl, rfl, ?_, ?_⟩
              · cases hmm : val.mode with
                | none => rfl
                | some x => simp [hmm] at hm
              · cases hpp : val.power with
                | none => rfl
                | some x => simp [hpp] at hp

theorem applyTempPoints_inv (report : DayReport) (hid zid : Int) (gaps : List Gap)
    (pts : List TemperatureDataPointInTimeSeries)
    (m : List (Nat × NewClimateMeasurement)) (hm : ClimateMapInv report gaps m) :
    ClimateMapInv report gaps (applyTempPoints hid zid gaps pts m) := by
  unfold applyTempPoints
  refine foldl_invariant (ClimateMapInv report gaps) _ pts ?_ m hm
  intro acc dp _ hacc
  cases h1 : dp.timestamp with
  | none => exact hacc
  | some ts =>
      cases h2 : dp.value.bind Temperature.celsius with
      | none => exact hacc
      | some val =>
          simp only
          cases hgap : timestamp_in_any_gap ts gaps with
          | false => simp only [Bool.false_eq_true, if_false]; exact hacc
          | true =>
              simp only [if_true]
              exact climateMapInv_update report gaps acc ts _ _ hgap
                (fun e => Or.inl (populated_of_temp e val)) hacc

theorem applyHumidityPoints_inv (report : DayReport) (hid zid : Int) (gaps : List Gap)
    (pts : List PercentageDataPointInTimeSeries)
    (m : List (Nat × NewClimateMeasurement)) (hm : ClimateMapInv report gaps m) :
    ClimateMapInv report gaps (applyHumidityPoints hid zid gaps pts m) := by
  unfold applyHumidityPoints
  refine foldl_invariant (ClimateMapInv report gaps) _ pts ?_ m hm
  intro acc dp _ hacc
  cases h1 : dp.timestamp with
  | none => exact hacc
  | some ts =>
      cases h2 : dp.value with
      | none => exact hacc
      | some val =>
          simp only
          cases hgap : timestamp_in_any_gap ts gaps with
          | false => simp only [Bool.false_eq_true, if_false]; exact hacc
          | true =>
              simp only [if_true]
              exact climateMapInv_update report gaps acc ts _ _ hgap
                (fun e => Or.inl (populated_of_humidity e (val * 100))) hacc

theorem applyConnectivityIntervals_inv (report : DayReport) (hid zid : Int)
    (gaps : List Gap) (dis : List BooleanDataInterval)
    (m : List (Nat × NewClimateMeasurement)) (hm : ClimateMapInv report gaps m) :
    ClimateMapInv report gaps (applyConnectivityIntervals hid zid gaps dis m) := by
  unfold applyConnectivityIntervals
  refine foldl_invariant (ClimateMapInv report gaps) _ dis ?_ m hm
  intro acc di _ hacc
  cases h1 : di.interval.lower with
  | none => exact hacc
  | some ts =>
      cases h2 : di.value with
      | none => exact hacc
      | some val =>
          simp only
          cases hgap : timestamp_in_any_gap ts gaps with
          | false => simp only [Bool.false_eq_true, if_false]; exact hacc
          | true =>
              simp only [if_true]
              exact climateMapInv_update report gaps acc ts _ _ hgap
                (fun e => Or.inl (populated_of_connection e val)) hacc

theorem applyCallForHeatIntervals_inv (report : DayReport) (hid zid : Int)
    (gaps : List Gap) (dis : List CallForHeatDataInterval)
    (m : List (Nat × NewClimateMeasurement)) (hm : ClimateMapInv report gaps m) :
    ClimateMapInv report gaps (applyCallForHeatIntervals hid zid gaps dis m) := by
  unfold applyCallForHeatIntervals
  refine foldl_invariant (ClimateMapInv report gaps) _ dis ?_ m hm
  intro acc di _ hacc
  cases h1 : di.interval.lower with
  | none => exact hacc
  | some ts =>
      cases h2 : di.value with
      | none => exact hacc
      | some val =>
          simp only
          cases hgap : timestamp_in_any_gap ts gaps with
          | false => simp only [Bool.false_eq_true, if_false]; exact hacc
          | true =>
              simp only [if_true]
              exact climateMapInv_update report gaps acc ts _ _ hgap
                (fun e => Or.inl (populated_of_heating e (callForHeatPct val))) hacc

theorem applyAcActivityIntervals_inv (report : DayReport) (hid zid : Int)
    (gaps : List Gap) (dis : List PowerDataInterval)
    (m : List (Nat × NewClimateMeasurement)) (hm : ClimateMapInv report gaps m) :
    ClimateMapInv report gaps (applyAcActivityIntervals hid zid gaps dis m) := by
  unfold applyAcActivityIntervals
  refine foldl_invariant (ClimateMapInv report gaps) _ dis ?_ m hm
  intro acc di _ hacc
  cases h1 : di.interval.lower with
  | none => exact hacc
  | some ts =>
      cases h2 : di.value with
      | none => exact hacc
      | some val =>
          simp only
          cases hgap : timestamp_in_any_gap ts gaps with
          | false => simp only [Bool.false_eq_true, if_false]; exact hacc
          | true =>
              simp only [if_true]
              exact climateMapInv_update report gaps acc ts _ _ hgap
                (fun e => Or.inl (populated_of_ac e (val == Power.on))) hacc

theorem applySettingsIntervals_inv (report : DayReport) (hid zid : Int)
    (gaps : List Gap) (dis : List ZoneSettingDataInterval)
    (hdis : dis = (report.settings.bind ZoneSettingTimeSeries.data_intervals).getD [])
    (m : List (Nat × NewClimateMeasurement)) (hm : ClimateMapInv report gaps m) :
    ClimateMapInv report gaps (applySettingsIntervals hid zid gaps dis m) := by
  unfold applySettingsIntervals
  refine foldl_invariant (ClimateMapInv report gaps) _ dis ?_ m hm
  intro acc di hdi hacc
  cases h1 : di.interval.lower with
  | none => exact hacc
  | some ts =>
      simp only
      cases hgap : timestamp_in_any_gap ts gaps with
      | false => simp only [Bool.false_eq_true, if_false]; exact hacc
      | true =>
          simp only [if_true]
          cases h2 : di.value with
          | none => exact hacc
          | some val =>
              refine climateMapInv_update report gaps acc ts _ _ hgap ?_ hacc
              intro e
              rcases applySettingFields_cases val e with hp | ⟨_, hv1, hv2, hv3⟩
              · exact Or.inl hp
              · right
                refine ⟨di, ?_, h1, val, h2, hv1, hv2, hv3⟩
                rw [← hdis]
                exact hdi

/-- A row with both instantaneous sensor fields set. -/
def hasTemp (r : NewClimateMeasurement) : Bool := r.inside_temp_c.isSome

def hasBoth (r : NewClimateMeasurement) : Bool :=
  r.inside_temp_c.isSome && r.humidity_pct.isSome

/-- A weather row with at least one measurement field set. -/
def weatherPopulated (r : NewWeatherMeasurement) : Bool :=
  r.outside_temp_c.isSome || r.solar_intensity_pct.isSome || r.weather_state.isSome

/-- The temperature data points of a report, empty when the series is absent. -/
def tempPoints (r : DayReport) : List TemperatureDataPointInTimeSeries :=
  (r.measured_data.bind
      (fun md => md.inside_temperature.bind TemperatureTimeSeries.data_points)).getD []

/-- The humidity data points of a report, empty when the series is absent. -/
def humidityPoints (r : DayReport) : List PercentageDataPointInTimeSeries :=
  (r.measured_data.bind
      (fun md => md.humidity.bind PercentageTimeSeries.data_points)).getD []

/-- The outdoor weather-condition intervals of a report. -/
def conditionIntervals (r : DayReport) : List WeatherConditionDataInterval :=
  (r.weather.bind (fun w => w.condition.bind WeatherConditionTimeSeries.data_intervals)).getD []

theorem findField_true {α : Type} (φ : α → Bool) (p : Nat) (m : List (Nat × α)) :
    findField φ p m = true ↔ ∃ r, mapFind p m = some r ∧ φ r = true := by
  unfold findField
  cases h : mapFind p m <;> simp

/-- A settings update never touches the measured temperature and humidity. -/
theorem applySettingFields_keeps (val : ZoneSetting) (e : NewClimateMeasurement) :
    (applySettingFields val e).inside_temp_c = e.inside_temp_c ∧
      (applySettingFields val e).humidity_pct = e.humidity_pct := by
  unfold applySettingFields
  cases val.temperature.bind Temperature.celsius <;> cases val.mode.map acModeName <;>
    cases val.power.map (fun p => p == Power.on) <;> exact ⟨rfl, rfl⟩

theorem applyTempPoints_preserve (φ : NewClimateMeasurement → Bool) (p : Nat)
    (hφ : ∀ (e : NewClimateMeasurement) (v : Int),
      φ e = true → φ { e with inside_temp_c := some v } = true)
    (hid zid : Int) (gaps : List Gap) (pts : List TemperatureDataPointInTimeSeries)
    (m : List (Nat × NewClimateMeasurement)) (hm : MapSorted m)
    (h : findField φ p m = true) :
    MapSorted (applyTempPoints hid zid gaps pts m) ∧
      findField φ p (applyTempPoints hid zid gaps pts m) = true := by
  unfold applyTempPoints
  refine foldl_invariant (fun mm => MapSorted mm ∧ findField φ p mm = true) _ pts ?_ m ⟨hm, h⟩
  intro acc dp _ hacc
  obtain ⟨hs, hf⟩ := hacc
  cases h1 : dp.timestamp with
  | none => exact ⟨hs, hf⟩
  | some ts =>
      cases h2 : dp.value.bind Temperature.celsius with
      | none => exact ⟨hs, hf⟩
      | some val =>
          simp only
          cases hgap : timestamp_in_any_gap ts gaps with
          | false => simp only [Bool.false_eq_true, if_false]; exact ⟨hs, hf⟩
          | true =>
              simp only [if_true]
              exact ⟨updateEntry_sorted _ _ _ _ hs,
                findField_updateEntry_preserve φ ts p _ _ acc hs (fun e he => hφ e _ he) hf⟩

theorem applyHumidityPoints_preserve (φ : NewClimateMeasurement → Bool) (p : Nat)
    (hφ : ∀ (e : NewClimateMeasurement) (v : Int),
      φ e = true → φ { e with humidity_pct := some v } = true)
    (hid zid : Int) (gaps : List Gap) (pts : List PercentageDataPointInTimeSeries)
    (m : List (Nat × NewClimateMeasurement)) (hm : MapSorted m)
    (h : findField φ p m = true) :
    MapSorted (applyHumidityPoints hid zid gaps pts m) ∧
      findField φ p (applyHumidityPoints hid zid gaps pts m) = true := by
  unfold applyHumidityPoints
  refine foldl_invariant (fun mm => MapSorted mm ∧ findField φ p mm = true) _ pts ?_ m ⟨hm, h⟩
  intro acc dp _ hacc
  obtain ⟨hs, hf⟩ := hacc
  cases h1 : dp.timestamp with
  | none => exact ⟨hs, hf⟩
  | some ts =>
      cases h2 : dp.value with
      | none => exact ⟨hs, hf⟩
      | some val =>
          simp only
          cases hgap : timestamp_in_any_gap ts gaps with
          | false => simp only [Bool.false_eq_true, if_false]; exact ⟨hs, hf⟩
          | true =>
              simp only [if_true]
              exact ⟨updateEntry_sorted _ _ _ _ hs,
                findField_updateEntry_preserve φ ts p _ _ acc hs (fun e he => hφ e _ he) hf⟩

theorem applyConnectivityIntervals_preserve (φ : NewClimateMeasurement → Bool) (p : Nat)
    (hφ : ∀ (e : NewClimateMeasurement) (v : Bool),
      φ e = true → φ { e with connection_up := some v } = true)
    (hid zid : Int) (gaps : List Gap) (dis : List BooleanDataInterval)
    (m : List (Nat × NewClimateMeasurement)) (hm : MapSorted m)
    (h : findField φ p m = true) :
    MapSorted (applyConnectivityIntervals hid zid gaps dis m) ∧
      findField φ p (applyConnectivityIntervals hid zid gaps dis m) = true := by
  unfold applyConnectivityIntervals
  refine foldl_invariant (fun mm => MapSorted mm ∧ findField φ p mm = true) _ dis ?_ m ⟨hm, h⟩
  intro acc di _ hacc
  obtain ⟨hs, hf⟩ := hacc
  cases h1 : di.interval.lower with
  | none => exact ⟨hs, hf⟩
  | some ts =>
      cases h2 : di.value with
      | none => exact ⟨hs, hf⟩
      | some val =>
          simp only
          cases hgap : timestamp_in_any_gap ts gaps with
          | false => simp only [Bool.false_eq_true, if_false]; exact ⟨hs, hf⟩
          | true =>
              simp only [if_true]
              exact ⟨updateEntry_sorted _ _ _ _ hs,
                findField_updateEntry_preserve φ ts p _ _ acc hs (fun e he => hφ e _ he) hf⟩

theorem applyCallForHeatIntervals_preserve (φ : NewClimateMeasurement → Bool) (p : Nat)
    (hφ : ∀ (e : NewClimateMeasurement) (v : Int),
      φ e = true → φ { e with heating_power_pct := some v } = true)
    (hid zid : Int) (gaps : List Gap) (dis : List CallForHeatDataInterval)
    (m : List (Nat × NewClimateMeasurement)) (hm : MapSorted m)
    (h : findField φ p m = true) :
    MapSorted (applyCallForHeatIntervals hid zid gaps dis m) ∧
      findField φ p (applyCallForHeatIntervals hid zid gaps dis m) = true := by
  unfold applyCallForHeatIntervals
  refine foldl_invariant (fun mm => MapSorted mm ∧ findField φ p mm = true) _ dis ?_ m ⟨hm, h⟩
  intro acc di _ hacc
  obtain ⟨hs, hf⟩ := hacc
  cases h1 : di.interval.lower with
  | none => exact ⟨hs, hf⟩
  | some ts =>
      cases h2 : di.value with
      | none => exact ⟨hs, hf⟩
      | some val =>
          simp only
          cases hgap : timestamp_in_any_gap ts gaps with
          | false => simp only [Bool.false_eq_true, if_false]; exact ⟨hs, hf⟩
          | true =>
              simp only [if_true]
              exact ⟨updateEntry_sorted _ _ _ _ hs,
                findField_updateEntry_preserve φ ts p _ _ acc hs (fun e he => hφ e _ he) hf⟩

theorem applyAcActivityIntervals_preserve (φ : NewClimateMeasurement → Bool) (p : Nat)
    (hφ : ∀ (e : NewClimateMeasurement) (v : Bool),
      φ e = true → φ { e with ac_power_on := some v } = true)
    (hid zid : Int) (gaps : List Gap) (dis : List PowerDataInterval)
    (m : List (Nat × NewClimateMeasurement)) (hm : MapSorted m)
    (h : findField φ p m = true) :
    MapSorted (applyAcActivityIntervals hid zid gaps dis m) ∧
      findField φ p (applyAcActivityIntervals hid zid gaps dis m) = true := by
  unfold applyAcActivityIntervals
  refine foldl_invariant (fun mm => MapSorted mm ∧ findField φ p mm = true) _ dis ?_ m ⟨hm, h⟩
  intro acc di _ hacc
  obtain ⟨hs, hf⟩ := hacc
  cases h1 : di.interval.lower with
  | none => exact ⟨hs, hf⟩
  | some ts =>
      cases h2 : di.value with
      | none => exact ⟨hs, hf⟩
      | some val =>
          simp only
          cases hgap : timestamp_in_any_gap ts gaps with
          | false => simp only [Bool.false_eq_true, if_false]; exact ⟨hs, hf⟩
          | true =>
              simp only [if_true]
              exact ⟨updateEntry_sorted _ _ _ _ hs,
                findField_updateEntry_preserve φ ts p _ _ acc hs (fun e he => hφ e _ he) hf⟩

theorem applySettingsIntervals_preserve (φ : NewClimateMeasurement → Bool) (p : Nat)
    (hφ : ∀ (e : NewClimateMeasurement) (val : ZoneSetting),
      φ e = true → φ (applySettingFields val e) = true)
    (hid zid : Int) (gaps : List Gap) (dis : List ZoneSettingDataInterval)
    (m : List (Nat × NewClimateMeasurement)) (hm : MapSorted m)
    (h : findField φ p m = true) :
    MapSorted (applySettingsIntervals hid zid gaps dis m) ∧
      findField φ p (applySettingsIntervals hid zid gaps dis m) = true := by
  unfold applySettingsIntervals
  refine foldl_invariant (fun mm => MapSorted mm ∧ findField φ p mm = true) _ dis ?_ m ⟨hm, h⟩
  intro acc di _ hacc
  obtain ⟨hs, hf⟩ := hacc
  cases h1 : di.interval.lower with
  | none => exact ⟨hs, hf⟩
  | some ts =>
      simp only
      cases hgap : timestamp_in_any_gap ts gaps with
      | false => simp only [Bool.false_eq_true, if_false]; exact ⟨hs, hf⟩
      | true =>
          simp only [if_true]
          cases h2 : di.value with
          | none => exact ⟨hs, hf⟩
          | some val =>
              exact ⟨updateEntry_sorted _ _ _ _ hs,
                findField_updateEntry_preserve φ ts p _ _ acc hs (fun e he => hφ e val he) hf⟩

theorem hasTemp_set_temp (e : NewClimateMeasurement) (v : Int) :
    hasTemp { e with inside_temp_c := some v } = true := rfl

theorem hasBoth_set_humidity (e : NewClimateMeasurement) (v : Int)
    (h : hasBoth e = true) : hasBoth { e with humidity_pct := some v } = true := by
  unfold hasBoth at h ⊢
  simp only [Bool.and_eq_true] at h ⊢
  exact ⟨h.1, rfl⟩

theorem hasBoth_applySettingFields (val : ZoneSetting) (e : NewClimateMeasurement)
    (h : hasBoth e = true) : hasBoth (applySettingFields val e) = true := by
  obtain ⟨h1, h2⟩ := applySettingFields_keeps val e
  unfold hasBoth at h ⊢
  rw [h1, h2]
  exact h

/-- Establishment: a temperature data point at instant `p` inside the gaps
forces the merged map to carry a row at `p` with its temperature set. -/
theorem applyTempPoints_est (hid zid : Int) (gaps : List Gap)
    (pts : List TemperatureDataPointInTimeSeries) (p : Nat)
    (hg : timestamp_in_any_gap p gaps = true) :
    ∀ dp ∈ pts, dp.timestamp = some p →
      (dp.value.bind Temperature.celsius).isSome = true →
      ∀ m, MapSorted m → findField hasTemp p (applyTempPoints hid zid gaps pts m) = true := by
  induction pts with
  | nil => intro dp hmem; cases hmem
  | cons y rest ih =>
      intro dp hmem h1 h2 m hm
      unfold applyTempPoints
      rw [List.foldl_cons]
      rcases List.mem_cons.mp hmem with rfl | hmem'
      · cases hv : dp.value.bind Temperature.celsius with
        | none => rw [hv] at h2; exact Bool.noConfusion h2
        | some v =>
            simp only [h1, hv, hg, if_true]
            exact (applyTempPoints_preserve hasTemp p (fun e v' _ => hasTemp_set_temp e v')
              hid zid gaps rest _ (updateEntry_sorted _ _ _ _ hm)
              (findField_updateEntry_self hasTemp p _ _ m hm
                (fun e => hasTemp_set_temp e v))).2
      · cases hy1 : y.timestamp with
        | none =>
            cases hy2 : y.value.bind Temperature.celsius with
            | none => simp only [hy1, hy2]; exact ih dp hmem' h1 h2 m hm
            | some v => simp only [hy1, hy2]; exact ih dp hmem' h1 h2 m hm
        | some ts =>
            cases hy2 : y.value.bind Temperature.celsius with
            | none => simp only [hy1, hy2]; exact ih dp hmem' h1 h2 m hm
            | some v =>
                simp only [hy1, hy2]
                cases hgap : timestamp_in_any_gap ts gaps with
                | false =>
                    simp only [Bool.false_eq_true, if_false]
                    exact ih dp hmem' h1 h2 m hm
                | true =>
                    simp only [if_true]
                    exact ih dp hmem' h1 h2 _ (updateEntry_sorted _ _ _ _ hm)

/-- Establishment: a humidity data point at instant `p` inside the gaps, on a
map already carrying a temperature at `p`, yields a single row with both
fields set. -/
theorem applyHumidityPoints_est (hid zid : Int) (gaps : List Gap)
    (pts : List PercentageDataPointInTimeSeries) (p : Nat)
    (hg : timestamp_in_any_gap p gaps = true) :
    ∀ dp ∈ pts, dp.timestamp = some p → dp.value.isSome = true →
      ∀ m, MapSorted m → findField hasTemp p m = true →
      findField hasBoth p (applyHumidityPoints hid zid gaps pts m) = true := by
  induction pts with
  | nil => intro dp hmem; cases hmem
  | cons y rest ih =>
      intro dp hmem h1 h2 m hm hpre
      unfold applyHumidityPoints
      rw [List.foldl_cons]
      rcases List.mem_cons.mp hmem with rfl | hmem'
      · cases hv : dp.value with
        | none => rw [hv] at h2; exact Bool.noConfusion h2
        | some v =>
            simp only [h1, hv, hg, if_true]
            have hest : findField hasBoth p (updateEntry p (freshClimateRow p hid zid)
                (fun e => { e with humidity_pct := some (v * 100) }) m) = true := by
              rw [findField_true]
              obtain ⟨r, hr, hrt⟩ := (findField_true hasTemp p m).mp hpre
              refine ⟨_, mapFind_updateEntry_self p _ _ m hm, ?_⟩
              rw [hr]
              show hasBoth { r with humidity_pct := some (v * 100) } = true
              unfold hasBoth
              simp only [Option.isSome_some, Bool.and_true]
              exact hrt
            exact (applyHumidityPoints_preserve hasBoth p
              (fun e v' he => hasBoth_set_humidity e v' he) hid zid gaps rest _
              (updateEntry_sorted _ _ _ _ hm) hest).2
      · cases hy1 : y.timestamp with
        | none =>
            cases hy2 : y.value with
            | none => simp only [hy1, hy2]; exact ih dp hmem' h1 h2 m hm hpre
            | some v => simp only [hy1, hy2]; exact ih dp hmem' h1 h2 m hm hpre
        | some ts =>
            cases hy2 : y.value with
            | none => simp only [hy1, hy2]; exact ih dp hmem' h1 h2 m hm hpre
            | some v =>
                simp only [hy1, hy2]
                cases hgap : timestamp_in_any_gap ts gaps with
                | false =>
                    simp only [Bool.false_eq_true, if_false]
                    exact ih dp hmem' h1 h2 m hm hpre
                | true =>
                    simp only [if_true]
                    exact ih dp hmem' h1 h2 _ (updateEntry_sorted _ _ _ _ hm)
                      (findField_updateEntry_preserve hasTemp ts p _ _ m hm
                        (fun e he => he) hpre)

/-- Applying one optional series of a day report to the row map. -/
def mergeStage {A B : Type} (o : Option A) (f : A → B → B) (m : B) : B :=
  match o with
  | some xs => f xs m
  | none => m

theorem mergeStage_inv {A B : Type} (P : B → Prop) (o : Option A) (f : A → B → B)
    (hf : ∀ xs, o = some xs → ∀ m, P m → P (f xs m)) (m : B) (h : P m) :
    P (mergeStage o f m) := by
  cases o with
  | none => exact h
  | some xs => exact hf xs rfl m h

/-- The merge pass restated as a chain of optional stages. -/
theorem mergeDayRows_stages (hid zid : Int) (report : DayReport) (gaps : List Gap) :
    mergeDayRows hid zid report gaps =
      mergeStage (report.settings.bind ZoneSettingTimeSeries.data_intervals)
        (applySettingsIntervals hid zid gaps)
        (mergeStage (report.ac_activity.bind PowerTimeSeries.data_intervals)
          (applyAcActivityIntervals hid zid gaps)
          (mergeStage (report.call_for_heat.bind CallForHeatTimeSeries.data_intervals)
            (applyCallForHeatIntervals hid zid gaps)
            (mergeStage (report.measured_data.bind
                (fun md => md.measuring_device_connected.bind BooleanTimeSeries.data_intervals))
              (applyConnectivityIntervals hid zid gaps)
              (mergeStage (report.measured_data.bind
                  (fun md => md.humidity.bind PercentageTimeSeries.data_points))
                (applyHumidityPoints hid zid gaps)
                (mergeStage (report.measured_data.bind
                    (fun md => md.inside_temperature.bind TemperatureTimeSeries.data_points))
                  (applyTempPoints hid zid gaps)
                  []))))) := by
  unfold mergeDayRows
  cases h1 : report.measured_data.bind
      (fun md => md.inside_temperature.bind TemperatureTimeSeries.data_points) <;>
    cases h2 : report.measured_data.bind
        (fun md => md.humidity.bind PercentageTimeSeries.data_points) <;>
      cases h3 : report.measured_data.bind
          (fun md => md.measuring_device_connected.bind BooleanTimeSeries.data_intervals) <;>
        cases h4 : report.call_for_heat.bind CallForHeatTimeSeries.data_intervals <;>
          cases h5 : report.ac_activity.bind PowerTimeSeries.data_intervals <;>
            cases h6 : report.settings.bind ZoneSettingTimeSeries.data_intervals <;>
              rfl

theorem climateMapInv_nil (report : DayReport) (gaps : List Gap) :
    ClimateMapInv report gaps [] := by
  refine ⟨List.Pairwise.nil, ?_, ?_⟩
  · intro p hp
    simp [mapFind] at hp
  · intro p r hr
    simp [mapFind] at hr

/-- The merged climate map of a day is key-sorted, confined to the day's gaps,
and every row is populated or excused by an empty settings interval. -/
theorem mergeDayRows_inv (hid zid : Int) (report : DayReport) (gaps : List Gap) :
    ClimateMapInv report gaps (mergeDayRows hid zid report gaps) := by
  rw [mergeDayRows_stages]
  refine mergeStage_inv _ _ _
    (fun xs ho m h => applySettingsIntervals_inv report hid zid gaps xs (by rw [ho]; rfl) m h) _ ?_
  refine mergeStage_inv _ _ _
    (fun xs _ m h => applyAcActivityIntervals_inv report hid zid gaps xs m h) _ ?_
  refine mergeStage_inv _ _ _
    (fun xs _ m h => applyCallForHeatIntervals_inv report hid zid gaps xs m h) _ ?_
  refine mergeStage_inv _ _ _
    (fun xs _ m h => applyConnectivityIntervals_inv report hid zid gaps xs m h) _ ?_
  refine mergeStage_inv _ _ _
    (fun xs _ m h => applyHumidityPoints_inv report hid zid gaps xs m h) _ ?_
  refine mergeStage_inv _ _ _
    (fun xs _ m h => applyTempPoints_inv report hid zid gaps xs m h) _ ?_
  exact climateMapInv_nil report gaps

/-- Two series entries at the identical timestamp inside the gaps merge into a
single row of the merged map carrying both fields. -/
theorem mergeDayRows_merges (hid zid : Int) (report : DayReport) (gaps : List Gap) (p : Nat)
    (hg : timestamp_in_any_gap p gaps = true)
    (dpT : TemperatureDataPointInTimeSeries) (hT : dpT ∈ tempPoints report)
    (hT1 : dpT.timestamp = some p)
    (hT2 : (dpT.value.bind Temperature.celsius).isSome = true)
    (dpH : PercentageDataPointInTimeSeries) (hH : dpH ∈ humidityPoints report)
    (hH1 : dpH.timestamp = some p) (hH2 : dpH.value.isSome = true) :
    findField hasBoth p (mergeDayRows hid zid report gaps) = true := by
  rw [mergeDayRows_stages]
  cases hoT : report.measured_data.bind
      (fun md => md.inside_temperature.bind TemperatureTimeSeries.data_points) with
  | none =>
      unfold tempPoints at hT
      rw [hoT] at hT
      simp at hT
  | some ptsT =>
      cases hoH : report.measured_data.bind
          (fun md => md.humidity.bind PercentageTimeSeries.data_points) with
      | none =>
          unfold humidityPoints at hH
          rw [hoH] at hH
          simp at hH
      | some ptsH =>
          unfold tempPoints at hT
          rw [hoT] at hT
          simp only [Option.getD_some] at hT
          unfold humidityPoints at hH
          rw [hoH] at hH
          simp only [Option.getD_some] at hH
          have inv1 : ClimateMapInv report gaps (applyTempPoints hid zid gaps ptsT []) :=
            applyTempPoints_inv report hid zid gaps ptsT [] (climateMapInv_nil report gaps)
          have ht1 : findField hasTemp p (applyTempPoints hid zid gaps ptsT []) = true :=
            applyTempPoints_est hid zid gaps ptsT p hg dpT hT hT1 hT2 []
              (climateMapInv_nil report gaps).1
          have inv2 : ClimateMapInv report gaps
              (applyHumidityPoints hid zid gaps ptsH (applyTempPoints hid zid gaps ptsT [])) :=
            applyHumidityPoints_inv report hid zid gaps ptsH _ inv1
          have hb2 : findField hasBoth p
              (applyHumidityPoints hid zid gaps ptsH (applyTempPoints hid zid gaps ptsT [])) =
                true :=
            applyHumidityPoints_est hid zid gaps ptsH p hg dpH hH hH1 hH2 _ inv1.1 ht1
          refine (mergeStage_inv
            (fun mm => ClimateMapInv report gaps mm ∧ findField hasBoth p mm = true) _ _
            (fun xs ho m h => ⟨applySettingsIntervals_inv report hid zid gaps xs (by rw [ho]; rfl) m h.1,
              (applySettingsIntervals_preserve hasBoth p
                (fun e val he => hasBoth_applySettingFields val e he) hid zid gaps xs m h.1.1
                h.2).2⟩) _ ?_).2
          refine mergeStage_inv
            (fun mm => ClimateMapInv report gaps mm ∧ findField hasBoth p mm = true) _ _
            (fun xs _ m h => ⟨applyAcActivityIntervals_inv report hid zid gaps xs m h.1,
              (applyAcActivityIntervals_preserve hasBoth p (fun e v he => he) hid zid gaps xs m
                h.1.1 h.2).2⟩) _ ?_
          refine mergeStage_inv
            (fun mm => ClimateMapInv report gaps mm ∧ findField hasBoth p mm = true) _ _
            (fun xs _ m h => ⟨applyCallForHeatIntervals_inv report hid zid gaps xs m h.1,
              (applyCallForHeatIntervals_preserve hasBoth p (fun e v he => he) hid zid gaps xs m
                h.1.1 h.2).2⟩) _ ?_
          refine mergeStage_inv
            (fun mm => ClimateMapInv report gaps mm ∧ findField hasBoth p mm = true) _ _
            (fun xs _ m h => ⟨applyConnectivityIntervals_inv report hid zid gaps xs m h.1,
              (applyConnectivityIntervals_preserve hasBoth p (fun e v he => he) hid zid gaps xs m
                h.1.1 h.2).2⟩) _ ?_
          exact ⟨inv2, hb2⟩

/-- A distinguishable condition value populates any row it is applied to; an
indistinguishable one leaves the row unchanged. -/
theorem applyWeatherFields_cases (v : Option WeatherConditionValue)
    (e : NewWeatherMeasurement) :
    (conditionDistinct v = true → weatherPopulated (applyWeatherFields v e) = true) ∧
      (conditionDistinct v = false → applyWeatherFields v e = e) := by
  cases v with
  | none =>
      exact ⟨fun h => Bool.noConfusion h, fun _ => rfl⟩
  | some v =>
      cases ht : v.temperature.bind Temperature.celsius with
      | some temp =>
          refine ⟨fun _ => ?_, fun h => ?_⟩
          · cases hst : v.state with
            | none =>
                simp [applyWeatherFields, ht, hst, weatherPopulated]
            | some st =>
                simp [applyWeatherFields, ht, hst, weatherPopulated]
          · simp [conditionDistinct, ht] at h
      | none =>
          cases hst : v.state with
          | some st =>
              refine ⟨fun _ => ?_, fun h => ?_⟩
              · simp [applyWeatherFields, ht, hst, weatherPopulated]
              · simp [conditionDistinct, ht, hst] at h
          | none =>
              refine ⟨fun h => ?_, fun _ => ?_⟩
              · simp [conditionDistinct, ht, hst] at h
              · simp [applyWeatherFields, ht, hst]

/-- The invariant the weather merge stage maintains: sortedness, keys confined
to the weather window and the day's gaps, and every row populated or excused
by a weather-condition interval with no distinguishable content. -/
def WeatherMapInv (report : DayReport) (gaps : List Gap) (window : Option (Nat × Nat))
    (m : List (Nat × NewWeatherMeasurement)) : Prop :=
  MapSorted m ∧
    (∀ p, (mapFind p m).isSome = true →
      timestamp_in_any_gap p gaps = true ∧
        ∃ wFrom wTo, window = some (wFrom, wTo) ∧ wFrom ≤ p ∧ p < wTo) ∧
    (∀ p r, mapFind p m = some r →
      weatherPopulated r = true ∨
        ∃ di ∈ conditionIntervals report, di.interval.lower = some p ∧
          conditionDistinct di.value = false)

theorem weatherMapInv_nil (report : DayReport) (gaps : List Gap)
    (window : Option (Nat × Nat)) : WeatherMapInv report gaps window [] := by
  refine ⟨List.Pairwise.nil, ?_, ?_⟩
  · intro p hp
    simp [mapFind] at hp
  · intro p r hr
    simp [mapFind] at hr

theorem applyWeatherIntervals_inv (report : DayReport) (hid : Int)
    (window : Option (Nat × Nat)) (gaps : List Gap)
    (dis : List WeatherConditionDataInterval) (hdis : dis = conditionIntervals report)
    (m : List (Nat × NewWeatherMeasurement)) (hm : WeatherMapInv report gaps window m) :
    WeatherMapInv report gaps window (applyWeatherIntervals hid window gaps dis m) := by
  unfold applyWeatherIntervals
  cases window with
  | none => exact hm
  | some wp =>
      cases wp with
      | mk wFrom wTo =>
          refine foldl_invariant (WeatherMapInv report gaps (some (wFrom, wTo))) _ dis ?_ m hm
          intro acc di hdi hacc
          cases h1 : di.interval.lower with
          | none => exact hacc
          | some ts =>
              simp only
              split
              · exact hacc
              · rename_i hcnd
                have hw1 : wFrom ≤ ts := by
                  by_contra hx
                  exact hcnd (by simp [Nat.lt_of_not_le hx])
                have hw2 : ts < wTo := by
                  by_contra hx
                  exact hcnd (by simp [Nat.le_of_not_lt hx])
                have hw3 : timestamp_in_any_gap ts gaps = true := by
                  cases hg' : timestamp_in_any_gap ts gaps with
                  | true => rfl
                  | false => exact absurd (by simp [hg']) hcnd
                obtain ⟨hs, hkeys, hrows⟩ := hacc
                refine ⟨updateEntry_sorted _ _ _ _ hs, ?_, ?_⟩
                · intro p hp
                  rcases mapFind_isSome_updateEntry ts p _ _ acc hp with rfl | hp'
                  · exact ⟨hw3, wFrom, wTo, rfl, hw1, hw2⟩
                  · exact hkeys p hp'
                · intro p r hr
                  by_cases hpk : p = ts
                  · subst hpk
                    rw [mapFind_updateEntry_self p _ _ acc hs] at hr
                    cases hr
                    cases hdist : conditionDistinct di.value with
                    | true =>
                        exact Or.inl ((applyWeatherFields_cases di.value _).1 hdist)
                    | false =>
                        rw [(applyWeatherFields_cases di.value _).2 hdist]
                        cases hold : mapFind p acc with
                        | some r0 => exact hrows p r0 hold
                        | none => exact Or.inr ⟨di, hdis ▸ hdi, h1, hdist⟩
                  · rw [mapFind_updateEntry_ne ts p _ _ acc hpk] at hr
                    exact hrows p r hr

/-- The merged weather map of a day satisfies the weather invariant. -/
theorem mergeDayWeatherRows_inv (hid : Int) (report : DayReport) (gaps : List Gap)
    (window : Option (Nat × Nat)) :
    WeatherMapInv report gaps window (mergeDayWeatherRows hid report gaps window) := by
  unfold mergeDayWeatherRows
  cases ho : report.weather.bind
      (fun dw => dw.condition.bind WeatherConditionTimeSeries.data_intervals) with
  | none => exact weatherMapInv_nil report gaps window
  | some dis =>
      exact applyWeatherIntervals_inv report hid window gaps dis
        (by unfold conditionIntervals; rw [ho]; rfl) [] (weatherMapInv_nil report gaps window)

/-- A day report carrying one temperature and one humidity data point at the
identical instant 200, both with values. -/
def mergedExampleReport : DayReport :=
  { measured_data := some
      { measuring_device_connected := none
        inside_temperature := some ⟨some [⟨some 200, some ⟨some 21500000⟩⟩]⟩
        humidity := some ⟨some [⟨some 200, some 450000⟩]⟩ }
    settings := none
    call_for_heat := none
    ac_activity := none
    weather := none }

/-- C3, counterexample: the reconciler does not guarantee that every emitted
row has a populated measurement field.  A report whose only content is a
settings interval carrying a value with no setpoint, mode or power yields a
climate row (at the interval's start, inside the gap) whose measurement
fields are all unset, and the leading-bogus strip does not remove it. -/
theorem reconcile_populated_claim_fails :
    ¬ ∀ pr ∈ (reconcile_day 1 2 settingsOnlyReport [⟨0, daySecs, true⟩] none).1,
      (pr.2 : NewClimateMeasurement).populated = true := by
  decide

/-- C3 (amended): rows emitted by the per-day reconciler have pairwise
distinct (strictly increasing) timestamps, so repeated signals at one instant
merge into a single row; every emitted climate row has a populated field
unless the report carries a settings interval at that instant whose value
sets nothing; every emitted weather row has a populated field unless the
report carries a weather-condition interval at that instant with no
distinguishable temperature or state; and a temperature point and a humidity
point at the identical timestamp inside the gaps merge into one row of the
merged map with both fields set. -/
theorem reconcile_rows_spec (hid zid : Int) (report : DayReport) (gaps : List Gap)
    (window : Option (Nat × Nat)) :
    (List.Pairwise (fun a b : Nat × NewClimateMeasurement => a.1 < b.1)
        (reconcile_day hid zid report gaps window).1 ∧
      List.Pairwise (fun a b : Nat × NewWeatherMeasurement => a.1 < b.1)
        (reconcile_day hid zid report gaps window).2) ∧
    (∀ pr ∈ (reconcile_day hid zid report gaps window).1,
      (pr.2 : NewClimateMeasurement).populated = true ∨ emptySettingsAt report pr.1) ∧
    (∀ pr ∈ (reconcile_day hid zid report gaps window).2,
      weatherPopulated pr.2 = true ∨
        ∃ di ∈ conditionIntervals report, di.interval.lower = some pr.1 ∧
          conditionDistinct di.value = false) ∧
    (∀ p, timestamp_in_any_gap p gaps = true →
      ∀ dpT ∈ tempPoints report, dpT.timestamp = some p →
        (dpT.value.bind Temperature.celsius).isSome = true →
        ∀ dpH ∈ humidityPoints report, dpH.timestamp = some p → dpH.value.isSome = true →
          ∃ r, mapFind p (mergeDayRows hid zid report gaps) = some r ∧
            r.inside_temp_c.isSome = true ∧ r.humidity_pct.isSome = true) := by
  obtain ⟨hsort, hkeys, hrows⟩ := mergeDayRows_inv hid zid report gaps
  obtain ⟨hwsort, hwkeys, hwrows⟩ := mergeDayWeatherRows_inv hid report gaps window
  have hne : List.Pairwise (fun a b : Nat × NewClimateMeasurement => a.1 ≠ b.1)
      (mergeDayRows hid zid report gaps) :=
    List.Pairwise.imp (fun h => Nat.ne_of_lt h) hsort
  have hsub : (reconcile_day hid zid report gaps window).1.Sublist
      (mergeDayRows hid zid report gaps) := by
    show (remove_leading_bogus_rows (mergeDayRows hid zid report gaps)).Sublist
      (mergeDayRows hid zid report gaps)
    rw [remove_leading_bogus_eq_dropWhile _ hne]
    exact List.dropWhile_sublist _
  refine ⟨⟨List.Pairwise.sublist hsub hsort, hwsort⟩, ?_, ?_, ?_⟩
  · intro pr hpr
    exact hrows pr.1 pr.2
      (mapFind_of_mem _ pr.1 pr.2 hsort (hsub.subset hpr))
  · intro pr hpr
    exact hwrows pr.1 pr.2 (mapFind_of_mem _ pr.1 pr.2 hwsort hpr)
  · intro p hg dpT hT hT1 hT2 dpH hH hH1 hH2
    obtain ⟨r, hr, hb⟩ := (findField_true hasBoth p (mergeDayRows hid zid report gaps)).mp
      (mergeDayRows_merges hid zid report gaps p hg dpT hT hT1 hT2 dpH hH hH1 hH2)
    unfold hasBoth at hb
    rw [Bool.and_eq_true] at hb
    exact ⟨r, hr, hb.1, hb.2⟩

/-- C3 witness: on a report with a temperature and a humidity point both at
instant 200 inside a full-day gap, the merged map carries one row at 200 with
both fields set. -/
theorem reconcile_rows_spec_witness :
    ∃ r, mapFind 200 (mergeDayRows 1 2 mergedExampleReport [⟨0, daySecs, true⟩]) = some r ∧
      r.inside_temp_c.isSome = true ∧ r.humidity_pct.isSome = true := by
  exact (reconcile_rows_spec 1 2 mergedExampleReport [⟨0, daySecs, true⟩] none).2.2.2 200
    (by decide) ⟨some 200, some ⟨some 21500000⟩⟩ (by decide) (by decide) (by decide)
    ⟨some 200, some 450000⟩ (by decide) (by decide) (by decide)

/-! ## Infrastructure for the idempotence analysis of the per-zone run -/

theorem insertTime_mem (x t : Nat) : ∀ s : List Nat, t ∈ insertTime x s ↔ (t = x ∨ t ∈ s) := by
  intro s
  induction s with
  | nil => simp [insertTime]
  | cons a rest ih =>
      unfold insertTime
      by_cases h1 : x < a
      · rw [if_pos h1]
        simp
      · rw [if_neg h1]
        by_cases h2 : x = a
        · rw [if_pos h2]
          subst h2
          simp
        · rw [if_neg h2]
          simp [ih]
          tauto

theorem insertTime_sorted (x : Nat) : ∀ s : List Nat, List.Pairwise (· ≤ ·) s →
    List.Pairwise (· ≤ ·) (insertTime x s) := by
  intro s
  induction s with
  | nil => intro _; exact List.pairwise_singleton _ _
  | cons a rest ih =>
      intro hp
      rcases List.pairwise_cons.mp hp with ⟨hhead, htail⟩
      unfold insertTime
      by_cases h1 : x < a
      · rw [if_pos h1]
        refine List.pairwise_cons.mpr ⟨?_, hp⟩
        intro b hb
        rcases List.mem_cons.mp hb with rfl | hb
        · omega
        · have := hhead b hb
          omega
      · rw [if_neg h1]
        by_cases h2 : x = a
        · rw [if_pos h2]
          exact hp
        · rw [if_neg h2]
          refine List.pairwise_cons.mpr ⟨?_, ih htail⟩
          intro b hb
          rcases (insertTime_mem x b rest).mp hb with rfl | hb
          · omega
          · exact hhead b hb

theorem insertTimes_mem (t : Nat) : ∀ (rows s : List Nat),
    t ∈ insertTimes s rows ↔ (t ∈ s ∨ t ∈ rows) := by
  intro rows
  induction rows with
  | nil => intro s; simp [insertTimes]
  | cons r rest ih =>
      intro s
      show t ∈ insertTimes (insertTime r s) rest ↔ _
      rw [ih]
      rw [insertTime_mem]
      simp
      tauto

theorem insertTimes_sorted : ∀ (rows s : List Nat), List.Pairwise (· ≤ ·) s →
    List.Pairwise (· ≤ ·) (insertTimes s rows) := by
  intro rows
  induction rows with
  | nil => intro s hs; exact hs
  | cons r rest ih =>
      intro s hs
      exact ih (insertTime r s) (insertTime_sorted r s hs)

theorem mapFind_eq_some_mem {α : Type} (p : Nat) (v : α) :
    ∀ m : List (Nat × α), mapFind p m = some v → (p, v) ∈ m := by
  intro m
  induction m with
  | nil => intro h; cases h
  | cons e rest ih =>
      intro h
      rw [mapFind] at h
      by_cases hpk : p = e.1
      · rw [if_pos hpk] at h
        cases h
        rw [hpk]
        exact List.mem_cons_self _ _
      · rw [if_neg hpk] at h
        exact List.mem_cons_of_mem _ (ih h)

theorem pairwise_key_unique {α : Type} : ∀ (l : List (Nat × α)),
    List.Pairwise (fun a b : Nat × α => a.1 < b.1) l →
    ∀ e e', e ∈ l → e' ∈ l → e.1 = e'.1 → e = e' := by
  intro l
  induction l with
  | nil => intro _ e e' he; cases he
  | cons a rest ih =>
      intro hp e e' he he' hk
      rcases List.pairwise_cons.mp hp with ⟨hhead, htail⟩
      rcases List.mem_cons.mp he with he1 | he1
      · rcases List.mem_cons.mp he' with he2 | he2
        · rw [he1, he2]
        · have := hhead e' he2
          rw [he1] at hk
          omega
      · rcases List.mem_cons.mp he' with he2 | he2
        · have := hhead e he1
          rw [he2] at hk
          omega
        · exact ih htail e e' he1 he2 hk

theorem getLastD_mem {α : Type} : ∀ (l : List α) (a : α), l.getLastD a ∈ a :: l := by
  intro l
  induction l with
  | nil => intro a; exact List.mem_singleton.mpr rfl
  | cons b rest ih =>
      intro a
      have : (b :: rest).getLastD a = rest.getLastD b := by
        cases rest <;> rfl
      rw [this]
      rcases List.mem_cons.mp (ih b) with h | h
      · rw [h]; exact List.mem_cons_of_mem _ (List.mem_cons_self _ _)
      · exact List.mem_cons_of_mem _ (List.mem_cons_of_mem _ h)

/-- Specification of the `last_any` fold of `compute_weather_backfill_window`. -/
theorem lastAny_spec : ∀ (l : List Nat) (o : Option Nat),
    (l = [] ∧ l.foldl (fun acc t => some (max (acc.getD t) t)) o = o) ∨
      ∃ v, l.foldl (fun acc t => some (max (acc.getD t) t)) o = some v ∧
        (∀ t ∈ l, t ≤ v) ∧ (∀ u, o = some u → u ≤ v) ∧ (v ∈ l ∨ o = some v) := by
  intro l
  induction l with
  | nil => intro o; exact Or.inl ⟨rfl, rfl⟩
  | cons t rest ih =>
      intro o
      right
      rw [List.foldl_cons]
      rcases ih (some (max (o.getD t) t)) with ⟨hrest, hres⟩ | ⟨v, hres, hmem, hup, hatt⟩
      · refine ⟨max (o.getD t) t, hres, ?_, ?_, ?_⟩
        · intro u hu
          rcases List.mem_cons.mp hu with rfl | hu
          · omega
          · rw [hrest] at hu; cases hu
        · intro u hu
          rw [hu]
          show u ≤ max ((some u).getD t) t
          simp
        · cases o with
          | none =>
              left
              show max t t ∈ t :: rest
              rw [Nat.max_self]
              exact List.mem_cons_self _ _
          | some u =>
              rcases Nat.le_total u t with h | h
              · left
                have : max ((some u).getD t) t = t := by simp; omega
                rw [this]
                exact List.mem_cons_self _ _
              · right
                have : max ((some u).getD t) t = u := by simp; omega
                rw [this]
      · refine ⟨v, hres, ?_, ?_, ?_⟩
        · intro u hu
          rcases List.mem_cons.mp hu with rfl | hu
          · have := hup (max (o.getD u) u) rfl
            omega
          · exact hmem u hu
        · intro u hu
          have h1 := hup (max (o.getD t) t) rfl
          rw [hu] at h1
          have h2 : (some u).getD t = u := rfl
          rw [h2] at h1
          omega
        · rcases hatt with h | h
          · exact Or.inl (List.mem_cons_of_mem _ h)
          · cases h
            cases o with
            | none =>
                left
                have : max ((none : Option Nat).getD t) t = t := by simp
                rw [this]
                exact List.mem_cons_self _ _
            | some u =>
                rcases Nat.le_total u t with hle | hle
                · left
                  have : max ((some u).getD t) t = t := by simp; omega
                  rw [this]
                  exact List.mem_cons_self _ _
                · right
                  have : max ((some u).getD t) t = u := by simp; omega
                  rw [this]

/-- Every stored weather timestamp lies strictly below the recomputed
window's lower edge. -/
theorem weather_window_gt (wstore : List Nat) (startT now t : Nat) (ht : t ∈ wstore) :
    t < (compute_weather_backfill_window wstore startT now).1 := by
  unfold compute_weather_backfill_window
  rcases lastAny_spec wstore none with ⟨hnil, _⟩ | ⟨v, hres, hmem, _, _⟩
  · rw [hnil] at ht; cases ht
  · rw [hres]
    have := hmem t ht
    show t < max (v + 1) startT
    omega

theorem weather_window_snd (wstore : List Nat) (startT now : Nat) :
    (compute_weather_backfill_window wstore startT now).2 = now := rfl

/-- Growing the weather store can only move the window's lower edge later. -/
theorem weather_window_mono (w1 w2 : List Nat) (startT now : Nat)
    (hsub : ∀ t ∈ w1, t ∈ w2) :
    (compute_weather_backfill_window w1 startT now).1 ≤
      (compute_weather_backfill_window w2 startT now).1 := by
  unfold compute_weather_backfill_window
  rcases lastAny_spec w1 none with ⟨hnil1, hres1⟩ | ⟨v1, hres1, _, _, hatt1⟩
  · rw [hres1]
    rcases lastAny_spec w2 none with ⟨_, hres2⟩ | ⟨v2, hres2, _, _, _⟩
    · rw [hres2]
    · rw [hres2]
      show max startT startT ≤ max (v2 + 1) startT
      omega
  · rw [hres1]
    have hv1 : v1 ∈ w1 := by
      rcases hatt1 with h | h
      · exact h
      · cases h
    rcases lastAny_spec w2 none with ⟨hnil2, _⟩ | ⟨v2, hres2, hmem2, _, _⟩
    · rw [hnil2] at hsub
      cases hsub v1 hv1
    · rw [hres2]
      have := hmem2 v1 (hsub v1 hv1)
      show max (v1 + 1) startT ≤ max (v2 + 1) startT
      omega

/-- A timestamp lies in some gap of the list iff a member gap contains it. -/
theorem inAny_exists (q : Nat) (gs : List Gap) :
    timestamp_in_any_gap q gs = true ↔ ∃ g ∈ gs, inGap q g = true := by
  simp [timestamp_in_any_gap, List.any_eq_true]

/-- A representative instant inside a gap of positive span. -/
def gapPoint (g : Gap) : Nat :=
  if g.start_inclusive then g.start else g.start + 1

theorem inGap_gapPoint (g : Gap) (h : 2 ≤ g.stop - g.start) :
    inGap (gapPoint g) g = true := by
  unfold gapPoint inGap
  cases hb : g.start_inclusive with
  | true =>
      simp only [if_true]
      simp
      omega
  | false =>
      simp only [Bool.false_eq_true, if_false]
      simp
      omega

theorem allGaps_any (q : Nat) : ∀ m : List (Nat × List Gap),
    timestamp_in_any_gap q (allGaps m) = true ↔
      ∃ e ∈ m, timestamp_in_any_gap q e.2 = true := by
  intro m
  induction m with
  | nil => simp [allGaps, timestamp_in_any_gap]
  | cons e rest ih =>
      cases e with
      | mk d gs =>
          rw [allGaps_cons, inAny_append]
          simp only [Bool.or_eq_true, ih, List.mem_cons]
          constructor
          · rintro (h | ⟨e, he, h⟩)
            · exact ⟨(d, gs), Or.inl rfl, h⟩
            · exact ⟨e, Or.inr he, h⟩
          · rintro ⟨e, (rfl | he), h⟩
            · exact Or.inl h
            · exact Or.inr ⟨e, he, h⟩

/-- Facts about any instant lying in a reported gap entry: it is inside the
window, in the entry's day bucket, not stored, and its hole spans the
threshold. -/
theorem find_zone_gaps_point_facts (startT now mg : Nat) (times : List Nat)
    (hp : List.Pairwise (· ≤ ·) times) (hub : ∀ t ∈ times, t < now)
    (e : Nat × List Gap) (he : e ∈ find_zone_gaps startT now times mg)
    (q : Nat) (hq : timestamp_in_any_gap q e.2 = true) :
    startT ≤ q ∧ q < now ∧ dayOf q = e.1 ∧ q ∉ times ∧
      mg ≤ holeHi (dayEndOf now e.1) (daySlice startT now times e.1) q -
        holeLo (effOf startT e.1) (daySlice startT now times e.1) q := by
  obtain ⟨hd1, hd2, _, hgs⟩ := (find_zone_gaps_entries startT now mg times hp hub).2 e he
  obtain ⟨hsp, hslb, hsub'⟩ := daySlice_hyps startT now times hp e.1
  rw [hgs] at hq
  obtain ⟨hq1, hq2, hq3, hq4⟩ := (gapsForDay_mem_iff (effOf startT e.1) (dayEndOf now e.1)
    mg (daySlice startT now times e.1) hsp hslb hsub' q).mp hq
  have heff : startT ≤ effOf startT e.1 := by
    rw [effOf_eq_max startT e.1 hd1]
    omega
  have hstart : startT ≤ q := le_trans heff hq1
  have hnow : q < now := lt_of_lt_of_le hq2 (dayEndOf_le_now now e.1 hd2)
  have hday : dayOf q = e.1 := by
    rw [dayOf_eq_iff]
    constructor
    · exact le_trans (effOf_ge_dayStart startT e.1) hq1
    · exact lt_of_lt_of_le hq2 (dayEndOf_le_dayStart_succ now e.1)
  refine ⟨hstart, hnow, hday, ?_, hq4⟩
  intro hmem
  apply hq3
  unfold daySlice
  rw [List.mem_filter]
  refine ⟨hmem, ?_⟩
  simp only [Bool.and_eq_true, decide_eq_true_eq]
  exact ⟨hq1, hq2⟩

/-- Core gap monotonicity: an instant inside a reported gap over the grown
store is inside a reported gap of the same day over the original store, and is
not stored in the grown store. -/
theorem gaps_day_transfer (startT now mg : Nat) (times1 times2 : List Nat)
    (hp1 : List.Pairwise (· ≤ ·) times1) (hlb1 : ∀ t ∈ times1, startT ≤ t)
    (hub1 : ∀ t ∈ times1, t < now)
    (hp2 : List.Pairwise (· ≤ ·) times2) (hub2 : ∀ t ∈ times2, t < now)
    (hsub : ∀ t ∈ times1, t ∈ times2)
    (e : Nat × List Gap) (he : e ∈ find_zone_gaps startT now times2 mg)
    (q : Nat) (hq : timestamp_in_any_gap q e.2 = true) :
    q ∉ times2 ∧ ∃ e1 ∈ find_zone_gaps startT now times1 mg,
      e1.1 = e.1 ∧ timestamp_in_any_gap q e1.2 = true := by
  obtain ⟨hq1, hq2, hqd, hqnot2, hhole2⟩ :=
    find_zone_gaps_point_facts startT now mg times2 hp2 hub2 e he q hq
  refine ⟨hqnot2, ?_⟩
  have hslice_sub : ∀ x ∈ daySlice startT now times1 e.1, x ∈ daySlice startT now times2 e.1 := by
    intro x hx
    unfold daySlice at hx ⊢
    rw [List.mem_filter] at hx ⊢
    exact ⟨hsub x hx.1, hx.2⟩
  have hlo := holeLo_mono (effOf startT e.1) (daySlice startT now times1 e.1)
    (daySlice startT now times2 e.1) q hslice_sub
  have hhi := holeHi_mono (dayEndOf now e.1) (daySlice startT now times1 e.1)
    (daySlice startT now times2 e.1) q hslice_sub
  have hhole1 : mg ≤ holeHi (dayEndOf now e.1) (daySlice startT now times1 e.1) q -
      holeLo (effOf startT e.1) (daySlice startT now times1 e.1) q := by
    omega
  have hall : timestamp_in_any_gap q (allGaps (find_zone_gaps startT now times1 mg)) = true := by
    rw [find_zone_gaps_mem_iff startT now mg times1 hp1 hlb1 hub1 q]
    refine ⟨hq1, hq2, fun hmem => hqnot2 (hsub q hmem), ?_⟩
    rw [hqd]
    exact hhole1
  obtain ⟨e1, he1, hq1'⟩ := (allGaps_any q _).mp hall
  have hfacts1 := find_zone_gaps_point_facts startT now mg times1 hp1 hub1 e1 he1 q hq1'
  refine ⟨e1, he1, ?_, hq1'⟩
  rw [← hfacts1.2.2.1, hqd]

theorem applyTempPoints_transfer (hid zid : Int) (gaps1 gaps2 : List Gap) (p : Nat)
    (h1 : timestamp_in_any_gap p gaps1 = true) (h2 : timestamp_in_any_gap p gaps2 = true)
    (pts : List TemperatureDataPointInTimeSeries)
    (m1 m2 : List (Nat × NewClimateMeasurement))
    (hm : MapSorted m1 ∧ MapSorted m2 ∧ mapFind p m1 = mapFind p m2) :
    MapSorted (applyTempPoints hid zid gaps1 pts m1) ∧
      MapSorted (applyTempPoints hid zid gaps2 pts m2) ∧
      mapFind p (applyTempPoints hid zid gaps1 pts m1) =
        mapFind p (applyTempPoints hid zid gaps2 pts m2) := by
  unfold applyTempPoints
  refine foldl_invariant2
    (fun a b => MapSorted a ∧ MapSorted b ∧ mapFind p a = mapFind p b) _ _ pts ?_ m1 m2 hm
  intro a1 a2 dp _ hacc
  obtain ⟨hs1, hs2, heq⟩ := hacc
  cases hy1 : dp.timestamp with
  | none => exact ⟨hs1, hs2, heq⟩
  | some ts =>
      cases hy2 : dp.value.bind Temperature.celsius with
      | none => exact ⟨hs1, hs2, heq⟩
      | some v =>
          simp only
          by_cases hts : ts = p
          · subst hts
            simp only [h1, h2, if_true]
            refine ⟨updateEntry_sorted _ _ _ _ hs1, updateEntry_sorted _ _ _ _ hs2, ?_⟩
            rw [mapFind_updateEntry_self ts _ _ a1 hs1,
              mapFind_updateEntry_self ts _ _ a2 hs2, heq]
          · have hne : p ≠ ts := fun h => hts h.symm
            cases hc1 : timestamp_in_any_gap ts gaps1 with
            | false =>
                cases hc2 : timestamp_in_any_gap ts gaps2 with
                | false =>
                    simp only [Bool.false_eq_true, if_false]
                    exact ⟨hs1, hs2, heq⟩
                | true =>
                    simp only [Bool.false_eq_true, if_false, if_true]
                    exact ⟨hs1, updateEntry_sorted _ _ _ _ hs2,
                      by rw [mapFind_updateEntry_ne ts p _ _ a2 hne]; exact heq⟩
            | true =>
                cases hc2 : timestamp_in_any_gap ts gaps2 with
                | false =>
                    simp only [Bool.false_eq_true, if_false, if_true]
                    exact ⟨updateEntry_sorted _ _ _ _ hs1, hs2,
                      by rw [mapFind_updateEntry_ne ts p _ _ a1 hne]; exact heq⟩
                | true =>
                    simp only [if_true]
                    exact ⟨updateEntry_sorted _ _ _ _ hs1, updateEntry_sorted _ _ _ _ hs2,
                      by rw [mapFind_updateEntry_ne ts p _ _ a1 hne,
                        mapFind_updateEntry_ne ts p _ _ a2 hne]; exact heq⟩

theorem applyHumidityPoints_transfer (hid zid : Int) (gaps1 gaps2 : List Gap) (p : Nat)
    (h1 : timestamp_in_any_gap p gaps1 = true) (h2 : timestamp_in_any_gap p gaps2 = true)
    (pts : List PercentageDataPointInTimeSeries)
    (m1 m2 : List (Nat × NewClimateMeasurement))
    (hm : MapSorted m1 ∧ MapSorted m2 ∧ mapFind p m1 = mapFind p m2) :
    MapSorted (applyHumidityPoints hid zid gaps1 pts m1) ∧
      MapSorted (applyHumidityPoints hid zid gaps2 pts m2) ∧
      mapFind p (applyHumidityPoints hid zid gaps1 pts m1) =
        mapFind p (applyHumidityPoints hid zid gaps2 pts m2) := by
  unfold applyHumidityPoints
  refine foldl_invariant2
    (fun a b => MapSorted a ∧ MapSorted b ∧ mapFind p a = mapFind p b) _ _ pts ?_ m1 m2 hm
  intro a1 a2 dp _ hacc
  obtain ⟨hs1, hs2, heq⟩ := hacc
  cases hy1 : dp.timestamp with
  | none => exact ⟨hs1, hs2, heq⟩
  | some ts =>
      cases hy2 : dp.value with
      | none => exact ⟨hs1, hs2, heq⟩
      | some v =>
          simp only
          by_cases hts : ts = p
          · subst hts
            simp only [h1, h2, if_true]
            refine ⟨updateEntry_sorted _ _ _ _ hs1, updateEntry_sorted _ _ _ _ hs2, ?_⟩
            rw [mapFind_updateEntry_self ts _ _ a1 hs1,
              mapFind_updateEntry_self ts _ _ a2 hs2, heq]
          · have hne : p ≠ ts := fun h => hts h.symm
            cases hc1 : timestamp_in_any_gap ts gaps1 with
            | false =>
                cases hc2 : timestamp_in_any_gap ts gaps2 with
                | false =>
                    simp only [Bool.false_eq_true, if_false]
                    exact ⟨hs1, hs2, heq⟩
                | true =>
                    simp only [Bool.false_eq_true, if_false, if_true]
                    exact ⟨hs1, updateEntry_sorted _ _ _ _ hs2,
                      by rw [mapFind_updateEntry_ne ts p _ _ a2 hne]; exact heq⟩
            | true =>
                cases hc2 : timestamp_in_any_gap ts gaps2 with
                | false =>
                    simp only [Bool.false_eq_true, if_false, if_true]
                    exact ⟨updateEntry_sorted _ _ _ _ hs1, hs2,
                      by rw [mapFind_updateEntry_ne ts p _ _ a1 hne]; exact heq⟩
                | true =>
                    simp only [if_true]
                    exact ⟨updateEntry_sorted _ _ _ _ hs1, updateEntry_sorted _ _ _ _ hs2,
                      by rw [mapFind_updateEntry_ne ts p _ _ a1 hne,
                        mapFind_updateEntry_ne ts p _ _ a2 hne]; exact heq⟩

theorem applyConnectivityIntervals_transfer (hid zid : Int) (gaps1 gaps2 : List Gap) (p : Nat)
    (h1 : timestamp_in_any_gap p gaps1 = true) (h2 : timestamp_in_any_gap p gaps2 = true)
    (dis : List BooleanDataInterval)
    (m1 m2 : List (Nat × NewClimateMeasurement))
    (hm : MapSorted m1 ∧ MapSorted m2 ∧ mapFind p m1 = mapFind p m2) :
    MapSorted (applyConnectivityIntervals hid zid gaps1 dis m1) ∧
      MapSorted (applyConnectivityIntervals hid zid gaps2 dis m2) ∧
      mapFind p (applyConnectivityIntervals hid zid gaps1 dis m1) =
        mapFind p (applyConnectivityIntervals hid zid gaps2 dis m2) := by
  unfold applyConnectivityIntervals
  refine foldl_invariant2
    (fun a b => MapSorted a ∧ MapSorted b ∧ mapFind p a = mapFind p b) _ _ dis ?_ m1 m2 hm
  intro a1 a2 di _ hacc
  obtain ⟨hs1, hs2, heq⟩ := hacc
  cases hy1 : di.interval.lower with
  | none => exact ⟨hs1, hs2, heq⟩
  | some ts =>
      cases hy2 : di.value with
      | none => exact ⟨hs1, hs2, heq⟩
      | some v =>
          simp only
          by_cases hts : ts = p
          · subst hts
            simp only [h1, h2, if_true]
            refine ⟨updateEntry_sorted _ _ _ _ hs1, updateEntry_sorted _ _ _ _ hs2, ?_⟩
            rw [mapFind_updateEntry_self ts _ _ a1 hs1,
              mapFind_updateEntry_self ts _ _ a2 hs2, heq]
          · have hne : p ≠ ts := fun h => hts h.symm
            cases hc1 : timestamp_in_any_gap ts gaps1 with
            | false =>
                cases hc2 : timestamp_in_any_gap ts gaps2 with
                | false =>
                    simp only [Bool.false_eq_true, if_false]
                    exact ⟨hs1, hs2, heq⟩
                | true =>
                    simp only [Bool.false_eq_true, if_false, if_true]
                    exact ⟨hs1, updateEntry_sorted _ _ _ _ hs2,
                      by rw [mapFind_updateEntry_ne ts p _ _ a2 hne]; exact heq⟩
            | true =>
                cases hc2 : timestamp_in_any_gap ts gaps2 with
                | false =>
                    simp only [Bool.false_eq_true, if_false, if_true]
                    exact ⟨updateEntry_sorted _ _ _ _ hs1, hs2,
                      by rw [mapFind_updateEntry_ne ts p _ _ a1 hne]; exact heq⟩
                | true =>
                    simp only [if_true]
                    exact ⟨updateEntry_sorted _ _ _ _ hs1, updateEntry_sorted _ _ _ _ hs2,
                      by rw [mapFind_updateEntry_ne ts p _ _ a1 hne,
                        mapFind_updateEntry_ne ts p _ _ a2 hne]; exact heq⟩

theorem applyCallForHeatIntervals_transfer (hid zid : Int) (gaps1 gaps2 : List Gap) (p : Nat)
    (h1 : timestamp_in_any_gap p gaps1 = true) (h2 : timestamp_in_any_gap p gaps2 = true)
    (dis : List CallForHeatDataInterval)
    (m1 m2 : List (Nat × NewClimateMeasurement))
    (hm : MapSorted m1 ∧ MapSorted m2 ∧ mapFind p m1 = mapFind p m2) :
    MapSorted (applyCallForHeatIntervals hid zid gaps1 dis m1) ∧
      MapSorted (applyCallForHeatIntervals hid zid gaps2 dis m2) ∧
      mapFind p (applyCallForHeatIntervals hid zid gaps1 dis m1) =
        mapFind p (applyCallForHeatIntervals hid zid gaps2 dis m2) := by
  unfold applyCallForHeatIntervals
  refine foldl_invariant2
    (fun a b => MapSorted a ∧ MapSorted b ∧ mapFind p a = mapFind p b) _ _ dis ?_ m1 m2 hm
  intro a1 a2 di _ hacc
  obtain ⟨hs1, hs2, heq⟩ := hacc
  cases hy1 : di.interval.lower with
  | none => exact ⟨hs1, hs2, heq⟩
  | some ts =>
      cases hy2 : di.value with
      | none => exact ⟨hs1, hs2, heq⟩
      | some v =>
          simp only
          by_cases hts : ts = p
          · subst hts
            simp only [h1, h2, if_true]
            refine ⟨updateEntry_sorted _ _ _ _ hs1, updateEntry_sorted _ _ _ _ hs2, ?_⟩
            rw [mapFind_updateEntry_self ts _ _ a1 hs1,
              mapFind_updateEntry_self ts _ _ a2 hs2, heq]
          · have hne : p ≠ ts := fun h => hts h.symm
            cases hc1 : timestamp_in_any_gap ts gaps1 with
            | false =>
                cases hc2 : timestamp_in_any_gap ts gaps2 with
                | false =>
                    simp only [Bool.false_eq_true, if_false]
                    exact ⟨hs1, hs2, heq⟩
                | true =>
                    simp only [Bool.false_eq_true, if_false, if_true]
                    exact ⟨hs1, updateEntry_sorted _ _ _ _ hs2,
                      by rw [mapFind_updateEntry_ne ts p _ _ a2 hne]; exact heq⟩
            | true =>
                cases hc2 : timestamp_in_any_gap ts gaps2 with
                | false =>
                    simp only [Bool.false_eq_true, if_false, if_true]
                    exact ⟨updateEntry_sorted _ _ _ _ hs1, hs2,
                      by rw [mapFind_updateEntry_ne ts p _ _ a1 hne]; exact heq⟩
                | true =>
                    simp only [if_true]
                    exact ⟨updateEntry_sorted _ _ _ _ hs1, updateEntry_sorted _ _ _ _ hs2,
                      by rw [mapFind_updateEntry_ne ts p _ _ a1 hne,
                        mapFind_updateEntry_ne ts p _ _ a2 hne]; exact heq⟩

theorem applyAcActivityIntervals_transfer (hid zid : Int) (gaps1 gaps2 : List Gap) (p : Nat)
    (h1 : timestamp_in_any_gap p gaps1 = true) (h2 : timestamp_in_any_gap p gaps2 = true)
    (dis : List PowerDataInterval)
    (m1 m2 : List (Nat × NewClimateMeasurement))
    (hm : MapSorted m1 ∧ MapSorted m2 ∧ mapFind p m1 = mapFind p m2) :
    MapSorted (applyAcActivityIntervals hid zid gaps1 dis m1) ∧
      MapSorted (applyAcActivityIntervals hid zid gaps2 dis m2) ∧
      mapFind p (applyAcActivityIntervals hid zid gaps1 dis m1) =
        mapFind p (applyAcActivityIntervals hid zid gaps2 dis m2) := by
  unfold applyAcActivityIntervals
  refine foldl_invariant2
    (fun a b => MapSorted a ∧ MapSorted b ∧ mapFind p a = mapFind p b) _ _ dis ?_ m1 m2 hm
  intro a1 a2 di _ hacc
  obtain ⟨hs1, hs2, heq⟩ := hacc
  cases hy1 : di.interval.lower with
  | none => exact ⟨hs1, hs2, heq⟩
  | some ts =>
      cases hy2 : di.value with
      | none => exact ⟨hs1, hs2, heq⟩
      | some v =>
          simp only
          by_cases hts : ts = p
          · subst hts
            simp only [h1, h2, if_true]
            refine ⟨updateEntry_sorted _ _ _ _ hs1, updateEntry_sorted _ _ _ _ hs2, ?_⟩
            rw [mapFind_updateEntry_self ts _ _ a1 hs1,
              mapFind_updateEntry_self ts _ _ a2 hs2, heq]
          · have hne : p ≠ ts := fun h => hts h.symm
            cases hc1 : timestamp_in_any_gap ts gaps1 with
            | false =>
                cases hc2 : timestamp_in_any_gap ts gaps2 with
                | false =>
                    simp only [Bool.false_eq_true, if_false]
                    exact ⟨hs1, hs2, heq⟩
                | true =>
                    simp only [Bool.false_eq_true, if_false, if_true]
                    exact ⟨hs1, updateEntry_sorted _ _ _ _ hs2,
                      by rw [mapFind_updateEntry_ne ts p _ _ a2 hne]; exact heq⟩
            | true =>
                cases hc2 : timestamp_in_any_gap ts gaps2 with
                | false =>
                    simp only [Bool.false_eq_true, if_false, if_true]
                    exact ⟨updateEntry_sorted _ _ _ _ hs1, hs2,
                      by rw [mapFind_updateEntry_ne ts p _ _ a1 hne]; exact heq⟩
                | true =>
                    simp only [if_true]
                    exact ⟨updateEntry_sorted _ _ _ _ hs1, updateEntry_sorted _ _ _ _ hs2,
                      by rw [mapFind_updateEntry_ne ts p _ _ a1 hne,
                        mapFind_updateEntry_ne ts p _ _ a2 hne]; exact heq⟩

theorem applySettingsIntervals_transfer (hid zid : Int) (gaps1 gaps2 : List Gap) (p : Nat)
    (h1 : timestamp_in_any_gap p gaps1 = true) (h2 : timestamp_in_any_gap p gaps2 = true)
    (dis : List ZoneSettingDataInterval)
    (m1 m2 : List (Nat × NewClimateMeasurement))
    (hm : MapSorted m1 ∧ MapSorted m2 ∧ mapFind p m1 = mapFind p m2) :
    MapSorted (applySettingsIntervals hid zid gaps1 dis m1) ∧
      MapSorted (applySettingsIntervals hid zid gaps2 dis m2) ∧
      mapFind p (applySettingsIntervals hid zid gaps1 dis m1) =
        mapFind p (applySettingsIntervals hid zid gaps2 dis m2) := by
  unfold applySettingsIntervals
  refine foldl_invariant2
    (fun a b => MapSorted a ∧ MapSorted b ∧ mapFind p a = mapFind p b) _ _ dis ?_ m1 m2 hm
  intro a1 a2 di _ hacc
  obtain ⟨hs1, hs2, heq⟩ := hacc
  cases hy1 : di.interval.lower with
  | none => exact ⟨hs1, hs2, heq⟩
  | some ts =>
      simp only
      cases hv : di.value with
      | none =>
          simp only [ite_self]
          exact ⟨hs1, hs2, heq⟩
      | some val =>
          by_cases hts : ts = p
          · subst hts
            simp only [h1, h2, if_true]
            refine ⟨updateEntry_sorted _ _ _ _ hs1, updateEntry_sorted _ _ _ _ hs2, ?_⟩
            rw [mapFind_updateEntry_self ts _ _ a1 hs1,
              mapFind_updateEntry_self ts _ _ a2 hs2, heq]
          · have hne : p ≠ ts := fun h => hts h.symm
            cases hc1 : timestamp_in_any_gap ts gaps1 with
            | false =>
                cases hc2 : timestamp_in_any_gap ts gaps2 with
                | false =>
                    simp only [Bool.false_eq_true, if_false]
                    exact ⟨hs1, hs2, heq⟩
                | true =>
                    simp only [Bool.false_eq_true, if_false, if_true]
                    exact ⟨hs1, updateEntry_sorted _ _ _ _ hs2,
                      by rw [mapFind_updateEntry_ne ts p _ _ a2 hne]; exact heq⟩
            | true =>
                cases hc2 : timestamp_in_any_gap ts gaps2 with
                | false =>
                    simp only [Bool.false_eq_true, if_false, if_true]
                    exact ⟨updateEntry_sorted _ _ _ _ hs1, hs2,
                      by rw [mapFind_updateEntry_ne ts p _ _ a1 hne]; exact heq⟩
                | true =>
                    simp only [if_true]
                    exact ⟨updateEntry_sorted _ _ _ _ hs1, updateEntry_sorted _ _ _ _ hs2,
                      by rw [mapFind_updateEntry_ne ts p _ _ a1 hne,
                        mapFind_updateEntry_ne ts p _ _ a2 hne]; exact heq⟩

theorem mergeStage_inv2 {A B C : Type} (P : B → C → Prop) (o : Option A)
    (f : A → B → B) (g : A → C → C)
    (hf : ∀ xs, o = some xs → ∀ m1 m2, P m1 m2 → P (f xs m1) (g xs m2))
    (m1 : B) (m2 : C) (h : P m1 m2) : P (mergeStage o f m1) (mergeStage o g m2) := by
  cases o with
  | none => exact h
  | some xs => exact hf xs rfl m1 m2 h

/-- The merged row at an instant lying inside both gap lists is the same
whichever of the two gap lists the merge pass was run against. -/
theorem mergeDayRows_transfer (hid zid : Int) (report : DayReport)
    (gaps1 gaps2 : List Gap) (p : Nat)
    (h1 : timestamp_in_any_gap p gaps1 = true) (h2 : timestamp_in_any_gap p gaps2 = true) :
    mapFind p (mergeDayRows hid zid report gaps1) =
      mapFind p (mergeDayRows hid zid report gaps2) := by
  rw [mergeDayRows_stages hid zid report gaps1, mergeDayRows_stages hid zid report gaps2]
  refine (mergeStage_inv2
    (fun a b => MapSorted a ∧ MapSorted b ∧ mapFind p a = mapFind p b) _ _ _
    (fun xs _ m1 m2 h =>
      applySettingsIntervals_transfer hid zid gaps1 gaps2 p h1 h2 xs m1 m2 h) _ _ ?_).2.2
  refine mergeStage_inv2
    (fun a b => MapSorted a ∧ MapSorted b ∧ mapFind p a = mapFind p b) _ _ _
    (fun xs _ m1 m2 h =>
      applyAcActivityIntervals_transfer hid zid gaps1 gaps2 p h1 h2 xs m1 m2 h) _ _ ?_
  refine mergeStage_inv2
    (fun a b => MapSorted a ∧ MapSorted b ∧ mapFind p a = mapFind p b) _ _ _
    (fun xs _ m1 m2 h =>
      applyCallForHeatIntervals_transfer hid zid gaps1 gaps2 p h1 h2 xs m1 m2 h) _ _ ?_
  refine mergeStage_inv2
    (fun a b => MapSorted a ∧ MapSorted b ∧ mapFind p a = mapFind p b) _ _ _
    (fun xs _ m1 m2 h =>
      applyConnectivityIntervals_transfer hid zid gaps1 gaps2 p h1 h2 xs m1 m2 h) _ _ ?_
  refine mergeStage_inv2
    (fun a b => MapSorted a ∧ MapSorted b ∧ mapFind p a = mapFind p b) _ _ _
    (fun xs _ m1 m2 h =>
      applyHumidityPoints_transfer hid zid gaps1 gaps2 p h1 h2 xs m1 m2 h) _ _ ?_
  refine mergeStage_inv2
    (fun a b => MapSorted a ∧ MapSorted b ∧ mapFind p a = mapFind p b) _ _ _
    (fun xs _ m1 m2 h =>
      applyTempPoints_transfer hid zid gaps1 gaps2 p h1 h2 xs m1 m2 h) _ _ ?_
  exact ⟨List.Pairwise.nil, List.Pairwise.nil, rfl⟩

theorem mapFind_isSome_updateEntry_pres {α : Type} (k p : Nat) (dflt : α) (f : α → α)
    (m : List (Nat × α)) (hm : List.Pairwise (fun a b : Nat × α => a.1 < b.1) m)
    (h : (mapFind p m).isSome = true) :
    (mapFind p (updateEntry k dflt f m)).isSome = true := by
  by_cases hpk : p = k
  · subst hpk
    rw [mapFind_updateEntry_self p dflt f m hm]
    rfl
  · rw [mapFind_updateEntry_ne k p dflt f m hpk]
    exact h

theorem mapFind_isSome_mem_keys {α : Type} (p : Nat) (m : List (Nat × α))
    (h : (mapFind p m).isSome = true) : p ∈ m.map Prod.fst := by
  cases hf : mapFind p m with
  | none => rw [hf] at h; exact Bool.noConfusion h
  | some v => exact List.mem_map.mpr ⟨(p, v), mapFind_eq_some_mem p v m hf, rfl⟩

/-- The weather merge with a present window, as a plain fold. -/
theorem applyWeatherIntervals_some (hid : Int) (wFrom wTo : Nat) (gaps : List Gap)
    (dis : List WeatherConditionDataInterval) (m : List (Nat × NewWeatherMeasurement)) :
    applyWeatherIntervals hid (some (wFrom, wTo)) gaps dis m =
      dis.foldl
        (fun acc di =>
          match di.interval.lower with
          | some ts =>
              if ts < wFrom || wTo ≤ ts || !timestamp_in_any_gap ts gaps then acc
              else
                updateEntry ts (NewWeatherMeasurement.new ts hid "historical")
                  (applyWeatherFields di.value) acc
          | none => acc)
        m := rfl

theorem applyWeatherIntervals_pres (hid : Int) (wFrom wTo : Nat) (gaps : List Gap)
    (dis : List WeatherConditionDataInterval) (q : Nat)
    (m : List (Nat × NewWeatherMeasurement)) (hm : MapSorted m)
    (h : (mapFind q m).isSome = true) :
    MapSorted (applyWeatherIntervals hid (some (wFrom, wTo)) gaps dis m) ∧
      (mapFind q (applyWeatherIntervals hid (some (wFrom, wTo)) gaps dis m)).isSome = true := by
  rw [applyWeatherIntervals_some]
  refine foldl_invariant (fun mm => MapSorted mm ∧ (mapFind q mm).isSome = true) _ dis ?_
    m ⟨hm, h⟩
  intro acc di _ hacc
  obtain ⟨hs, hf⟩ := hacc
  cases hy : di.interval.lower with
  | none => exact ⟨hs, hf⟩
  | some ts =>
      simp only
      cases hcnd : (decide (ts < wFrom) || decide (wTo ≤ ts) ||
          !timestamp_in_any_gap ts gaps) with
      | true =>
          simp only [hcnd, if_true]
          exact ⟨hs, hf⟩
      | false =>
          simp only [hcnd, Bool.false_eq_true, if_false]
          exact ⟨updateEntry_sorted _ _ _ _ hs,
            mapFind_isSome_updateEntry_pres ts q _ _ acc hs hf⟩

/-- Establishment: a condition interval at an instant inside both the window
and the gaps forces a weather row at that instant. -/
theorem applyWeatherIntervals_est (hid : Int) (wFrom wTo : Nat) (gaps : List Gap)
    (dis : List WeatherConditionDataInterval) (q : Nat)
    (hw1 : wFrom ≤ q) (hw2 : q < wTo) (hq : timestamp_in_any_gap q gaps = true) :
    ∀ di ∈ dis, di.interval.lower = some q →
      ∀ m, MapSorted m →
      (mapFind q (applyWeatherIntervals hid (some (wFrom, wTo)) gaps dis m)).isSome = true := by
  induction dis with
  | nil => intro di hmem; cases hmem
  | cons y rest ih =>
      intro di hmem hlow m hm
      rw [applyWeatherIntervals_some, List.foldl_cons]
      rcases List.mem_cons.mp hmem with rfl | hmem'
      · rw [hlow]
        have hcnd : (decide (q < wFrom) || decide (wTo ≤ q) ||
            !timestamp_in_any_gap q gaps) = false := by
          simp [hq]
          omega
        simp only [hcnd, Bool.false_eq_true, if_false]
        exact (applyWeatherIntervals_pres hid wFrom wTo gaps rest q _
          (updateEntry_sorted _ _ _ _ hm)
          (by rw [mapFind_updateEntry_self q _ _ m hm]; rfl)).2
      · cases hy : y.interval.lower with
        | none =>
            simp only [hy]
            exact ih di hmem' hlow m hm
        | some ts =>
            simp only [hy]
            cases hcnd : (decide (ts < wFrom) || decide (wTo ≤ ts) ||
                !timestamp_in_any_gap ts gaps) with
            | true =>
                simp only [hcnd, if_true]
                exact ih di hmem' hlow m hm
            | false =>
                simp only [hcnd, Bool.false_eq_true, if_false]
                exact ih di hmem' hlow _ (updateEntry_sorted _ _ _ _ hm)

theorem applyWeatherIntervals_noop (hid : Int) (wFrom wTo : Nat) (gaps : List Gap)
    (dis : List WeatherConditionDataInterval)
    (h : ∀ di ∈ dis, ∀ ts, di.interval.lower = some ts →
      (decide (ts < wFrom) || decide (wTo ≤ ts) ||
        !timestamp_in_any_gap ts gaps) = true) :
    applyWeatherIntervals hid (some (wFrom, wTo)) gaps dis [] = [] := by
  rw [applyWeatherIntervals_some]
  refine foldl_invariant (fun mm => mm = []) _ dis ?_ [] rfl
  intro acc di hdi hacc
  cases hy : di.interval.lower with
  | none => exact hacc
  | some ts =>
      simp only
      simp only [h di hdi ts hy, if_true]
      exact hacc

/-- A day whose condition instants all fall outside the window or the gaps
contributes no weather rows. -/
theorem mergeDayWeatherRows_empty (hid : Int) (report : DayReport) (gaps : List Gap)
    (wFrom wTo : Nat)
    (h : ∀ di ∈ conditionIntervals report, ∀ ts, di.interval.lower = some ts →
      ¬(wFrom ≤ ts ∧ ts < wTo ∧ timestamp_in_any_gap ts gaps = true)) :
    mergeDayWeatherRows hid report gaps (some (wFrom, wTo)) = [] := by
  unfold mergeDayWeatherRows
  cases ho : report.weather.bind
      (fun dw => dw.condition.bind WeatherConditionTimeSeries.data_intervals) with
  | none => rfl
  | some dis =>
      apply applyWeatherIntervals_noop
      intro di hdi ts hts
      have hd : di ∈ conditionIntervals report := by
        unfold conditionIntervals
        rw [ho]
        exact hdi
      have hnot := h di hd ts hts
      cases hgap : timestamp_in_any_gap ts gaps with
      | false => simp [hgap]
      | true =>
          simp only [hgap, Bool.not_true, Bool.or_false]
          simp only [Bool.or_eq_true, decide_eq_true_eq]
          simp [hgap] at hnot
          omega

/-- Establishment lifted to the per-day weather merge. -/
theorem mergeDayWeatherRows_key (hid : Int) (report : DayReport) (gaps : List Gap)
    (wFrom wTo q : Nat) (di : WeatherConditionDataInterval)
    (hdi : di ∈ conditionIntervals report) (hlow : di.interval.lower = some q)
    (hw1 : wFrom ≤ q) (hw2 : q < wTo) (hq : timestamp_in_any_gap q gaps = true) :
    (mapFind q (mergeDayWeatherRows hid report gaps (some (wFrom, wTo)))).isSome = true := by
  unfold mergeDayWeatherRows
  unfold conditionIntervals at hdi
  cases ho : report.weather.bind
      (fun dw => dw.condition.bind WeatherConditionTimeSeries.data_intervals) with
  | none =>
      rw [ho] at hdi
      simp at hdi
  | some dis =>
      rw [ho] at hdi
      simp only [Option.getD_some] at hdi
      exact applyWeatherIntervals_est hid wFrom wTo gaps dis q hw1 hw2 hq di hdi hlow []
        List.Pairwise.nil

/-- Binary search under a cut-over remote: bogus exactly below day `kk`. -/
theorem find_first_cutover (isBogus : Nat → Bool) (d0 d1 kk : Nat) (hd : d0 ≤ d1)
    (h : ∀ d, d0 ≤ d → d ≤ d1 → isBogus d = decide (d < kk)) :
    find_first_non_bogus_day isBogus d0 d1 =
      if max d0 kk ≤ d1 then some (max d0 kk) else none := by
  unfold find_first_non_bogus_day
  rw [if_neg (by omega)]
  rw [searchGo_monotone isBogus d0 (kk - d0) (d1 - d0 + 1) 0 (d1 - d0) none (by omega)
    (fun m h1 h2 => by rw [h (d0 + m) (by omega) (by omega), decide_eq_decide]; omega)]
  by_cases hc : max d0 kk ≤ d1
  · rw [if_pos (by omega), if_pos hc]
    congr 1
    omega
  · rw [if_neg (by omega), if_neg hc]

/-- One step of the per-zone backfill day loop. -/
def backfillStep (cfg : BackfillConfig) (reports : Nat → DayReport) (firstValid : Nat)
    (window : Nat × Nat) (acc : List Nat × List Nat) (dayGaps : Nat × List Gap) :
    List Nat × List Nat :=
  if dayGaps.1 < firstValid then acc
  else if dayGaps.2.isEmpty then acc
  else if skipDecimatedDay cfg.sampleRate firstValid dayGaps.1 then acc
  else
    let dayRows := reconcile_day cfg.dbHomeId cfg.dbZoneId
      (reports dayGaps.1) dayGaps.2 (some window)
    (insertTimes acc.1 (dayRows.1.map Prod.fst),
      insertTimes acc.2 (dayRows.2.map Prod.fst))

/-- The per-zone run restated through `backfillStep`. -/
theorem run_zone_backfill_eq (cfg : BackfillConfig) (reports : Nat → DayReport)
    (store wstore : List Nat) :
    run_zone_backfill cfg reports store wstore =
      match find_zone_gaps cfg.startT cfg.now store cfg.minGap with
      | [] => (store, wstore)
      | (firstGapDay, g0) :: restDays =>
          match find_first_non_bogus_day (fun d => is_day_report_bogus (reports d))
              firstGapDay ((((firstGapDay, g0) :: restDays).getLastD (firstGapDay, g0)).1) with
          | none => (store, wstore)
          | some firstValid =>
              ((firstGapDay, g0) :: restDays).foldl
                (backfillStep cfg reports firstValid
                  (compute_weather_backfill_window wstore cfg.startT cfg.now))
                (store, wstore) := by
  unfold run_zone_backfill backfillStep
  cases hg : find_zone_gaps cfg.startT cfg.now store cfg.minGap with
  | nil => rfl
  | cons e rest =>
      cases e with
      | mk d0 g0 =>
          cases hf : find_first_non_bogus_day (fun d => is_day_report_bogus (reports d))
              d0 ((((d0, g0) :: rest).getLastD (d0, g0)).1) with
          | none => rfl
          | some fv => rfl

/-- A fold step either leaves the accumulator unchanged or bulk-inserts the
day's reconciled row timestamps. -/
theorem backfillStep_cases (cfg : BackfillConfig) (reports : Nat → DayReport)
    (fv : Nat) (window : Nat × Nat) (acc : List Nat × List Nat) (e : Nat × List Gap) :
    backfillStep cfg reports fv window acc e = acc ∨
      backfillStep cfg reports fv window acc e =
        (insertTimes acc.1 ((reconcile_day cfg.dbHomeId cfg.dbZoneId
            (reports e.1) e.2 (some window)).1.map Prod.fst),
          insertTimes acc.2 ((reconcile_day cfg.dbHomeId cfg.dbZoneId
            (reports e.1) e.2 (some window)).2.map Prod.fst)) := by
  unfold backfillStep
  by_cases h1 : e.1 < fv
  · rw [if_pos h1]; exact Or.inl rfl
  · rw [if_neg h1]
    by_cases h2 : e.2.isEmpty = true
    · rw [if_pos h2]; exact Or.inl rfl
    · rw [if_neg h2]
      by_cases h3 : skipDecimatedDay cfg.sampleRate fv e.1 = true
      · rw [if_pos h3]; exact Or.inl rfl
      · rw [if_neg h3]; exact Or.inr rfl

theorem backfillStep_processed (cfg : BackfillConfig) (reports : Nat → DayReport)
    (fv : Nat) (window : Nat × Nat) (acc : List Nat × List Nat) (e : Nat × List Gap)
    (h1 : ¬e.1 < fv) (h2 : ¬e.2.isEmpty = true)
    (h3 : ¬skipDecimatedDay cfg.sampleRate fv e.1 = true) :
    backfillStep cfg reports fv window acc e =
      (insertTimes acc.1 ((reconcile_day cfg.dbHomeId cfg.dbZoneId
          (reports e.1) e.2 (some window)).1.map Prod.fst),
        insertTimes acc.2 ((reconcile_day cfg.dbHomeId cfg.dbZoneId
          (reports e.1) e.2 (some window)).2.map Prod.fst)) := by
  unfold backfillStep
  rw [if_neg h1, if_neg h2, if_neg h3]

theorem backfillFold_grow (cfg : BackfillConfig) (reports : Nat → DayReport)
    (fv : Nat) (window : Nat × Nat) :
    ∀ (entries : List (Nat × List Gap)) (acc : List Nat × List Nat),
      (∀ t ∈ acc.1, t ∈ (entries.foldl (backfillStep cfg reports fv window) acc).1) ∧
        (∀ t ∈ acc.2, t ∈ (entries.foldl (backfillStep cfg reports fv window) acc).2) := by
  intro entries
  induction entries with
  | nil => intro acc; exact ⟨fun t ht => ht, fun t ht => ht⟩
  | cons e rest ih =>
      intro acc
      rw [List.foldl_cons]
      have hstep : (∀ t ∈ acc.1, t ∈ (backfillStep cfg reports fv window acc e).1) ∧
          (∀ t ∈ acc.2, t ∈ (backfillStep cfg reports fv window acc e).2) := by
        rcases backfillStep_cases cfg reports fv window acc e with hc | hc
        · rw [hc]; exact ⟨fun t ht => ht, fun t ht => ht⟩
        · rw [hc]
          exact ⟨fun t ht => (insertTimes_mem t _ _).mpr (Or.inl ht),
            fun t ht => (insertTimes_mem t _ _).mpr (Or.inl ht)⟩
      exact ⟨fun t ht => (ih _).1 t (hstep.1 t ht), fun t ht => (ih _).2 t (hstep.2 t ht)⟩

theorem backfillFold_sorted (cfg : BackfillConfig) (reports : Nat → DayReport)
    (fv : Nat) (window : Nat × Nat) :
    ∀ (entries : List (Nat × List Gap)) (acc : List Nat × List Nat),
      List.Pairwise (· ≤ ·) acc.1 →
      List.Pairwise (· ≤ ·) (entries.foldl (backfillStep cfg reports fv window) acc).1 := by
  intro entries
  induction entries with
  | nil => intro acc h; exact h
  | cons e rest ih =>
      intro acc h
      rw [List.foldl_cons]
      refine ih _ ?_
      rcases backfillStep_cases cfg reports fv window acc e with hc | hc
      · rw [hc]; exact h
      · rw [hc]
        exact insertTimes_sorted _ _ h

theorem backfillFold_keys (cfg : BackfillConfig) (reports : Nat → DayReport)
    (fv : Nat) (window : Nat × Nat) :
    ∀ (entries : List (Nat × List Gap)) (acc : List Nat × List Nat),
      ∀ e ∈ entries, ¬e.1 < fv → ¬e.2.isEmpty = true →
        ¬skipDecimatedDay cfg.sampleRate fv e.1 = true →
        (∀ p ∈ (reconcile_day cfg.dbHomeId cfg.dbZoneId (reports e.1) e.2
            (some window)).1.map Prod.fst,
          p ∈ (entries.foldl (backfillStep cfg reports fv window) acc).1) ∧
        (∀ q ∈ (reconcile_day cfg.dbHomeId cfg.dbZoneId (reports e.1) e.2
            (some window)).2.map Prod.fst,
          q ∈ (entries.foldl (backfillStep cfg reports fv window) acc).2) := by
  intro entries
  induction entries with
  | nil => intro acc e he; cases he
  | cons y rest ih =>
      intro acc e he h1 h2 h3
      rw [List.foldl_cons]
      rcases List.mem_cons.mp he with rfl | he'
      · rw [backfillStep_processed cfg reports fv window acc e h1 h2 h3]
        constructor
        · intro p hp
          refine (backfillFold_grow cfg reports fv window rest _).1 p ?_
          exact (insertTimes_mem p _ _).mpr (Or.inr hp)
        · intro q hq
          refine (backfillFold_grow cfg reports fv window rest _).2 q ?_
          exact (insertTimes_mem q _ _).mpr (Or.inr hq)
      · exact ih _ e he' h1 h2 h3

theorem backfillFold_mem_inv (cfg : BackfillConfig) (reports : Nat → DayReport)
    (fv : Nat) (window : Nat × Nat) :
    ∀ (entries : List (Nat × List Gap)) (acc : List Nat × List Nat) (t : Nat),
      (t ∈ (entries.foldl (backfillStep cfg reports fv window) acc).1 →
        t ∈ acc.1 ∨ ∃ e ∈ entries, t ∈ (reconcile_day cfg.dbHomeId cfg.dbZoneId
          (reports e.1) e.2 (some window)).1.map Prod.fst) ∧
      (t ∈ (entries.foldl (backfillStep cfg reports fv window) acc).2 →
        t ∈ acc.2 ∨ ∃ e ∈ entries, t ∈ (reconcile_day cfg.dbHomeId cfg.dbZoneId
          (reports e.1) e.2 (some window)).2.map Prod.fst) := by
  intro entries
  induction entries with
  | nil => intro acc t; exact ⟨fun h => Or.inl h, fun h => Or.inl h⟩
  | cons y rest ih =>
      intro acc t
      rw [List.foldl_cons]
      constructor
      · intro h
        rcases (ih _ t).1 h with h' | ⟨e, he, hk⟩
        · rcases backfillStep_cases cfg reports fv window acc y with hc | hc
          · rw [hc] at h'
            exact Or.inl h'
          · rw [hc] at h'
            rcases (insertTimes_mem t _ _).mp h' with ha | hk
            · exact Or.inl ha
            · exact Or.inr ⟨y, List.mem_cons_self _ _, hk⟩
        · exact Or.inr ⟨e, List.mem_cons_of_mem _ he, hk⟩
      · intro h
        rcases (ih _ t).2 h with h' | ⟨e, he, hk⟩
        · rcases backfillStep_cases cfg reports fv window acc y with hc | hc
          · rw [hc] at h'
            exact Or.inl h'
          · rw [hc] at h'
            rcases (insertTimes_mem t _ _).mp h' with ha | hk
            · exact Or.inl ha
            · exact Or.inr ⟨y, List.mem_cons_self _ _, hk⟩
        · exact Or.inr ⟨e, List.mem_cons_of_mem _ he, hk⟩

/-- Every emitted climate row timestamp of a reconciled day lies in the day's
gaps. -/
theorem reconcile_climate_keys (hid zid : Int) (report : DayReport) (gaps : List Gap)
    (w : Option (Nat × Nat)) :
    ∀ p ∈ (reconcile_day hid zid report gaps w).1.map Prod.fst,
      timestamp_in_any_gap p gaps = true := by
  intro p hp
  obtain ⟨pr, hpr, hfst⟩ := List.mem_map.mp hp
  obtain ⟨hsort, hkeys, _⟩ := mergeDayRows_inv hid zid report gaps
  have hne : List.Pairwise (fun a b : Nat × NewClimateMeasurement => a.1 ≠ b.1)
      (mergeDayRows hid zid report gaps) :=
    List.Pairwise.imp (fun h => Nat.ne_of_lt h) hsort
  have hsub : (reconcile_day hid zid report gaps w).1.Sublist
      (mergeDayRows hid zid report gaps) := by
    show (remove_leading_bogus_rows (mergeDayRows hid zid report gaps)).Sublist
      (mergeDayRows hid zid report gaps)
    rw [remove_leading_bogus_eq_dropWhile _ hne]
    exact List.dropWhile_sublist _
  have hmem : pr ∈ mergeDayRows hid zid report gaps := hsub.subset hpr
  have hfind : mapFind pr.1 (mergeDayRows hid zid report gaps) = some pr.2 :=
    mapFind_of_mem _ pr.1 pr.2 hsort hmem
  rw [← hfst]
  exact hkeys pr.1 (by rw [hfind]; rfl)

/-- Every emitted weather row timestamp of a reconciled day lies in the day's
gaps and inside the weather window. -/
theorem reconcile_weather_keys (hid zid : Int) (report : DayReport) (gaps : List Gap)
    (w : Nat × Nat) :
    ∀ q ∈ (reconcile_day hid zid report gaps (some w)).2.map Prod.fst,
      timestamp_in_any_gap q gaps = true ∧ w.1 ≤ q ∧ q < w.2 := by
  intro q hq
  obtain ⟨pr, hpr, hfst⟩ := List.mem_map.mp hq
  obtain ⟨hsort, hkeys, _⟩ := mergeDayWeatherRows_inv hid report gaps (some w)
  have hfind : mapFind pr.1 (mergeDayWeatherRows hid report gaps (some w)) = some pr.2 :=
    mapFind_of_mem _ pr.1 pr.2 hsort hpr
  obtain ⟨hg, wf, wt, hw, hw1, hw2⟩ := hkeys pr.1 (by rw [hfind]; rfl)
  cases hw
  rw [← hfst]
  exact ⟨hg, hw1, hw2⟩

/-- Core of the corrected idempotence statement: with no decimation and a
cut-over remote, rerunning the per-zone backfill on the grown stores inserts
nothing: every candidate climate row of the second run is a sentinel row that
the leading-bogus strip removes, and every candidate weather row falls below
the recomputed weather window. -/
theorem run_zone_backfill_second_noop (cfg : BackfillConfig) (reports : Nat → DayReport)
    (k fv1 : Nat) (store wstore store2 wstore2 : List Nat)
    (hrate : cfg.sampleRate = none) (hmg : 2 ≤ cfg.minGap)
    (hk : ∀ d, is_day_report_bogus (reports d) = decide (d < k))
    (hp1 : List.Pairwise (· ≤ ·) store)
    (hlb1 : ∀ t ∈ store, cfg.startT ≤ t)
    (hub1 : ∀ t ∈ store, t < cfg.now)
    (hp2 : List.Pairwise (· ≤ ·) store2)
    (hub2 : ∀ t ∈ store2, t < cfg.now)
    (hsub : ∀ t ∈ store, t ∈ store2)
    (hwsub : ∀ t ∈ wstore, t ∈ wstore2)
    (hfv1 : ∀ e1 ∈ find_zone_gaps cfg.startT cfg.now store cfg.minGap, fv1 ≤ max e1.1 k)
    (hkeysC : ∀ e1 ∈ find_zone_gaps cfg.startT cfg.now store cfg.minGap, fv1 ≤ e1.1 →
      ∀ p ∈ (reconcile_day cfg.dbHomeId cfg.dbZoneId (reports e1.1) e1.2
        (some (compute_weather_backfill_window wstore cfg.startT cfg.now))).1.map Prod.fst,
        p ∈ store2)
    (hkeysW : ∀ e1 ∈ find_zone_gaps cfg.startT cfg.now store cfg.minGap, fv1 ≤ e1.1 →
      ∀ q ∈ (reconcile_day cfg.dbHomeId cfg.dbZoneId (reports e1.1) e1.2
        (some (compute_weather_backfill_window wstore cfg.startT cfg.now))).2.map Prod.fst,
        q ∈ wstore2) :
    run_zone_backfill cfg reports store2 wstore2 = (store2, wstore2) := by
  rw [run_zone_backfill_eq]
  cases hg2 : find_zone_gaps cfg.startT cfg.now store2 cfg.minGap with
  | nil => rfl
  | cons e20 rest2 =>
      cases e20 with
      | mk d02 g02 =>
          have hents2 := find_zone_gaps_entries cfg.startT cfg.now cfg.minGap store2 hp2 hub2
          rw [hg2] at hents2
          have hd02le : ∀ e ∈ (d02, g02) :: rest2, d02 ≤ e.1 := by
            intro e he
            rcases List.mem_cons.mp he with h | h
            · rw [h]
            · exact Nat.le_of_lt ((List.pairwise_cons.mp hents2.1).1 e h)
          have hdle : d02 ≤ ((((d02, g02) :: rest2).getLastD (d02, g02)).1) := by
            have hgl : ((d02, g02) :: rest2).getLastD (d02, g02) =
                rest2.getLastD (d02, g02) := by
              cases rest2 <;> rfl
            rw [hgl]
            exact hd02le _ (getLastD_mem rest2 (d02, g02))
          have hff2 := find_first_cutover (fun d => is_day_report_bogus (reports d)) d02
            ((((d02, g02) :: rest2).getLastD (d02, g02)).1) k hdle (fun d _ _ => hk d)
          show (match find_first_non_bogus_day (fun d => is_day_report_bogus (reports d)) d02
              ((((d02, g02) :: rest2).getLastD (d02, g02)).1) with
            | none => (store2, wstore2)
            | some firstValid =>
                ((d02, g02) :: rest2).foldl
                  (backfillStep cfg reports firstValid
                    (compute_weather_backfill_window wstore2 cfg.startT cfg.now))
                  (store2, wstore2)) = (store2, wstore2)
          rw [hff2]
          by_cases hcond : max d02 k ≤ (((d02, g02) :: rest2).getLastD (d02, g02)).1
          · rw [if_pos hcond]
            refine foldl_invariant (fun acc => acc = (store2, wstore2)) _ _ ?_ _ rfl
            intro acc e hmem hacc
            subst hacc
            obtain ⟨hde1, hde2, hne, hgs⟩ := hents2.2 e hmem
            by_cases hfv : e.1 < max d02 k
            · unfold backfillStep
              rw [if_pos hfv]
            · unfold backfillStep
              rw [if_neg hfv]
              have hie : e.2.isEmpty = false := by
                cases hx : e.2 with
                | nil => exact absurd hx hne
                | cons _ _ => rfl
              rw [if_neg (by rw [hie]; exact Bool.false_ne_true)]
              have hsd : skipDecimatedDay cfg.sampleRate (max d02 k) e.1 = false := by
                rw [hrate]
                rfl
              rw [if_neg (by rw [hsd]; exact Bool.false_ne_true)]
              have htrans : ∀ q, timestamp_in_any_gap q e.2 = true →
                  q ∉ store2 ∧ ∃ e1 ∈ find_zone_gaps cfg.startT cfg.now store cfg.minGap,
                    e1.1 = e.1 ∧ timestamp_in_any_gap q e1.2 = true := by
                intro q hq
                exact gaps_day_transfer cfg.startT cfg.now cfg.minGap store store2 hp1 hlb1
                  hub1 hp2 hub2 hsub e (by rw [hg2]; exact hmem) q hq
              have hfve : fv1 ≤ e.1 := by
                cases hx : e.2 with
                | nil => exact absurd hx hne
                | cons g gs =>
                    have hgmem : g ∈ e.2 := by rw [hx]; exact List.mem_cons_self _ _
                    obtain ⟨hsp, hslb, hsub'⟩ := daySlice_hyps cfg.startT cfg.now store2 hp2 e.1
                    have hgfacts := gapsForDay_forall (effOf cfg.startT e.1)
                      (dayEndOf cfg.now e.1) cfg.minGap
                      (daySlice cfg.startT cfg.now store2 e.1) hsp hslb
                      (fun t ht => Nat.le_of_lt (hsub' t ht)) g (by rw [← hgs]; exact hgmem)
                    have hspan : cfg.minGap ≤ g.stop - g.start := hgfacts.2.2.2.2
                    have hq0 : inGap (gapPoint g) g = true := inGap_gapPoint g (by omega)
                    have hq0in : timestamp_in_any_gap (gapPoint g) e.2 = true :=
                      (inAny_exists (gapPoint g) e.2).mpr ⟨g, hgmem, hq0⟩
                    obtain ⟨-, e1, he1, hday, -⟩ := htrans (gapPoint g) hq0in
                    have hfv1e := hfv1 e1 he1
                    rw [hday] at hfv1e
                    omega
              have hK1 : (reconcile_day cfg.dbHomeId cfg.dbZoneId (reports e.1) e.2
                  (some (compute_weather_backfill_window wstore2 cfg.startT cfg.now))).1 =
                    [] := by
                show remove_leading_bogus_rows (mergeDayRows cfg.dbHomeId cfg.dbZoneId
                  (reports e.1) e.2) = []
                obtain ⟨hms, hmkeys, _⟩ :=
                  mergeDayRows_inv cfg.dbHomeId cfg.dbZoneId (reports e.1) e.2
                have hne2 : List.Pairwise (fun a b : Nat × NewClimateMeasurement => a.1 ≠ b.1)
                    (mergeDayRows cfg.dbHomeId cfg.dbZoneId (reports e.1) e.2) :=
                  List.Pairwise.imp (fun h => Nat.ne_of_lt h) hms
                rw [remove_leading_bogus_eq_dropWhile _ hne2]
                apply dropWhile_eq_nil_of_all
                intro pr hpr
                have hfind2 : mapFind pr.1 (mergeDayRows cfg.dbHomeId cfg.dbZoneId
                    (reports e.1) e.2) = some pr.2 := mapFind_of_mem _ pr.1 pr.2 hms hpr
                have hpgap : timestamp_in_any_gap pr.1 e.2 = true :=
                  hmkeys pr.1 (by rw [hfind2]; rfl)
                obtain ⟨hnot2, e1, he1, hday, hp1g⟩ := htrans pr.1 hpgap
                have hfve1 : fv1 ≤ e1.1 := by rw [hday]; exact hfve
                have htr := mergeDayRows_transfer cfg.dbHomeId cfg.dbZoneId (reports e.1)
                  e1.2 e.2 pr.1 hp1g hpgap
                have hfind1 : mapFind pr.1 (mergeDayRows cfg.dbHomeId cfg.dbZoneId
                    (reports e.1) e1.2) = some pr.2 := by rw [htr]; exact hfind2
                have hmem1 : (pr.1, pr.2) ∈ mergeDayRows cfg.dbHomeId cfg.dbZoneId
                    (reports e.1) e1.2 := mapFind_eq_some_mem pr.1 pr.2 _ hfind1
                have hsplit := List.takeWhile_append_dropWhile
                  (fun x : Nat × NewClimateMeasurement => measurement_is_leading_bogus x.2)
                  (mergeDayRows cfg.dbHomeId cfg.dbZoneId (reports e.1) e1.2)
                rw [← hsplit] at hmem1
                rcases List.mem_append.mp hmem1 with hT | hD
                · have hTT := List.mem_takeWhile_imp hT
                  exact hTT
                · exfalso
                  obtain ⟨h1s, _, _⟩ :=
                    mergeDayRows_inv cfg.dbHomeId cfg.dbZoneId (reports e.1) e1.2
                  have hne1 : List.Pairwise
                      (fun a b : Nat × NewClimateMeasurement => a.1 ≠ b.1)
                      (mergeDayRows cfg.dbHomeId cfg.dbZoneId (reports e.1) e1.2) :=
                    List.Pairwise.imp (fun h => Nat.ne_of_lt h) h1s
                  have hpr1 : (pr.1, pr.2) ∈ remove_leading_bogus_rows
                      (mergeDayRows cfg.dbHomeId cfg.dbZoneId (reports e.1) e1.2) := by
                    rw [remove_leading_bogus_eq_dropWhile _ hne1]
                    exact hD
                  have hkey1 : pr.1 ∈ (reconcile_day cfg.dbHomeId cfg.dbZoneId
                      (reports e1.1) e1.2 (some (compute_weather_backfill_window wstore
                        cfg.startT cfg.now))).1.map Prod.fst := by
                    rw [hday]
                    exact List.mem_map.mpr ⟨(pr.1, pr.2), hpr1, rfl⟩
                  exact hnot2 (hkeysC e1 he1 hfve1 pr.1 hkey1)
              have hK2 : (reconcile_day cfg.dbHomeId cfg.dbZoneId (reports e.1) e.2
                  (some (compute_weather_backfill_window wstore2 cfg.startT cfg.now))).2 =
                    [] := by
                show mergeDayWeatherRows cfg.dbHomeId (reports e.1) e.2
                  (some (compute_weather_backfill_window wstore2 cfg.startT cfg.now)) = []
                have hempty := mergeDayWeatherRows_empty cfg.dbHomeId (reports e.1) e.2
                  (compute_weather_backfill_window wstore2 cfg.startT cfg.now).1
                  (compute_weather_backfill_window wstore2 cfg.startT cfg.now).2 ?_
                · exact hempty
                intro di hdi ts hts hx
                obtain ⟨hx1, hx2, hx3⟩ := hx
                obtain ⟨hnot2, e1, he1, hday, hp1g⟩ := htrans ts hx3
                have hfve1 : fv1 ≤ e1.1 := by rw [hday]; exact hfve
                have hwmono := weather_window_mono wstore wstore2 cfg.startT cfg.now hwsub
                have hx1' : (compute_weather_backfill_window wstore cfg.startT cfg.now).1 ≤
                    ts := le_trans hwmono hx1
                have hx2' : ts <
                    (compute_weather_backfill_window wstore cfg.startT cfg.now).2 := by
                  rw [weather_window_snd]
                  rw [weather_window_snd] at hx2
                  exact hx2
                have hdimem : di ∈ conditionIntervals (reports e1.1) := by
                  rw [hday]
                  exact hdi
                have hkey := mergeDayWeatherRows_key cfg.dbHomeId (reports e1.1) e1.2
                  (compute_weather_backfill_window wstore cfg.startT cfg.now).1
                  (compute_weather_backfill_window wstore cfg.startT cfg.now).2 ts di
                  hdimem hts hx1' hx2' hp1g
                have hq2m : ts ∈ (reconcile_day cfg.dbHomeId cfg.dbZoneId (reports e1.1)
                    e1.2 (some (compute_weather_backfill_window wstore cfg.startT
                      cfg.now))).2.map Prod.fst :=
                  mapFind_isSome_mem_keys ts _ hkey
                have hin : ts ∈ wstore2 := hkeysW e1 he1 hfve1 ts hq2m
                have hgt := weather_window_gt wstore2 cfg.startT cfg.now ts hin
                omega
              show (insertTimes store2 ((reconcile_day cfg.dbHomeId cfg.dbZoneId
                  (reports e.1) e.2 (some (compute_weather_backfill_window wstore2
                    cfg.startT cfg.now))).1.map Prod.fst),
                insertTimes wstore2 ((reconcile_day cfg.dbHomeId cfg.dbZoneId
                  (reports e.1) e.2 (some (compute_weather_backfill_window wstore2
                    cfg.startT cfg.now))).2.map Prod.fst)) = (store2, wstore2)
              rw [hK1, hK2]
              rfl
          · rw [if_neg hcond]

/-- With no decimation and a cut-over remote, a second per-zone backfill run
over the stores produced by the first run returns them unchanged. -/
theorem backfill_second_run_noop (cfg : BackfillConfig) (reports : Nat → DayReport)
    (k : Nat) (store wstore : List Nat)
    (hrate : cfg.sampleRate = none) (hmg : 2 ≤ cfg.minGap)
    (hk : ∀ d, is_day_report_bogus (reports d) = decide (d < k))
    (hsort : List.Pairwise (· ≤ ·) store)
    (hlb : ∀ t ∈ store, cfg.startT ≤ t)
    (hub : ∀ t ∈ store, t < cfg.now) :
    run_zone_backfill cfg reports (run_zone_backfill cfg reports store wstore).1
      (run_zone_backfill cfg reports store wstore).2 =
      run_zone_backfill cfg reports store wstore := by
  rcases hE : find_zone_gaps cfg.startT cfg.now store cfg.minGap with _ | ⟨e0, rest1⟩
  · have he1 : run_zone_backfill cfg reports store wstore = (store, wstore) := by
      rw [run_zone_backfill_eq, hE]
    rw [he1]
    exact he1
  · cases e0 with
    | mk d01 g01 =>
        rcases hF : find_first_non_bogus_day (fun d => is_day_report_bogus (reports d)) d01
            ((((d01, g01) :: rest1).getLastD (d01, g01)).1) with _ | fv1
        · have he1 : run_zone_backfill cfg reports store wstore = (store, wstore) := by
            rw [run_zone_backfill_eq, hE]
            show (match find_first_non_bogus_day (fun d => is_day_report_bogus (reports d))
                d01 ((((d01, g01) :: rest1).getLastD (d01, g01)).1) with
              | none => (store, wstore)
              | some firstValid =>
                  ((d01, g01) :: rest1).foldl
                    (backfillStep cfg reports firstValid
                      (compute_weather_backfill_window wstore cfg.startT cfg.now))
                    (store, wstore)) = (store, wstore)
            rw [hF]
          rw [he1]
          exact he1
        · have he1 : run_zone_backfill cfg reports store wstore =
              ((d01, g01) :: rest1).foldl
                (backfillStep cfg reports fv1
                  (compute_weather_backfill_window wstore cfg.startT cfg.now))
                (store, wstore) := by
            rw [run_zone_backfill_eq, hE]
            show (match find_first_non_bogus_day (fun d => is_day_report_bogus (reports d))
                d01 ((((d01, g01) :: rest1).getLastD (d01, g01)).1) with
              | none => (store, wstore)
              | some firstValid =>
                  ((d01, g01) :: rest1).foldl
                    (backfillStep cfg reports firstValid
                      (compute_weather_backfill_window wstore cfg.startT cfg.now))
                    (store, wstore)) = _
            rw [hF]
          have hents1 := find_zone_gaps_entries cfg.startT cfg.now cfg.minGap store hsort hub
          rw [hE] at hents1
          have hd01le : ∀ e ∈ (d01, g01) :: rest1, d01 ≤ e.1 := by
            intro e he
            rcases List.mem_cons.mp he with h | h
            · rw [h]
            · exact Nat.le_of_lt ((List.pairwise_cons.mp hents1.1).1 e h)
          have hdle1 : d01 ≤ ((((d01, g01) :: rest1).getLastD (d01, g01)).1) := by
            have hgl : ((d01, g01) :: rest1).getLastD (d01, g01) =
                rest1.getLastD (d01, g01) := by
              cases rest1 <;> rfl
            rw [hgl]
            exact hd01le _ (getLastD_mem rest1 (d01, g01))
          have hcut := find_first_cutover (fun d => is_day_report_bogus (reports d)) d01
            ((((d01, g01) :: rest1).getLastD (d01, g01)).1) k hdle1 (fun d _ _ => hk d)
          rw [hcut] at hF
          have hfv1eq : fv1 = max d01 k := by
            by_cases hc : max d01 k ≤ ((((d01, g01) :: rest1).getLastD (d01, g01)).1)
            · rw [if_pos hc] at hF
              exact (Option.some.inj hF).symm
            · rw [if_neg hc] at hF
              cases hF
          rw [he1]
          refine run_zone_backfill_second_noop cfg reports k fv1 store wstore
            (((d01, g01) :: rest1).foldl
              (backfillStep cfg reports fv1
                (compute_weather_backfill_window wstore cfg.startT cfg.now))
              (store, wstore)).1
            (((d01, g01) :: rest1).foldl
              (backfillStep cfg reports fv1
                (compute_weather_backfill_window wstore cfg.startT cfg.now))
              (store, wstore)).2
            hrate hmg hk hsort hlb hub ?_ ?_ ?_ ?_ ?_ ?_ ?_
          · exact backfillFold_sorted cfg reports fv1 _ _ (store, wstore) hsort
          · intro t ht
            rcases (backfillFold_mem_inv cfg reports fv1
                (compute_weather_backfill_window wstore cfg.startT cfg.now)
                ((d01, g01) :: rest1) (store, wstore) t).1 ht with h | ⟨e, he, hkey⟩
            · exact hub t h
            · have hg := reconcile_climate_keys cfg.dbHomeId cfg.dbZoneId (reports e.1) e.2
                _ t hkey
              have hfacts := find_zone_gaps_point_facts cfg.startT cfg.now cfg.minGap store
                hsort hub e (by rw [hE]; exact he) t hg
              exact hfacts.2.1
          · exact (backfillFold_grow cfg reports fv1 _ ((d01, g01) :: rest1)
              (store, wstore)).1
          · exact (backfillFold_grow cfg reports fv1 _ ((d01, g01) :: rest1)
              (store, wstore)).2
          · intro e1 he1'
            have hd := hd01le e1 (by rw [← hE]; exact he1')
            omega
          · intro e1 he1' hfve1
            have hmem1 : e1 ∈ (d01, g01) :: rest1 := by rw [← hE]; exact he1'
            have hne1 : e1.2 ≠ [] := (hents1.2 e1 hmem1).2.2.1
            refine (backfillFold_keys cfg reports fv1
              (compute_weather_backfill_window wstore cfg.startT cfg.now)
              ((d01, g01) :: rest1) (store, wstore) e1 hmem1 (by omega) ?_ ?_).1
            · cases hx : e1.2 with
              | nil => exact absurd hx hne1
              | cons _ _ => simp [hx]
            · rw [hrate]
              simp [skipDecimatedDay]
          · intro e1 he1' hfve1
            have hmem1 : e1 ∈ (d01, g01) :: rest1 := by rw [← hE]; exact he1'
            have hne1 : e1.2 ≠ [] := (hents1.2 e1 hmem1).2.2.1
            refine (backfillFold_keys cfg reports fv1
              (compute_weather_backfill_window wstore cfg.startT cfg.now)
              ((d01, g01) :: rest1) (store, wstore) e1 hmem1 (by omega) ?_ ?_).2
            · cases hx : e1.2 with
              | nil => exact absurd hx hne1
              | cons _ _ => simp [hx]
            · rw [hrate]
              simp [skipDecimatedDay]

/-- The idempotence witness configuration: the three-day window without
day-sampling decimation. -/
def noDecimationConfig : BackfillConfig :=
  ⟨0, 3 * daySecs, 14400, none, 7, 9⟩

/-- C6, counterexample: with day-sampling decimation enabled the scheduler is
not idempotent.  Under a decimation rate of 2 the first run fills only the
sampled days of the three-day window (14 rows); the second run re-detects the
skipped middle day as the first remaining gap day, which is exempt from
decimation, and inserts its 7 rows. -/
theorem backfill_idempotence_claim_fails :
    ¬((run_zone_backfill cexBackfillConfig denseGenuineReport
        (run_zone_backfill cexBackfillConfig denseGenuineReport [] []).1
        (run_zone_backfill cexBackfillConfig denseGenuineReport [] []).2).1.length =
      (run_zone_backfill cexBackfillConfig denseGenuineReport [] []).1.length) := by
  decide

/-- C6 (amended): without day-sampling decimation, and against a remote whose
day reports turn from bogus to genuine at a single cut-over day, running the
per-zone Backfill Scheduler a second time over the stores produced by the
first run returns them unchanged: gaps are re-detected from the now-populated
store, every candidate climate row the second run reconciles is a leading
sentinel row that the strip removes, every candidate weather row falls below
the recomputed weather window, and the conflict-skipping bulk inserts receive
nothing. -/
theorem backfill_idempotent_no_decimation (cfg : BackfillConfig)
    (reports : Nat → DayReport) (k : Nat) (store wstore : List Nat)
    (hrate : cfg.sampleRate = none) (hmg : 2 ≤ cfg.minGap)
    (hk : ∀ d, is_day_report_bogus (reports d) = decide (d < k))
    (hsort : List.Pairwise (· ≤ ·) store)
    (hlb : ∀ t ∈ store, cfg.startT ≤ t)
    (hub : ∀ t ∈ store, t < cfg.now) :
    run_zone_backfill cfg reports (run_zone_backfill cfg reports store wstore).1
      (run_zone_backfill cfg reports store wstore).2 =
      run_zone_backfill cfg reports store wstore :=
  backfill_second_run_noop cfg reports k store wstore hrate hmg hk hsort hlb hub

/-- C6 witness: over the three-day window without decimation, the dense
genuine remote and empty stores, the first run inserts the 21 reconciled rows
and the second run returns its stores unchanged. -/
theorem backfill_idempotent_no_decimation_witness :
    run_zone_backfill noDecimationConfig denseGenuineReport
        (run_zone_backfill noDecimationConfig denseGenuineReport [] []).1
        (run_zone_backfill noDecimationConfig denseGenuineReport [] []).2 =
      run_zone_backfill noDecimationConfig denseGenuineReport [] [] :=
  backfill_idempotent_no_decimation noDecimationConfig denseGenuineReport 0 [] []
    rfl (by decide) (fun d => by rw [decide_eq_false (Nat.not_lt_zero d)]; rfl)
    List.Pairwise.nil (fun t ht => absurd ht (List.not_mem_nil t))
    (fun t ht => absurd ht (List.not_mem_nil t))

end TadoTS
